import Mathlib

/-! CPP-Capstone: lane-crossing simulation core

A shallow embedding of `src/lane.cpp`, `src/frog.cpp`, `src/game.cpp` and the seed helper of
`src/main.cpp`, followed by the theorems that settle the specification's claims against it.

Modelling conventions.

* `int` values are `Int`; the program's counters grow by at most 7 per call, so 32-bit signed
  overflow (undefined behaviour in C++) is outside the model.  C++ `%` and `/` on `int` truncate
  toward zero and are `Int.tmod` and `Int.tdiv`.
* `uint64_t` values are `Nat`, every operation reduced `% 2 ^ 64` as the hardware does.
* `float` and `double` values are exact rationals (`ℚ`) in the embedding of the lane
  generator, the collision test and the game: no rounding, no NaN, no infinity; `std::fmod` is
  the truncated remainder.  The statements that rounding, overflow and NaN decide, on the phase
  after `Lane::Update` and on the cull test of `Lane::ForEachVisibleVehicle`, are made on a
  second embedding of `lane.cpp` in IEEE-754 binary32 (`F32`, `LaneF32`).
* `std::string` is the list of its units (`char` values as `Nat`), `std::deque` and `std::array`
  are lists, with `front` the head.
* A member function that mutates its object returns the new object; `HandleInput` returns the
  pair of its `bool` result and the new `Game`.
* A callback that captures a variable by reference is a state-passing function.
-/

namespace Frogger

/-! ## vehicle.h, lane.h: plain data -/

/-- Lane classification, `enum class LaneType`. -/
inductive LaneType where
  | Safe
  | Traffic
  deriving DecidableEq, Repr

/-- Traffic direction, `enum class Direction`. -/
inductive Direction where
  | Left
  | Right
  deriving DecidableEq, Repr

/-- Tile-space rectangle, `struct TileRect`. -/
structure TileRect where
  x : ℚ
  y : ℚ
  w : ℚ
  h : ℚ
  deriving DecidableEq, Repr

/-- One of the five repeating vehicles of a lane, `struct VehicleSlot`. -/
structure VehicleSlot where
  lengthTiles : Int
  gapTiles : Int
  offset : ℚ
  deriving DecidableEq, Repr

/-- Configuration of a lane, `struct LaneConfig`, with its default member values. -/
structure LaneConfig where
  type : LaneType := LaneType.Safe
  dir : Direction := Direction.Right
  minSpeedTilesSec : ℚ := 0
  maxSpeedTilesSec : ℚ := 0
  baseSpeedTilesSec : ℚ := 0
  pattern : List VehicleSlot := List.replicate 5 ⟨0, 0, 0⟩
  deriving DecidableEq, Repr

/-- The private state of `class Lane`. -/
structure Lane where
  worldRowIndex_ : Int := 0
  type_ : LaneType := LaneType.Safe
  dir_ : Direction := Direction.Right
  minSpeed_ : ℚ := 0
  maxSpeed_ : ℚ := 0
  baseSpeed_ : ℚ := 0
  slots_ : List VehicleSlot := List.replicate 5 ⟨0, 0, 0⟩
  loopLenTiles_ : ℚ := 0
  phase_ : ℚ := 0
  deriving DecidableEq, Repr

/-! ## lane.cpp -/

/-- Truncated remainder `std::fmod x y`: `x - trunc (x / y) * y`, the quotient truncated toward
zero.  For `y = 0`, where C++ yields NaN, the value is `x`; every lane the constructors build
has a positive loop length. -/
def fmod (x y : ℚ) : ℚ :=
  x - (((x / y).num.tdiv ((x / y).den : Int) : Int) : ℚ) * y

/-- The helper `clampf`: `std::max(lo, std::min(v, hi))`. -/
def clampf (v lo hi : ℚ) : ℚ :=
  max lo (min v hi)

/-- The loop of `Lane::buildPatternOffsets_`: each slot receives the running total as its offset
and the total grows by `lengthTiles + gapTiles`.  Returns the slots and the final total. -/
def offsetsLoop : List VehicleSlot → ℚ → List VehicleSlot × ℚ
  | [], acc => ([], acc)
  | s :: rest, acc =>
    let r := offsetsLoop rest (acc + ((s.lengthTiles + s.gapTiles : Int) : ℚ))
    ({ s with offset := acc } :: r.1, r.2)

/-- The function `Lane::buildPatternOffsets_`. -/
def Lane.buildPatternOffsets_ (ln : Lane) : Lane :=
  let r := offsetsLoop ln.slots_ 0
  let len : ℚ := if r.2 ≤ 0 then 1 else r.2
  { ln with slots_ := r.1, loopLenTiles_ := len, phase_ := fmod ln.phase_ len }

/-- The constructor `Lane::Lane(worldRowIndex, type, dir, min, max, base, lengths, gaps)`. -/
def Lane.ofArrays (worldRowIndex : Int) (type : LaneType) (dir : Direction)
    (minSpeedTilesSec maxSpeedTilesSec baseSpeedTilesSec : ℚ)
    (lengths gaps : List Int) : Lane :=
  Lane.buildPatternOffsets_
    { worldRowIndex_ := worldRowIndex
      type_ := type
      dir_ := dir
      minSpeed_ := minSpeedTilesSec
      maxSpeed_ := maxSpeedTilesSec
      baseSpeed_ := baseSpeedTilesSec
      slots_ := List.zipWith (fun l g => (⟨l, g, 0⟩ : VehicleSlot)) lengths gaps
      loopLenTiles_ := 0
      phase_ := 0 }

/-- The constructor `Lane::Lane(worldRowIndex, cfg)`. -/
def Lane.ofConfig (worldRowIndex : Int) (cfg : LaneConfig) : Lane :=
  Lane.buildPatternOffsets_
    { worldRowIndex_ := worldRowIndex
      type_ := cfg.type
      dir_ := cfg.dir
      minSpeed_ := cfg.minSpeedTilesSec
      maxSpeed_ := cfg.maxSpeedTilesSec
      baseSpeed_ := cfg.baseSpeedTilesSec
      slots_ := cfg.pattern
      loopLenTiles_ := 0
      phase_ := 0 }

/-- The function `Lane::CurrentSpeed`. -/
def Lane.CurrentSpeed (ln : Lane) (difficultyScale : ℚ) : ℚ :=
  if ln.type_ = LaneType.Safe then 0
  else clampf (ln.baseSpeed_ * max 1 difficultyScale) ln.minSpeed_ ln.maxSpeed_

/-- The function `Lane::Update` in exact arithmetic; `LaneF32.Update` is the same function in
binary32, where the sum can overflow and the shift by the loop length rounds. -/
def Lane.Update (ln : Lane) (dtSeconds difficultyScale : ℚ) : Lane :=
  if ln.type_ = LaneType.Safe then ln
  else
    let eff := ln.CurrentSpeed difficultyScale
    let p := fmod (ln.phase_ + eff * dtSeconds) ln.loopLenTiles_
    { ln with phase_ := if p < 0 then p + ln.loopLenTiles_ else p }

/-- The local `phase` of `Lane::ForEachVisibleVehicle`: `phase_` reduced into the loop. -/
def Lane.phaseInLoop (ln : Lane) : ℚ :=
  let p := fmod ln.phase_ ln.loopLenTiles_
  if p < 0 then p + ln.loopLenTiles_ else p

/-- The local `x` of `Lane::ForEachVisibleVehicle`: the left edge of slot `s`. -/
def Lane.vehicleX (ln : Lane) (gridW : Int) (s : VehicleSlot) : ℚ :=
  if ln.dir_ = Direction.Right then
    -(s.lengthTiles : ℚ) + (ln.phaseInLoop - s.offset)
  else
    (gridW : ℚ) + (s.offset - ln.phaseInLoop)

/-- One iteration of the loop of `Lane::ForEachVisibleVehicle`: cull the slot, or pass its
rectangle to the callback `fn`, which updates the state `acc` it captured.  Exact arithmetic:
`x` is always a number; `LaneF32.visitSlot` is the iteration in binary32, where `x` can be
NaN. -/
def Lane.visitSlot {σ : Type} (ln : Lane) (gridW screenRowY : Int) (fn : σ → TileRect → σ)
    (acc : σ) (s : VehicleSlot) : σ :=
  let w : ℚ := (s.lengthTiles : ℚ)
  let x : ℚ := ln.vehicleX gridW s
  if x + w ≤ 0 ∨ x ≥ (gridW : ℚ) then acc
  else fn acc ⟨x, (screenRowY : ℚ), w, 1⟩

/-- The function `Lane::ForEachVisibleVehicle`, the callback made state-passing. -/
def Lane.ForEachVisibleVehicle {σ : Type} (ln : Lane) (gridW screenRowY : Int)
    (fn : σ → TileRect → σ) (init : σ) : σ :=
  if ln.type_ = LaneType.Safe then init
  else ln.slots_.foldl (ln.visitSlot gridW screenRowY fn) init

/-- The callback of `Lane::CollidesAtScreenRow`, which captures `hit`. -/
def collideStep (player : TileRect) (hit : Bool) (v : TileRect) : Bool :=
  let overlapX : Bool := decide (player.x < v.x + v.w) && decide (player.x + player.w > v.x)
  let overlapY : Bool := decide (player.y < v.y + v.h) && decide (player.y + player.h > v.y)
  if overlapX && overlapY then true else hit

/-- The function `Lane::CollidesAtScreenRow`. -/
def Lane.CollidesAtScreenRow (ln : Lane) (player : TileRect) (gridW screenRowY : Int) : Bool :=
  if ln.type_ = LaneType.Safe then false
  else ln.ForEachVisibleVehicle gridW screenRowY (collideStep player) false

/-- The sequence of rectangles `Lane::ForEachVisibleVehicle` hands to its callback, in call
order (the specification's `visibleObstacles`). -/
def Lane.visibleObstacles (ln : Lane) (gridW screenRowY : Int) : List TileRect :=
  ln.ForEachVisibleVehicle gridW screenRowY (fun acc r => acc ++ [r]) []

/-! ## frog.cpp -/

/-- The type `SDL_Color`. -/
structure SDL_Color where
  r : Nat
  g : Nat
  b : Nat
  a : Nat
  deriving DecidableEq, Repr

/-- The private state of `class Frog`. -/
structure Frog where
  x_ : Int
  y_ : Int
  width_ : Int := 1
  height_ : Int := 1
  score_ : Int := 0
  color_ : SDL_Color
  deriving DecidableEq, Repr

/-- The constructor `Frog::Frog(startX, startY, color)`. -/
def Frog.create (startX startY : Int) (color : SDL_Color) : Frog :=
  { x_ := startX, y_ := startY, color_ := color }

/-- The function `Frog::MoveUp`. -/
def Frog.MoveUp (f : Frog) : Frog :=
  { f with y_ := f.y_ + 1, score_ := f.score_ + 1 }

/-- The function `Frog::MoveDown`. -/
def Frog.MoveDown (f : Frog) : Frog :=
  if f.y_ = 0 then f else { f with y_ := f.y_ - 1, score_ := f.score_ - 1 }

/-- The function `Frog::MoveLeft`. -/
def Frog.MoveLeft (f : Frog) : Frog :=
  { f with x_ := f.x_ - 1 }

/-- The function `Frog::MoveRight`. -/
def Frog.MoveRight (f : Frog) : Frog :=
  { f with x_ := f.x_ + 1 }

/-- The function `Frog::SetPosition`. -/
def Frog.SetPosition (f : Frog) (x y : Int) : Frog :=
  { f with x_ := x, y_ := y }

/-- The function `Frog::SetScore`. -/
def Frog.SetScore (f : Frog) (score : Int) : Frog :=
  { f with score_ := score }

/-! ## game.cpp -/

/-- Discrete one-tile inputs, `enum class InputAction`. -/
inductive InputAction where
  | Up
  | Down
  | Left
  | Right
  deriving DecidableEq, Repr

/-- The private state of `class Game`. -/
structure Game where
  gridW_ : Int
  gridH_ : Int
  frog_ : Frog
  gameOver_ : Bool
  lanes_ : List Lane
  pregen_ : List Lane
  topRowWorld_ : Int
  bottomRowWorld_ : Int
  lanesAdvanced_ : Int
  normSeed10_ : List Nat
  matchSeed_ : Nat
  difficultyAlpha_ : ℚ
  inputLockOnce_ : Bool
  deriving DecidableEq, Repr

/-- The loop `while (out.size() < 10) out += s;` of `Game::NormalizeSeed10`, with a bound on the
number of iterations. -/
def normalizeLoop : Nat → List Nat → List Nat → List Nat
  | 0, _, out => out
  | fuel + 1, s, out => if out.length < 10 then normalizeLoop fuel s (out ++ s) else out

/-- The function `Game::NormalizeSeed10`.  `rnd i` is the value the random device yields for the
`i`-th digit of an empty seed.  Ten iterations of the append loop suffice for a non-empty `s`. -/
def NormalizeSeed10 (rnd : Nat → Nat) (s : List Nat) : List Nat :=
  if s.isEmpty then (List.range 10).map (fun i => 48 + rnd i % 10)
  else if s.length ≥ 10 then s.take 10
  else (normalizeLoop 10 s []).take 10

/-- The function `Game::SeedToU64`: the loop `for (unsigned char c : norm10) { h ^= c; h *= p; }`
from `h = 1469598103934665603ULL` with `p = 1099511628211ULL`. -/
def SeedToU64 (norm10 : List Nat) : Nat :=
  norm10.foldl (fun h c => ((h ^^^ (c % 256)) * 1099511628211) % 2 ^ 64) 1469598103934665603

/-- The lambda `splitmix64` of `Game::GenerateLane`: the drawn value and the new state `x`. -/
def splitmix64 (x : Nat) : Nat × Nat :=
  let x1 := (x + 0x9E3779B97F4A7C15) % 2 ^ 64
  let z1 := ((x1 ^^^ (x1 >>> 30)) * 0xBF58476D1CE4E5B9) % 2 ^ 64
  let z2 := ((z1 ^^^ (z1 >>> 27)) * 0x94D049BB133111EB) % 2 ^ 64
  (z2 ^^^ (z2 >>> 31), x1)

/-- The lambda `nextF` of `Game::GenerateLane`: the drawn value and the new generator state. -/
def nextF (sm : Nat) (lo hi : ℚ) : ℚ × Nat :=
  let u := splitmix64 sm
  let r : ℚ := ((u.1 >>> 11 : Nat) : ℚ) * (1 / 9007199254740992)
  (lo + (hi - lo) * r, u.2)

/-- Conversion `static_cast<int>` of a `uint64_t`: the low 32 bits, two's complement. -/
def toInt32 (n : Nat) : Int :=
  if n % 2 ^ 32 < 2 ^ 31 then ((n % 2 ^ 32 : Nat) : Int) else ((n % 2 ^ 32 : Nat) : Int) - 2 ^ 32

/-- Conversion `static_cast<uint64_t>` of an `int`. -/
def toU64 (i : Int) : Nat :=
  (i % 2 ^ 64).toNat

/-- The lambda `nextI` of `Game::GenerateLane`: the drawn value and the new generator state. -/
def nextI (sm : Nat) (lo hi : Int) : Int × Nat :=
  let u := splitmix64 sm
  (lo + toInt32 (u.1 % toU64 (hi - lo + 1)), u.2)

/-- The loop `for (int i=0;i<5;++i)` of `Game::GenerateLane` drawing lengths and gaps, run for
`n` iterations: the lengths, the gaps and the new generator state. -/
def vehicleLoop : Nat → Nat → List Int × List Int × Nat
  | 0, sm => ([], [], sm)
  | n + 1, sm =>
    let r := nextI sm 0 99
    let len : Int := if r.1 < 20 then 1 else (if r.1 < 60 then 2 else 3)
    let g := nextI r.2 2 5
    let rest := vehicleLoop n g.2
    (len :: rest.1, g.1 :: rest.2.1, rest.2.2)

/-- The function `Game::GenerateLane`, the member `matchSeed_` it reads made a parameter. -/
def GenerateLane (matchSeed_ : Nat) (worldRow : Int) : Lane :=
  let mod := worldRow.tmod 7
  if mod = 0 ∨ mod = 1 then
    Lane.ofConfig worldRow
      { type := LaneType.Safe
        dir := Direction.Right
        pattern := List.replicate 5 ⟨1, 2, 0⟩ }
  else
    let sm := matchSeed_ ^^^ ((0xD6E8FEB86659FD93 * toU64 worldRow) % 2 ^ 64)
    let inBlock := worldRow.tmod 7
    let blockId := worldRow.tdiv 7
    let dir := if (blockId + inBlock).tmod 2 = 0 then Direction.Left else Direction.Right
    let minS := nextF sm (3 / 2) 3
    let d := nextF minS.2 (1 / 2) 2
    let maxS : ℚ := min (9 / 2) (minS.1 + d.1)
    let base := nextF d.2 minS.1 maxS
    let v := vehicleLoop 5 base.2
    Lane.ofArrays worldRow LaneType.Traffic dir minS.1 maxS base.1 v.1 v.2.1

/-- The constructor `Game::Game(gridW, gridH)` with the default member initialisers. -/
def Game.create (gridW gridH : Int) : Game :=
  { gridW_ := gridW
    gridH_ := gridH
    frog_ := Frog.create 0 0 ⟨0, 255, 0, 255⟩
    gameOver_ := false
    lanes_ := []
    pregen_ := []
    topRowWorld_ := 0
    bottomRowWorld_ := 0
    lanesAdvanced_ := 0
    normSeed10_ := []
    matchSeed_ := 0
    difficultyAlpha_ := 2 / 100
    inputLockOnce_ := false }

/-- The loop `for (int wr = 0; wr < gridH_; ++wr) lanes_.push_front(GenerateLane(wr));` of
`Game::ResetWithSeed`, for `n` remaining iterations from row `wr`. -/
def resetLanesLoop (matchSeed_ : Nat) : Nat → Int → List Lane → List Lane
  | 0, _, lanes => lanes
  | n + 1, wr, lanes => resetLanesLoop matchSeed_ n (wr + 1) (GenerateLane matchSeed_ wr :: lanes)

/-- The loop `for (int i = 1; i <= 5; ++i) pregen_.push_back(GenerateLane(topRowWorld_ + i));`
of `Game::ResetWithSeed`, for `n` remaining iterations from index `i`. -/
def resetPregenLoop (matchSeed_ : Nat) (topRowWorld_ : Int) : Nat → Int → List Lane → List Lane
  | 0, _, pregen => pregen
  | n + 1, i, pregen =>
    resetPregenLoop matchSeed_ topRowWorld_ n (i + 1)
      (pregen ++ [GenerateLane matchSeed_ (topRowWorld_ + i)])

/-- The function `Game::ResetWithSeed`; `rnd` is the random device read for an empty seed. -/
def Game.ResetWithSeed (g : Game) (rnd : Nat → Nat) (userSeed10 : List Nat)
    (frogColor : SDL_Color) (startX : Int) : Game :=
  let norm := NormalizeSeed10 rnd userSeed10
  let seed := SeedToU64 norm
  let top := g.gridH_ - 1
  { g with
    normSeed10_ := norm
    matchSeed_ := seed
    frog_ := (Frog.create startX 0 frogColor).SetScore 0
    gameOver_ := false
    lanes_ := resetLanesLoop seed g.gridH_.toNat 0 []
    topRowWorld_ := top
    bottomRowWorld_ := 0
    pregen_ := resetPregenLoop seed top 5 1 []
    lanesAdvanced_ := 0 }

/-- The helper `difficultyScaleFrom`. -/
def difficultyScaleFrom (lanesAdvanced : Int) (alpha : ℚ) : ℚ :=
  max 1 (1 + alpha * (lanesAdvanced : ℚ))

/-- The collision loop of `Game::Update`: lanes from the top, `i` the index of the first one;
true when some lane reports a collision (the loop then breaks). -/
def collisionScan (gridW gridH : Int) (frogRect : TileRect) : List Lane → Int → Bool
  | [], _ => false
  | ln :: rest, i =>
    if ln.CollidesAtScreenRow frogRect gridW (gridH - 1 - i) then true
    else collisionScan gridW gridH frogRect rest (i + 1)

/-- The function `Game::Update`. -/
def Game.Update (g : Game) (dtSeconds : ℚ) : Game :=
  if g.gameOver_ then g
  else
    let scale := difficultyScaleFrom g.lanesAdvanced_ g.difficultyAlpha_
    let lanes := g.lanes_.map (fun ln => ln.Update dtSeconds scale)
    let frogRect : TileRect := ⟨(g.frog_.x_ : ℚ), (g.frog_.y_ : ℚ), 1, 1⟩
    let hit := collisionScan g.gridW_ g.gridH_ frogRect lanes 0
    { g with
      lanes_ := lanes
      gameOver_ := if hit then true else g.gameOver_
      inputLockOnce_ := if g.inputLockOnce_ then false else g.inputLockOnce_ }

/-- The loop `for (i < kShift) if (!lanes_.empty()) lanes_.pop_back();` of
`Game::ApplyScrollIfNeeded_`, for `n` iterations. -/
def popBackLoop : Nat → List Lane → List Lane
  | 0, lanes => lanes
  | n + 1, lanes => popBackLoop n (if lanes.isEmpty then lanes else lanes.dropLast)

/-- The loop of `Game::ApplyScrollIfNeeded_` that pushes the next world rows at the front, for
`n` iterations: the lanes and the new `topRowWorld_`. -/
def pushFrontLoop (matchSeed_ : Nat) : Nat → List Lane → Int → List Lane × Int
  | 0, lanes, top => (lanes, top)
  | n + 1, lanes, top =>
    pushFrontLoop matchSeed_ n (GenerateLane matchSeed_ (top + 1) :: lanes) (top + 1)

/-- The loop of `Game::EnsurePregen`, for at most `fuel` iterations. -/
def ensurePregenLoop (matchSeed_ : Nat) (topRowWorld_ : Int) : Nat → List Lane → List Lane
  | 0, pregen => pregen
  | fuel + 1, pregen =>
    if (pregen.length : Int) < 12 then
      ensurePregenLoop matchSeed_ topRowWorld_ fuel
        (pregen ++ [GenerateLane matchSeed_ (topRowWorld_ + (pregen.length : Int) + 1)])
    else pregen

/-- The function `Game::EnsurePregen`; each iteration adds one lane, so `12 - size` iterations
end the loop. -/
def Game.EnsurePregen (g : Game) : Game :=
  { g with
    pregen_ := ensurePregenLoop g.matchSeed_ g.topRowWorld_ (12 - g.pregen_.length) g.pregen_ }

/-- The condition `enteringNextBlockFirstSafe` of `Game::ApplyScrollIfNeeded_`. -/
def Game.enteringNextBlockFirstSafe (g : Game) (prevY newY : Int) : Bool :=
  let prevWorld := g.bottomRowWorld_ + prevY
  let newWorld := g.bottomRowWorld_ + newY
  decide (prevWorld.tmod 7 ≠ 0) && decide (newWorld.tmod 7 = 0) && decide (newWorld > prevWorld)

/-- The function `Game::ApplyScrollIfNeeded_`. -/
def Game.ApplyScrollIfNeeded_ (g : Game) (prevY newY : Int) : Game :=
  if g.enteringNextBlockFirstSafe prevY newY then
    let dropped := popBackLoop 7 g.lanes_
    let pushed := pushFrontLoop g.matchSeed_ 7 dropped g.topRowWorld_
    let g1 : Game :=
      { g with
        lanes_ := pushed.1
        bottomRowWorld_ := g.bottomRowWorld_ + 7
        topRowWorld_ := pushed.2 }
    let g2 := g1.EnsurePregen
    { g2 with
      lanesAdvanced_ := g2.lanesAdvanced_ + 7
      frog_ := g2.frog_.SetPosition g2.frog_.x_ 1
      inputLockOnce_ := true }
  else g

/-- The two statements of `Game::HandleInput` that clamp `x` after a move. -/
def Game.clampX (g : Game) : Game :=
  let g1 := if g.frog_.x_ < 0 then { g with frog_ := g.frog_.SetPosition 0 g.frog_.y_ } else g
  if g1.frog_.x_ ≥ g1.gridW_ then
    { g1 with frog_ := g1.frog_.SetPosition (g1.gridW_ - 1) g1.frog_.y_ }
  else g1

/-- The `switch` of `Game::HandleInput`: the frog after the move and the flag `moved`. -/
def Game.applyAction (g : Game) (a : InputAction) : Frog × Bool :=
  let prevX := g.frog_.x_
  let prevY := g.frog_.y_
  match a with
  | InputAction.Up => if prevY < g.gridH_ - 1 then (g.frog_.MoveUp, true) else (g.frog_, false)
  | InputAction.Down => if prevY > 0 then (g.frog_.MoveDown, true) else (g.frog_, false)
  | InputAction.Left => if prevX > 0 then (g.frog_.MoveLeft, true) else (g.frog_, false)
  | InputAction.Right =>
    if prevX < g.gridW_ - 1 then (g.frog_.MoveRight, true) else (g.frog_, false)

/-- The function `Game::HandleInput`: its result and the new state. -/
def Game.HandleInput (g : Game) (a : InputAction) : Bool × Game :=
  if g.gameOver_ || g.inputLockOnce_ then (false, g)
  else
    let prevY := g.frog_.y_
    let r := g.applyAction a
    let g1 : Game := { g with frog_ := r.1 }
    if r.2 then
      let g2 := g1.ApplyScrollIfNeeded_ prevY g1.frog_.y_
      (true, g2.clampX)
    else (false, g1)

/-- The loop of `Game::ForEachVehicle`: lanes from the top, `i` the index of the first one; the
callback `fn` updates the state it captured. -/
def forEachVehicleLoop {σ : Type} (gridW gridH : Int) (fn : σ → TileRect → σ) :
    List Lane → Int → σ → σ
  | [], _, acc => acc
  | ln :: rest, i, acc =>
    forEachVehicleLoop gridW gridH fn rest (i + 1)
      (ln.ForEachVisibleVehicle gridW (gridH - 1 - i) fn acc)

/-- The function `Game::ForEachVehicle`, the callback made state-passing. -/
def Game.ForEachVehicle {σ : Type} (g : Game) (fn : σ → TileRect → σ) (init : σ) : σ :=
  forEachVehicleLoop g.gridW_ g.gridH_ fn g.lanes_ 0 init

/-! ## main.cpp -/

/-- The loop `while (s.size() < 10) s += s;` of `normalizeSeed` in `main.cpp`, with a bound on
the number of iterations. -/
def doublingLoop : Nat → List Nat → List Nat
  | 0, s => s
  | fuel + 1, s => if s.length < 10 then doublingLoop fuel (s ++ s) else s

/-- The function `normalizeSeed` of `main.cpp`.  `rnd i` is the value the random device yields
for the `i`-th digit of an empty seed.  Four doublings suffice for a non-empty `s`. -/
def normalizeSeed (rnd : Nat → Nat) (s : List Nat) : List Nat :=
  if s.isEmpty then s ++ (List.range 10).map (fun i => 48 + rnd i % 10)
  else if s.length > 10 then s.take 10
  else (doublingLoop 4 s).take 10

/-! ## Runs of the public operations -/

/-- A call of one of the two operations that drive a session. -/
inductive Call where
  | tick (dtSeconds : ℚ)
  | input (a : InputAction)

/-- The state after one call. -/
def Game.step (g : Game) : Call → Game
  | Call.tick dt => g.Update dt
  | Call.input a => (g.HandleInput a).2

/-- The state after a sequence of calls, first call first. -/
def Game.run (g : Game) (calls : List Call) : Game :=
  calls.foldl Game.step g

/-- States reachable from a reset: `Game::ResetWithSeed` on a game in any state, then any
sequence of `Game::Update` and `Game::HandleInput` calls. -/
inductive Reachable : Game → Prop where
  | reset (g0 : Game) (rnd : Nat → Nat) (userSeed10 : List Nat) (frogColor : SDL_Color)
      (startX : Int) : Reachable (g0.ResetWithSeed rnd userSeed10 frogColor startX)
  | update {g : Game} (dtSeconds : ℚ) : Reachable g → Reachable (g.Update dtSeconds)
  | handleInput {g : Game} (a : InputAction) :
      Reachable g → Reachable (g.HandleInput a).2

/-! ## Vocabulary of the statements -/

/-- The world rows of a descending run of `n` rows whose top row is `top`. -/
def rowsFrom : Int → Nat → List Int
  | _, 0 => []
  | top, n + 1 => top :: rowsFrom (top - 1) n

/-- The player's grid position `(x, y)`. -/
def Game.position (g : Game) : Int × Int :=
  (g.frog_.x_, g.frog_.y_)

/-- Facts that hold in every state reachable from a reset: the window starts on a block
boundary, the player stays on the rows 0 to 6 of the window, the window is a gapless run of
`gridH_` world rows, and once the player has moved its column is a fixed point of the clamp. -/
structure WindowInv (g : Game) : Prop where
  bottom_nonneg : 0 ≤ g.bottomRowWorld_
  bottom_mod : g.bottomRowWorld_ % 7 = 0
  y_nonneg : 0 ≤ g.frog_.y_
  y_le : g.frog_.y_ ≤ 6
  y_lt : g.frog_.y_ = 0 ∨ g.frog_.y_ < g.gridH_
  span : g.topRowWorld_ - g.bottomRowWorld_ = g.gridH_ - 1
  len : g.lanes_.length = g.gridH_.toNat
  rows : g.lanes_.map Lane.worldRowIndex_ = rowsFrom g.topRowWorld_ g.lanes_.length
  x_fixed : 1 ≤ g.frog_.y_ → g.clampX = g

/-- FNV-1a 64-bit as the specification words it: from the offset basis
`14695981039346656037`, each byte is XORed into the accumulator, which is then multiplied by the
prime `1099511628211` modulo `2 ^ 64`.  A byte is its unit value modulo 256. -/
def fnv1a64Spec (b : List Nat) : Nat :=
  b.foldl (fun h c => ((h ^^^ (c % 256)) * 1099511628211) % 2 ^ 64) 14695981039346656037

/-- A session as `main` starts it: `Game(15, 9)` reset with the seed "42" at column 7. -/
def sampleGame : Game :=
  (Game.create 15 9).ResetWithSeed (fun _ => 0) [52, 50] ⟨0, 255, 0, 255⟩ 7

/-- The call sequence of `n` `Up` inputs with no tick in between. -/
def upCalls (n : Nat) : List Call :=
  List.replicate n (Call.input InputAction.Up)

/-- A one-by-one grid, reset at column 0: the player stands on all four edges. -/
def cornerGame : Game :=
  (Game.create 1 1).ResetWithSeed (fun _ => 0) [52, 50] ⟨0, 255, 0, 255⟩ 0

/-- The session of `sampleGame` after two `Up` inputs and a tick of four seconds. -/
def crashedGame : Game :=
  sampleGame.run [Call.input InputAction.Up, Call.input InputAction.Up, Call.tick 4]

/-- The units of `out` repeat `s`: `out` is a whole number of copies of `s`. -/
def RepeatsOf (s out : List Nat) : Prop :=
  s.length ∣ out.length ∧ ∀ i : Nat, i < out.length → out[i]? = s[i % s.length]?

/-- The tiles one slot takes of the loop: its length plus the gap after it. -/
def slotSpan (s : VehicleSlot) : ℚ :=
  ((s.lengthTiles + s.gapTiles : Int) : ℚ)

/-! ## lane.cpp in binary32 arithmetic

The phase arithmetic of `Lane::Update` and `Lane::ForEachVisibleVehicle` once more, with `float`
as IEEE-754 binary32: every `+`, `-`, `*` and every conversion from `int` rounds to the nearest
binary32 value, ties to even, each operation on its own (no fused multiply-add, no excess
precision); a result of magnitude `2 ^ 128` or more after rounding is an infinity; NaN
propagates and every comparison with NaN is false.  The two zeros are one value: no operation
used here tells them apart. -/

/-- A value of the type `float`: a finite number, an infinity or NaN. -/
inductive F32 where
  | fin (q : ℚ)
  | posInf
  | negInf
  | nan
  deriving DecidableEq, Repr

/-- The power `2 ^ e` for an integer exponent. -/
def twoPow (e : Int) : ℚ :=
  if 0 ≤ e then ((2 ^ e.toNat : Nat) : ℚ) else 1 / ((2 ^ (-e).toNat : Nat) : ℚ)

/-- Halving loop of `ilog2`; `steps` bounds the number of halvings. -/
def log2Loop : Nat → Nat → Nat
  | 0, _ => 0
  | steps + 1, n => if 2 ≤ n then log2Loop steps (n / 2) + 1 else 0

/-- The position of the highest set bit of `n`: `2 ^ ilog2 n ≤ n < 2 ^ (ilog2 n + 1)` for
`n ≠ 0`; `n` halvings always suffice. -/
def ilog2 (n : Nat) : Nat :=
  log2Loop n n

/-- The binary exponent of a positive rational `a`: `2 ^ e ≤ a < 2 ^ (e + 1)`. -/
def floorLog2 (a : ℚ) : Int :=
  let e : Int := (ilog2 a.num.toNat : Int) - (ilog2 a.den : Int)
  if twoPow e ≤ a then e else e - 1

/-- Rounding of a rational to the nearest integer, ties to the even one. -/
def roundHalfEven (x : ℚ) : Int :=
  let f : Int := x.num / (x.den : Int)
  let r : ℚ := x - (f : ℚ)
  if r < 1 / 2 then f
  else if 1 / 2 < r then f + 1
  else if f % 2 = 0 then f else f + 1

/-- Rounding of an exact result to binary32: 24 significant bits, least exponent `-126`
(below it the spacing stays `2 ^ (-149)`, the subnormal range), round to nearest, ties to even,
overflow to an infinity. -/
def round32 (q : ℚ) : F32 :=
  if q = 0 then F32.fin 0
  else
    let a : ℚ := if q < 0 then -q else q
    let e : Int := max (floorLog2 a) (-126)
    let quantum : ℚ := twoPow (e - 23)
    let r : ℚ := (roundHalfEven (a / quantum) : ℚ) * quantum
    if twoPow 128 ≤ r then (if q < 0 then F32.negInf else F32.posInf)
    else F32.fin (if q < 0 then -r else r)

/-- The conversion `static_cast<float>(i)`. -/
def F32.ofInt (i : Int) : F32 :=
  round32 (i : ℚ)

/-- Unary minus on `float`. -/
def F32.neg : F32 → F32
  | F32.fin q => F32.fin (-q)
  | F32.posInf => F32.negInf
  | F32.negInf => F32.posInf
  | F32.nan => F32.nan

/-- The operator `+` on `float`. -/
def F32.add : F32 → F32 → F32
  | F32.fin a, F32.fin b => round32 (a + b)
  | F32.nan, _ => F32.nan
  | _, F32.nan => F32.nan
  | F32.posInf, F32.negInf => F32.nan
  | F32.negInf, F32.posInf => F32.nan
  | F32.posInf, _ => F32.posInf
  | F32.negInf, _ => F32.negInf
  | F32.fin _, F32.posInf => F32.posInf
  | F32.fin _, F32.negInf => F32.negInf

/-- The operator `-` on `float`. -/
def F32.sub (a b : F32) : F32 :=
  F32.add a (F32.neg b)

/-- The product of an infinity of sign `negative` with the finite number `b`. -/
def F32.infTimes (negative : Bool) (b : ℚ) : F32 :=
  if b = 0 then F32.nan
  else if (decide (b < 0)) = negative then F32.posInf else F32.negInf

/-- The operator `*` on `float`. -/
def F32.mul : F32 → F32 → F32
  | F32.fin a, F32.fin b => round32 (a * b)
  | F32.nan, _ => F32.nan
  | _, F32.nan => F32.nan
  | F32.posInf, F32.posInf => F32.posInf
  | F32.posInf, F32.negInf => F32.negInf
  | F32.negInf, F32.posInf => F32.negInf
  | F32.negInf, F32.negInf => F32.posInf
  | F32.posInf, F32.fin b => F32.infTimes false b
  | F32.negInf, F32.fin b => F32.infTimes true b
  | F32.fin a, F32.posInf => F32.infTimes false a
  | F32.fin a, F32.negInf => F32.infTimes true a

/-- The operator `<` on `float`. -/
def F32.lt : F32 → F32 → Bool
  | F32.fin a, F32.fin b => decide (a < b)
  | F32.nan, _ => false
  | _, F32.nan => false
  | F32.negInf, F32.negInf => false
  | F32.negInf, _ => true
  | F32.posInf, _ => false
  | F32.fin _, F32.posInf => true
  | F32.fin _, F32.negInf => false

/-- The operator `<=` on `float`; `a >= b` is `F32.le b a`. -/
def F32.le : F32 → F32 → Bool
  | F32.fin a, F32.fin b => decide (a ≤ b)
  | F32.nan, _ => false
  | _, F32.nan => false
  | F32.negInf, _ => true
  | F32.posInf, F32.posInf => true
  | F32.posInf, _ => false
  | F32.fin _, F32.posInf => true
  | F32.fin _, F32.negInf => false

/-- The function `std::max(a, b)`, which is `(a < b) ? b : a`. -/
def F32.max (a b : F32) : F32 :=
  if F32.lt a b then b else a

/-- The function `std::min(a, b)`, which is `(b < a) ? b : a`. -/
def F32.min (a b : F32) : F32 :=
  if F32.lt b a then b else a

/-- The function `std::fmod(x, y)` on `float`: NaN for a NaN argument, an infinite `x` or a zero
`y`; `x` for an infinite `y`; otherwise the truncated remainder, which binary32 holds exactly. -/
def F32.fmod : F32 → F32 → F32
  | F32.nan, _ => F32.nan
  | _, F32.nan => F32.nan
  | F32.posInf, _ => F32.nan
  | F32.negInf, _ => F32.nan
  | F32.fin x, F32.posInf => F32.fin x
  | F32.fin x, F32.negInf => F32.fin x
  | F32.fin x, F32.fin y => if y = 0 then F32.nan else F32.fin (Frogger.fmod x y)

/-- Whether a `float` is a finite number. -/
def F32.isFinite : F32 → Bool
  | F32.fin _ => true
  | _ => false

/-- Whether a `float` holds a value of binary32: rounding leaves a finite one as it is. -/
def F32.isBinary32 : F32 → Bool
  | F32.fin q => decide (round32 q = F32.fin q)
  | _ => true

/-- The helper `clampf` on `float`: `std::max(lo, std::min(v, hi))`. -/
def F32.clampf (v lo hi : F32) : F32 :=
  F32.max lo (F32.min v hi)

/-- Tile-space rectangle, `struct TileRect`, with `float` members. -/
structure TileRectF32 where
  x : F32
  y : F32
  w : F32
  h : F32
  deriving DecidableEq, Repr

/-- One of the five repeating vehicles of a lane, `struct VehicleSlot`, with a `float` offset. -/
structure VehicleSlotF32 where
  lengthTiles : Int
  gapTiles : Int
  offset : F32
  deriving DecidableEq, Repr

/-- The private state of `class Lane`, with `float` members. -/
structure LaneF32 where
  worldRowIndex_ : Int := 0
  type_ : LaneType := LaneType.Safe
  dir_ : Direction := Direction.Right
  minSpeed_ : F32 := F32.fin 0
  maxSpeed_ : F32 := F32.fin 0
  baseSpeed_ : F32 := F32.fin 0
  slots_ : List VehicleSlotF32 := List.replicate 5 ⟨0, 0, F32.fin 0⟩
  loopLenTiles_ : F32 := F32.fin 0
  phase_ : F32 := F32.fin 0
  deriving DecidableEq, Repr

/-- The loop of `Lane::buildPatternOffsets_` on `float`. -/
def offsetsLoopF32 : List VehicleSlotF32 → F32 → List VehicleSlotF32 × F32
  | [], acc => ([], acc)
  | s :: rest, acc =>
    let r := offsetsLoopF32 rest (F32.add acc (F32.ofInt (s.lengthTiles + s.gapTiles)))
    ({ s with offset := acc } :: r.1, r.2)

/-- The function `Lane::buildPatternOffsets_` on `float`. -/
def LaneF32.buildPatternOffsets_ (ln : LaneF32) : LaneF32 :=
  let r := offsetsLoopF32 ln.slots_ (F32.fin 0)
  let len : F32 := if F32.le r.2 (F32.fin 0) then F32.fin 1 else r.2
  { ln with slots_ := r.1, loopLenTiles_ := len, phase_ := F32.fmod ln.phase_ len }

/-- The constructor `Lane::Lane(worldRowIndex, type, dir, min, max, base, lengths, gaps)` on
`float`. -/
def LaneF32.ofArrays (worldRowIndex : Int) (type : LaneType) (dir : Direction)
    (minSpeedTilesSec maxSpeedTilesSec baseSpeedTilesSec : F32)
    (lengths gaps : List Int) : LaneF32 :=
  LaneF32.buildPatternOffsets_
    { worldRowIndex_ := worldRowIndex
      type_ := type
      dir_ := dir
      minSpeed_ := minSpeedTilesSec
      maxSpeed_ := maxSpeedTilesSec
      baseSpeed_ := baseSpeedTilesSec
      slots_ := List.zipWith (fun l g => (⟨l, g, F32.fin 0⟩ : VehicleSlotF32)) lengths gaps
      loopLenTiles_ := F32.fin 0
      phase_ := F32.fin 0 }

/-- The function `Lane::CurrentSpeed` on `float`. -/
def LaneF32.CurrentSpeed (ln : LaneF32) (difficultyScale : F32) : F32 :=
  if ln.type_ = LaneType.Safe then F32.fin 0
  else
    let scaled := F32.mul ln.baseSpeed_ (F32.max (F32.fin 1) difficultyScale)
    F32.clampf scaled ln.minSpeed_ ln.maxSpeed_

/-- The function `Lane::Update` on `float`. -/
def LaneF32.Update (ln : LaneF32) (dtSeconds difficultyScale : F32) : LaneF32 :=
  if ln.type_ = LaneType.Safe then ln
  else
    let eff := ln.CurrentSpeed difficultyScale
    let p := F32.fmod (F32.add ln.phase_ (F32.mul eff dtSeconds)) ln.loopLenTiles_
    { ln with phase_ := if F32.lt p (F32.fin 0) then F32.add p ln.loopLenTiles_ else p }

/-- The local `phase` of `Lane::ForEachVisibleVehicle` on `float`. -/
def LaneF32.phaseInLoop (ln : LaneF32) : F32 :=
  let p := F32.fmod ln.phase_ ln.loopLenTiles_
  if F32.lt p (F32.fin 0) then F32.add p ln.loopLenTiles_ else p

/-- The local `x` of `Lane::ForEachVisibleVehicle` on `float`. -/
def LaneF32.vehicleX (ln : LaneF32) (gridW : Int) (s : VehicleSlotF32) : F32 :=
  if ln.dir_ = Direction.Right then
    F32.add (F32.neg (F32.ofInt s.lengthTiles)) (F32.sub ln.phaseInLoop s.offset)
  else
    F32.add (F32.ofInt gridW) (F32.sub s.offset ln.phaseInLoop)

/-- The cull test of `Lane::ForEachVisibleVehicle` negated: the slot is not skipped. -/
def LaneF32.keeps (ln : LaneF32) (gridW : Int) (s : VehicleSlotF32) : Bool :=
  !(F32.le (F32.add (ln.vehicleX gridW s) (F32.ofInt s.lengthTiles)) (F32.fin 0) ||
    F32.le (F32.ofInt gridW) (ln.vehicleX gridW s))

/-- One iteration of the loop of `Lane::ForEachVisibleVehicle` on `float`. -/
def LaneF32.visitSlot {σ : Type} (ln : LaneF32) (gridW screenRowY : Int)
    (fn : σ → TileRectF32 → σ) (acc : σ) (s : VehicleSlotF32) : σ :=
  let w : F32 := F32.ofInt s.lengthTiles
  let x : F32 := ln.vehicleX gridW s
  if F32.le (F32.add x w) (F32.fin 0) || F32.le (F32.ofInt gridW) x then acc
  else fn acc ⟨x, F32.ofInt screenRowY, w, F32.fin 1⟩

/-- The function `Lane::ForEachVisibleVehicle` on `float`, the callback made state-passing. -/
def LaneF32.ForEachVisibleVehicle {σ : Type} (ln : LaneF32) (gridW screenRowY : Int)
    (fn : σ → TileRectF32 → σ) (init : σ) : σ :=
  if ln.type_ = LaneType.Safe then init
  else ln.slots_.foldl (ln.visitSlot gridW screenRowY fn) init

/-- The rectangles `Lane::ForEachVisibleVehicle` hands to its callback on `float`, in call
order. -/
def LaneF32.visibleObstacles (ln : LaneF32) (gridW screenRowY : Int) : List TileRectF32 :=
  ln.ForEachVisibleVehicle gridW screenRowY (fun acc r => acc ++ [r]) []

/-- A `Right` Traffic lane built by the eight-argument constructor: speeds 1.5, 4.5 and 2.0,
five vehicles of two tiles with gaps of three, loop length 25. -/
def forwardLane : LaneF32 :=
  LaneF32.ofArrays 3 LaneType.Traffic Direction.Right (F32.fin (3 / 2)) (F32.fin (9 / 2))
    (F32.fin 2) [2, 2, 2, 2, 2] [3, 3, 3, 3, 3]

/-- The same pattern on a lane built with the negative speeds -2.0, -1.0 and -1.5. -/
def backwardLane : LaneF32 :=
  LaneF32.ofArrays 3 LaneType.Traffic Direction.Right (F32.fin (-2)) (F32.fin (-1))
    (F32.fin (-3 / 2)) [2, 2, 2, 2, 2] [3, 3, 3, 3, 3]

/-- The lane `forwardLane` after `Update(0x1p127f, 1.0f)`: speed times time overflows. -/
def overflowedLane : LaneF32 :=
  forwardLane.Update (F32.fin (2 ^ 127)) (F32.fin 1)

/-! ## Lemmas on the lane generator and the window -/

theorem tmod_seven_eq_zero_iff (a : Int) : a.tmod 7 = 0 ↔ a % 7 = 0 := by
  constructor
  · intro h
    have := Int.dvd_of_tmod_eq_zero h
    omega
  · intro h
    exact Int.tmod_eq_zero_of_dvd (by omega)

theorem GenerateLane_type (seed : Nat) (wr : Int) :
    (GenerateLane seed wr).type_ =
      if wr.tmod 7 = 0 ∨ wr.tmod 7 = 1 then LaneType.Safe else LaneType.Traffic := by
  unfold GenerateLane
  by_cases h : wr.tmod 7 = 0 ∨ wr.tmod 7 = 1
  · simp only [h, if_true]; rfl
  · simp only [h, if_false]; rfl

theorem GenerateLane_row (seed : Nat) (wr : Int) :
    (GenerateLane seed wr).worldRowIndex_ = wr := by
  unfold GenerateLane
  by_cases h : wr.tmod 7 = 0 ∨ wr.tmod 7 = 1
  · simp only [h, if_true]; rfl
  · simp only [h, if_false]; rfl

theorem Lane_Update_row (ln : Lane) (dt sc : ℚ) :
    (ln.Update dt sc).worldRowIndex_ = ln.worldRowIndex_ := by
  unfold Lane.Update
  split_ifs <;> rfl

theorem rowsFrom_length (top : Int) (n : Nat) : (rowsFrom top n).length = n := by
  induction n generalizing top with
  | zero => rfl
  | succ k ih => simp [rowsFrom, ih]

theorem rowsFrom_getElem (top : Int) (n i : Nat) (h : i < (rowsFrom top n).length) :
    (rowsFrom top n)[i] = top - (i : Int) := by
  induction n generalizing top i with
  | zero => simp [rowsFrom] at h
  | succ k ih =>
    cases i with
    | zero => simp [rowsFrom]
    | succ j =>
      simp only [rowsFrom, List.getElem_cons_succ]
      rw [ih]
      push_cast
      ring

theorem rowsFrom_add (top : Int) (m n : Nat) :
    rowsFrom top (m + n) = rowsFrom top m ++ rowsFrom (top - (m : Int)) n := by
  induction m generalizing top with
  | zero => simp [rowsFrom]
  | succ k ih =>
    rw [show k + 1 + n = (k + n) + 1 by omega, rowsFrom, rowsFrom, ih]
    simp only [List.cons_append, Nat.cast_succ]
    congr 3
    ring

theorem rowsFrom_take (top : Int) (m n : Nat) (h : m ≤ n) :
    (rowsFrom top n).take m = rowsFrom top m := by
  obtain ⟨k, rfl⟩ := Nat.exists_eq_add_of_le h
  rw [rowsFrom_add]
  have : (rowsFrom top m).length = m := rowsFrom_length top m
  rw [List.take_append_of_le_length (by omega), List.take_of_length_le (by omega)]

theorem resetLanesLoop_rows (seed : Nat) (n : Nat) (wr : Int) (lanes : List Lane) :
    (resetLanesLoop seed n wr lanes).map Lane.worldRowIndex_ =
      rowsFrom (wr + (n : Int) - 1) n ++ lanes.map Lane.worldRowIndex_ := by
  induction n generalizing wr lanes with
  | zero => simp [resetLanesLoop, rowsFrom]
  | succ k ih =>
    rw [resetLanesLoop, ih, rowsFrom_add _ k 1]
    simp only [List.map_cons, GenerateLane_row, List.append_assoc, Nat.cast_succ]
    congr 1
    · congr 1; ring
    · simp only [rowsFrom, List.cons_append, List.nil_append, List.cons.injEq, and_true]
      ring

theorem pushFrontLoop_top (seed : Nat) (n : Nat) (lanes : List Lane) (top : Int) :
    (pushFrontLoop seed n lanes top).2 = top + (n : Int) := by
  induction n generalizing lanes top with
  | zero => simp [pushFrontLoop]
  | succ k ih =>
    rw [pushFrontLoop, ih]
    push_cast
    ring

theorem pushFrontLoop_rows (seed : Nat) (n : Nat) (lanes : List Lane) (top : Int) :
    (pushFrontLoop seed n lanes top).1.map Lane.worldRowIndex_ =
      rowsFrom (top + (n : Int)) n ++ lanes.map Lane.worldRowIndex_ := by
  induction n generalizing lanes top with
  | zero => simp [pushFrontLoop, rowsFrom]
  | succ k ih =>
    rw [pushFrontLoop, ih, rowsFrom_add _ k 1]
    simp only [List.map_cons, GenerateLane_row, List.append_assoc, Nat.cast_succ]
    congr 1
    · congr 1; ring
    · simp only [rowsFrom, List.cons_append, List.nil_append, List.cons.injEq, and_true]
      ring

theorem popBackLoop_eq_take (n : Nat) (lanes : List Lane) :
    popBackLoop n lanes = lanes.take (lanes.length - n) := by
  induction n generalizing lanes with
  | zero => simp [popBackLoop]
  | succ k ih =>
    rw [popBackLoop, ih]
    have h : (if lanes.isEmpty = true then lanes else lanes.dropLast) = lanes.dropLast := by
      cases lanes <;> simp
    rw [h, List.dropLast_eq_take, List.take_take, List.length_take]
    congr 1
    omega

/-! ### HandleInput -/

theorem HandleInput_blocked (g : Game) (a : InputAction)
    (h : g.gameOver_ = true ∨ g.inputLockOnce_ = true) : g.HandleInput a = (false, g) := by
  unfold Game.HandleInput
  rcases h with h | h <;> simp [h]

theorem applyAction_not_moved (g : Game) (a : InputAction) (h : (g.applyAction a).2 = false) :
    (g.applyAction a).1 = g.frog_ := by
  unfold Game.applyAction at h ⊢
  cases a <;> simp only at h ⊢ <;> split_ifs at h ⊢ <;> simp_all

theorem HandleInput_not_moved (g : Game) (a : InputAction)
    (h : (g.applyAction a).2 = false) : g.HandleInput a = (false, g) := by
  unfold Game.HandleInput
  split_ifs with hb
  · rfl
  · simp only [h, applyAction_not_moved g a h, Bool.false_eq_true, if_false]

theorem HandleInput_moved (g : Game) (a : InputAction) (hover : g.gameOver_ = false)
    (hlock : g.inputLockOnce_ = false) (h : (g.applyAction a).2 = true) :
    g.HandleInput a =
      (true, (({ g with frog_ := (g.applyAction a).1 } : Game).ApplyScrollIfNeeded_
        g.frog_.y_ (g.applyAction a).1.y_).clampX) := by
  unfold Game.HandleInput
  simp [hover, hlock, h]

/-- The guard of the `switch` of `Game::HandleInput` for action `a`. -/
theorem applyAction_moved_iff (g : Game) (a : InputAction) :
    (g.applyAction a).2 = true ↔
      (a = InputAction.Up ∧ g.frog_.y_ < g.gridH_ - 1) ∨
      (a = InputAction.Down ∧ g.frog_.y_ > 0) ∨
      (a = InputAction.Left ∧ g.frog_.x_ > 0) ∨
      (a = InputAction.Right ∧ g.frog_.x_ < g.gridW_ - 1) := by
  unfold Game.applyAction
  cases a <;> simp only <;> split_ifs with h <;> simp [h]

theorem entering_up_iff (g : Game) (f : Frog) (y : Int) :
    ({ g with frog_ := f } : Game).enteringNextBlockFirstSafe y (y + 1) = true ↔
      (g.bottomRowWorld_ + (y + 1)) % 7 = 0 := by
  unfold Game.enteringNextBlockFirstSafe
  simp only [Bool.and_eq_true, decide_eq_true_eq, ne_eq, tmod_seven_eq_zero_iff]
  omega

theorem entering_not_up (g : Game) (y y2 : Int) (h : y2 ≤ y) :
    g.enteringNextBlockFirstSafe y y2 = false := by
  unfold Game.enteringNextBlockFirstSafe
  simp only [Bool.and_eq_false_iff, decide_eq_false_iff_not, not_lt, gt_iff_lt]
  right
  omega

/-! ### clampX -/

theorem clampX_frame (g : Game) :
    g.clampX.gridW_ = g.gridW_ ∧ g.clampX.gridH_ = g.gridH_ ∧
    g.clampX.gameOver_ = g.gameOver_ ∧ g.clampX.lanes_ = g.lanes_ ∧
    g.clampX.pregen_ = g.pregen_ ∧ g.clampX.topRowWorld_ = g.topRowWorld_ ∧
    g.clampX.bottomRowWorld_ = g.bottomRowWorld_ ∧
    g.clampX.lanesAdvanced_ = g.lanesAdvanced_ ∧ g.clampX.normSeed10_ = g.normSeed10_ ∧
    g.clampX.matchSeed_ = g.matchSeed_ ∧ g.clampX.difficultyAlpha_ = g.difficultyAlpha_ ∧
    g.clampX.inputLockOnce_ = g.inputLockOnce_ ∧ g.clampX.frog_.y_ = g.frog_.y_ ∧
    g.clampX.frog_.score_ = g.frog_.score_ := by
  unfold Game.clampX
  simp only [Frog.SetPosition]
  split_ifs <;> simp

theorem clampX_x (g : Game) :
    g.clampX.frog_.x_ =
      if (if g.frog_.x_ < 0 then 0 else g.frog_.x_) ≥ g.gridW_ then g.gridW_ - 1
      else (if g.frog_.x_ < 0 then 0 else g.frog_.x_) := by
  unfold Game.clampX
  simp only [Frog.SetPosition]
  split_ifs <;> simp_all

theorem clampX_of_fixed (g : Game)
    (h : (if (if g.frog_.x_ < 0 then 0 else g.frog_.x_) ≥ g.gridW_ then g.gridW_ - 1
      else (if g.frog_.x_ < 0 then 0 else g.frog_.x_)) = g.frog_.x_) : g.clampX = g := by
  obtain ⟨gw, gh, ⟨x, y, w, hh, sc, c⟩, go, ls, pg, tp, bt, la, ns, ms, al, lk⟩ := g
  simp only [Game.clampX, Frog.SetPosition] at h ⊢
  split_ifs at h ⊢ <;> simp_all

theorem clampX_idem (g : Game) : g.clampX.clampX = g.clampX := by
  apply clampX_of_fixed
  rw [clampX_x, (clampX_frame g).1]
  split_ifs <;> omega

theorem clampX_fixed_x (g : Game) (h : g.clampX = g) :
    (if (if g.frog_.x_ < 0 then 0 else g.frog_.x_) ≥ g.gridW_ then g.gridW_ - 1
      else (if g.frog_.x_ < 0 then 0 else g.frog_.x_)) = g.frog_.x_ := by
  rw [← clampX_x, h]


/-! ### ApplyScrollIfNeeded_ -/

theorem ApplyScroll_of_not_entering (g : Game) (p n : Int)
    (h : g.enteringNextBlockFirstSafe p n = false) : g.ApplyScrollIfNeeded_ p n = g := by
  unfold Game.ApplyScrollIfNeeded_
  simp [h]

theorem ApplyScroll_of_entering (g : Game) (p n : Int)
    (h : g.enteringNextBlockFirstSafe p n = true) :
    (g.ApplyScrollIfNeeded_ p n).bottomRowWorld_ = g.bottomRowWorld_ + 7 ∧
    (g.ApplyScrollIfNeeded_ p n).topRowWorld_ = g.topRowWorld_ + 7 ∧
    (g.ApplyScrollIfNeeded_ p n).lanes_ =
      (pushFrontLoop g.matchSeed_ 7 (popBackLoop 7 g.lanes_) g.topRowWorld_).1 ∧
    (g.ApplyScrollIfNeeded_ p n).frog_ = g.frog_.SetPosition g.frog_.x_ 1 ∧
    (g.ApplyScrollIfNeeded_ p n).inputLockOnce_ = true ∧
    (g.ApplyScrollIfNeeded_ p n).lanesAdvanced_ = g.lanesAdvanced_ + 7 ∧
    (g.ApplyScrollIfNeeded_ p n).gameOver_ = g.gameOver_ ∧
    (g.ApplyScrollIfNeeded_ p n).gridW_ = g.gridW_ ∧
    (g.ApplyScrollIfNeeded_ p n).gridH_ = g.gridH_ ∧
    (g.ApplyScrollIfNeeded_ p n).matchSeed_ = g.matchSeed_ := by
  unfold Game.ApplyScrollIfNeeded_
  simp only [h, if_true, Game.EnsurePregen, pushFrontLoop_top]
  simp

/-! ### Update -/

theorem Update_frame (g : Game) (dt : ℚ) :
    (g.Update dt).gridW_ = g.gridW_ ∧ (g.Update dt).gridH_ = g.gridH_ ∧
    (g.Update dt).frog_ = g.frog_ ∧ (g.Update dt).topRowWorld_ = g.topRowWorld_ ∧
    (g.Update dt).bottomRowWorld_ = g.bottomRowWorld_ ∧
    (g.Update dt).lanesAdvanced_ = g.lanesAdvanced_ ∧
    (g.Update dt).matchSeed_ = g.matchSeed_ ∧
    (g.Update dt).lanes_.length = g.lanes_.length ∧
    (g.Update dt).lanes_.map Lane.worldRowIndex_ = g.lanes_.map Lane.worldRowIndex_ := by
  unfold Game.Update
  by_cases hg : g.gameOver_ = true
  · simp [hg]
  · simp only [hg, if_false]
    refine ⟨rfl, rfl, rfl, rfl, rfl, rfl, rfl, ?_, ?_⟩
    · exact List.length_map _ _
    · show List.map Lane.worldRowIndex_ (List.map _ g.lanes_) = _
      rw [List.map_map]
      apply List.map_congr_left
      intro ln _
      exact Lane_Update_row ln dt _

theorem Update_clampX_fixed (g : Game) (dt : ℚ) (h : g.clampX = g) :
    (g.Update dt).clampX = g.Update dt := by
  apply clampX_of_fixed
  rw [(Update_frame g dt).2.2.1, (Update_frame g dt).1]
  exact clampX_fixed_x g h


/-! ### The window invariant -/

theorem resetLanesLoop_length (seed : Nat) (n : Nat) (wr : Int) (lanes : List Lane) :
    (resetLanesLoop seed n wr lanes).length = n + lanes.length := by
  have h := congrArg List.length (resetLanesLoop_rows seed n wr lanes)
  simpa [rowsFrom_length] using h

theorem WindowInv_reset (g0 : Game) (rnd : Nat → Nat) (userSeed10 : List Nat)
    (frogColor : SDL_Color) (startX : Int) :
    WindowInv (g0.ResetWithSeed rnd userSeed10 frogColor startX) := by
  have hlen := resetLanesLoop_length (SeedToU64 (NormalizeSeed10 rnd userSeed10))
    g0.gridH_.toNat 0 []
  have hrows := resetLanesLoop_rows (SeedToU64 (NormalizeSeed10 rnd userSeed10))
    g0.gridH_.toNat 0 []
  simp only [List.length_nil, Nat.add_zero] at hlen
  simp only [List.map_nil, List.append_nil, zero_add] at hrows
  refine ⟨?_, ?_, ?_, ?_, ?_, ?_, ?_, ?_, ?_⟩
  · show (0 : Int) ≤ 0; omega
  · show (0 : Int) % 7 = 0; rfl
  · show (0 : Int) ≤ 0; omega
  · show (0 : Int) ≤ 6; omega
  · left; rfl
  · show g0.gridH_ - 1 - 0 = g0.gridH_ - 1; omega
  · exact hlen
  · show List.map Lane.worldRowIndex_ (resetLanesLoop _ g0.gridH_.toNat 0 []) =
      rowsFrom (g0.gridH_ - 1) (resetLanesLoop _ g0.gridH_.toNat 0 []).length
    rw [hrows, hlen]
    by_cases h : 0 ≤ g0.gridH_
    · rw [Int.toNat_of_nonneg h]
    · have : g0.gridH_.toNat = 0 := by omega
      rw [this]; rfl
  · intro h
    exact absurd h (by show ¬ ((1 : Int) ≤ 0); omega)

theorem WindowInv_update (g : Game) (dt : ℚ) (h : WindowInv g) : WindowInv (g.Update dt) := by
  obtain ⟨hW, hH, hf, ht, hb, _, _, hl, hr⟩ := Update_frame g dt
  refine ⟨?_, ?_, ?_, ?_, ?_, ?_, ?_, ?_, ?_⟩
  · rw [hb]; exact h.bottom_nonneg
  · rw [hb]; exact h.bottom_mod
  · rw [hf]; exact h.y_nonneg
  · rw [hf]; exact h.y_le
  · rw [hf, hH]; exact h.y_lt
  · rw [ht, hb, hH]; exact h.span
  · rw [hl, hH]; exact h.len
  · rw [hr, hl, ht]; exact h.rows
  · rw [hf]; intro hy; exact Update_clampX_fixed g dt (h.x_fixed hy)


theorem applyAction_frog (g : Game) (a : InputAction) (h : (g.applyAction a).2 = true) :
    (a = InputAction.Up ∧ g.frog_.y_ < g.gridH_ - 1 ∧ (g.applyAction a).1 = g.frog_.MoveUp) ∨
    (a = InputAction.Down ∧ g.frog_.y_ > 0 ∧
      (g.applyAction a).1 = { g.frog_ with y_ := g.frog_.y_ - 1, score_ := g.frog_.score_ - 1 }) ∨
    (a = InputAction.Left ∧ g.frog_.x_ > 0 ∧ (g.applyAction a).1 = g.frog_.MoveLeft) ∨
    (a = InputAction.Right ∧ g.frog_.x_ < g.gridW_ - 1 ∧
      (g.applyAction a).1 = g.frog_.MoveRight) := by
  unfold Game.applyAction at h ⊢
  cases a <;> simp only at h ⊢ <;> split_ifs at h ⊢ with hc <;> simp_all [Frog.MoveDown]
  omega

/-- In a state of the invariant, a successful move triggers the scroll exactly when it is `Up`
from grid row 6. -/
theorem entering_iff_of_inv (g : Game) (a : InputAction) (inv : WindowInv g)
    (h : (g.applyAction a).2 = true) :
    ({ g with frog_ := (g.applyAction a).1 } : Game).enteringNextBlockFirstSafe
        g.frog_.y_ (g.applyAction a).1.y_ = true ↔
      a = InputAction.Up ∧ g.frog_.y_ = 6 := by
  have hb := inv.bottom_mod
  have h0 := inv.y_nonneg
  have h6 := inv.y_le
  rcases applyAction_frog g a h with ⟨ha, _, hf⟩ | ⟨ha, _, hf⟩ | ⟨ha, _, hf⟩ | ⟨ha, _, hf⟩
  · rw [hf]
    show ({ g with frog_ := g.frog_.MoveUp } : Game).enteringNextBlockFirstSafe
      g.frog_.y_ (g.frog_.y_ + 1) = true ↔ _
    rw [entering_up_iff]
    simp only [ha, true_and]
    omega
  all_goals
    rw [hf, entering_not_up _ _ _ (by simp [Frog.MoveLeft, Frog.MoveRight])]
    simp [ha]


theorem scroll_lanes_rows (seed : Nat) (lanes : List Lane) (top : Int)
    (hrows : lanes.map Lane.worldRowIndex_ = rowsFrom top lanes.length)
    (hlen : 7 ≤ lanes.length) :
    (pushFrontLoop seed 7 (popBackLoop 7 lanes) top).1.map Lane.worldRowIndex_ =
      rowsFrom (top + 7) lanes.length := by
  rw [pushFrontLoop_rows, popBackLoop_eq_take, List.map_take, hrows,
    rowsFrom_take _ _ _ (Nat.sub_le _ _)]
  have h := rowsFrom_add (top + 7) 7 (lanes.length - 7)
  rw [show 7 + (lanes.length - 7) = lanes.length by omega] at h
  rw [h]
  simp

theorem scroll_lanes_length (seed : Nat) (lanes : List Lane) (top : Int)
    (hrows : lanes.map Lane.worldRowIndex_ = rowsFrom top lanes.length)
    (hlen : 7 ≤ lanes.length) :
    (pushFrontLoop seed 7 (popBackLoop 7 lanes) top).1.length = lanes.length := by
  have h := congrArg List.length (scroll_lanes_rows seed lanes top hrows hlen)
  simpa [rowsFrom_length] using h

theorem WindowInv_handleInput (g : Game) (a : InputAction) (inv : WindowInv g) :
    WindowInv (g.HandleInput a).2 := by
  by_cases hblock : g.gameOver_ = true ∨ g.inputLockOnce_ = true
  · rw [HandleInput_blocked g a hblock]; exact inv
  have hover : g.gameOver_ = false := by
    cases h : g.gameOver_ <;> simp_all
  have hlock : g.inputLockOnce_ = false := by
    cases h : g.inputLockOnce_ <;> simp_all
  by_cases hm : (g.applyAction a).2 = true
  swap
  · rw [HandleInput_not_moved g a (by simpa using hm)]; exact inv
  rw [HandleInput_moved g a hover hlock hm]
  have hent := entering_iff_of_inv g a inv hm
  have hb := inv.bottom_mod
  have hb0 := inv.bottom_nonneg
  have h0 := inv.y_nonneg
  have h6 := inv.y_le
  have hlt := inv.y_lt
  by_cases hs : a = InputAction.Up ∧ g.frog_.y_ = 6
  · -- the scroll
    have he := hent.mpr hs
    obtain ⟨eb, et, el, ef, _, _, _, eW, eH, _⟩ :=
      ApplyScroll_of_entering _ _ _ he
    generalize ({ g with frog_ := (g.applyAction a).1 } : Game).ApplyScrollIfNeeded_
      g.frog_.y_ (g.applyAction a).1.y_ = g2 at eb et el ef eW eH
    obtain ⟨cW, cH, _, cl, _, ct, cb, _, _, _, _, _, cy, _⟩ := clampX_frame g2
    have hup : g.frog_.y_ < g.gridH_ - 1 := by
      rcases applyAction_frog g a hm with ⟨_, h, _⟩ | ⟨ha, _, _⟩ | ⟨ha, _, _⟩ | ⟨ha, _, _⟩
      · exact h
      all_goals (rw [hs.1] at ha; cases ha)
    have hlen7 : 7 ≤ g.lanes_.length := by rw [inv.len]; omega
    have ey : g2.frog_.y_ = 1 := by rw [ef]; rfl
    simp only at eb et el eW eH
    refine ⟨?_, ?_, ?_, ?_, ?_, ?_, ?_, ?_, ?_⟩
    · rw [cb, eb]; omega
    · rw [cb, eb]; omega
    · rw [cy, ey]; omega
    · rw [cy, ey]; omega
    · rw [cy, ey, cH, eH]; right; omega
    · rw [ct, cb, et, eb, cH, eH]; have := inv.span; omega
    · rw [cl, el, cH, eH, scroll_lanes_length _ _ _ inv.rows hlen7]; exact inv.len
    · rw [cl, el, ct, et, scroll_lanes_length _ _ _ inv.rows hlen7]
      exact scroll_lanes_rows _ _ _ inv.rows hlen7
    · intro _; exact clampX_idem g2
  · -- a move inside the window
    have he : ({ g with frog_ := (g.applyAction a).1 } : Game).enteringNextBlockFirstSafe
        g.frog_.y_ (g.applyAction a).1.y_ = false := by
      cases h : ({ g with frog_ := (g.applyAction a).1 } : Game).enteringNextBlockFirstSafe
        g.frog_.y_ (g.applyAction a).1.y_
      · rfl
      · exact absurd (hent.mp h) hs
    rw [ApplyScroll_of_not_entering _ _ _ he]
    obtain ⟨cW, cH, _, cl, _, ct, cb, _, _, _, _, _, cy, _⟩ :=
      clampX_frame ({ g with frog_ := (g.applyAction a).1 } : Game)
    simp only at cW cH cl ct cb cy
    have hy : 0 ≤ (g.applyAction a).1.y_ ∧ (g.applyAction a).1.y_ ≤ 6 ∧
        ((g.applyAction a).1.y_ = 0 ∨ (g.applyAction a).1.y_ < g.gridH_) := by
      rcases applyAction_frog g a hm with ⟨ha, h, hf⟩ | ⟨ha, h, hf⟩ | ⟨ha, h, hf⟩ | ⟨ha, h, hf⟩
      · rw [hf]
        have : g.frog_.y_ ≠ 6 := fun h6 => hs ⟨ha, h6⟩
        simp only [Frog.MoveUp]
        omega
      · rw [hf]; simp only; omega
      · rw [hf]; simp only [Frog.MoveLeft]; omega
      · rw [hf]; simp only [Frog.MoveRight]; omega
    refine ⟨?_, ?_, ?_, ?_, ?_, ?_, ?_, ?_, ?_⟩
    · rw [cb]; exact hb0
    · rw [cb]; exact hb
    · rw [cy]; exact hy.1
    · rw [cy]; exact hy.2.1
    · rw [cy, cH]; exact hy.2.2
    · rw [ct, cb, cH]; exact inv.span
    · rw [cl, cH]; exact inv.len
    · rw [cl, ct]; exact inv.rows
    · intro _; exact clampX_idem _

theorem WindowInv_of_reachable {g : Game} (h : Reachable g) : WindowInv g := by
  induction h with
  | reset g0 rnd userSeed10 frogColor startX => exact WindowInv_reset g0 rnd userSeed10 frogColor startX
  | update dt _ ih => exact WindowInv_update _ dt ih
  | handleInput a _ ih => exact WindowInv_handleInput _ a ih

/-! ## Lemmas on the visible vehicles -/

theorem visitSlot_foldl {σ : Type} (ln : Lane) (gridW rowY : Int) (fn : σ → TileRect → σ)
    (init : σ) (slots : List VehicleSlot) (acc : List TileRect) :
    slots.foldl (ln.visitSlot gridW rowY fn) (acc.foldl fn init) =
      (slots.foldl (ln.visitSlot gridW rowY (fun l r => l ++ [r])) acc).foldl fn init := by
  induction slots generalizing acc with
  | nil => rfl
  | cons s rest ih =>
    simp only [List.foldl_cons]
    rw [← ih]
    congr 1
    unfold Lane.visitSlot
    simp only
    split_ifs
    · rfl
    · rw [List.foldl_append]; rfl

theorem ForEachVisibleVehicle_eq_foldl {σ : Type} (ln : Lane) (gridW rowY : Int)
    (fn : σ → TileRect → σ) (init : σ) :
    ln.ForEachVisibleVehicle gridW rowY fn init =
      (ln.visibleObstacles gridW rowY).foldl fn init := by
  unfold Lane.visibleObstacles Lane.ForEachVisibleVehicle
  split_ifs
  · rfl
  · exact visitSlot_foldl ln gridW rowY fn init ln.slots_ []

theorem collideStep_foldl (player : TileRect) (l : List TileRect) (b : Bool) :
    l.foldl (collideStep player) b = true ↔
      b = true ∨ ∃ v ∈ l, (player.x < v.x + v.w ∧ player.x + player.w > v.x) ∧
        (player.y < v.y + v.h ∧ player.y + player.h > v.y) := by
  induction l generalizing b with
  | nil => simp
  | cons v rest ih =>
    rw [List.foldl_cons, ih]
    unfold collideStep
    simp only [List.mem_cons, exists_eq_or_imp, Bool.and_eq_true, decide_eq_true_eq]
    split_ifs with h
    · simp only [true_or, true_iff]
      right; left
      simpa using h
    · have h2 : ¬ ((player.x < v.x + v.w ∧ player.x + player.w > v.x) ∧
        (player.y < v.y + v.h ∧ player.y + player.h > v.y)) := by simpa using h
      simp only [h2, false_or]

theorem visibleObstacles_safe (ln : Lane) (gridW rowY : Int) (h : ln.type_ = LaneType.Safe) :
    ln.visibleObstacles gridW rowY = [] := by
  unfold Lane.visibleObstacles Lane.ForEachVisibleVehicle
  simp [h]

theorem visitSlot_collect (ln : Lane) (gridW rowY : Int) (slots : List VehicleSlot)
    (acc : List TileRect) :
    slots.foldl (ln.visitSlot gridW rowY (fun l r => l ++ [r])) acc =
      acc ++ (slots.filter (fun s =>
          decide (ln.vehicleX gridW s + (s.lengthTiles : ℚ) > 0 ∧
            ln.vehicleX gridW s < (gridW : ℚ)))).map
        (fun s => (⟨ln.vehicleX gridW s, (rowY : ℚ), (s.lengthTiles : ℚ), 1⟩ : TileRect)) := by
  induction slots generalizing acc with
  | nil => simp
  | cons s rest ih =>
    rw [List.foldl_cons, ih]
    unfold Lane.visitSlot
    simp only
    by_cases hc : ln.vehicleX gridW s + (s.lengthTiles : ℚ) ≤ 0 ∨ ln.vehicleX gridW s ≥ (gridW : ℚ)
    · have hk : ¬ (ln.vehicleX gridW s + (s.lengthTiles : ℚ) > 0 ∧
          ln.vehicleX gridW s < (gridW : ℚ)) := by
        rintro ⟨h1, h2⟩
        rcases hc with hc | hc
        · exact absurd h1 (not_lt.mpr hc)
        · exact absurd h2 (not_lt.mpr hc)
      simp [hc, hk]
    · have hk : ln.vehicleX gridW s + (s.lengthTiles : ℚ) > 0 ∧
          ln.vehicleX gridW s < (gridW : ℚ) := by
        push_neg at hc
        exact hc
      simp [hc, hk]

theorem reachable_run {g : Game} (h : Reachable g) (calls : List Call) :
    Reachable (g.run calls) := by
  induction calls generalizing g with
  | nil => exact h
  | cons c rest ih =>
    show Reachable ((g.step c).run rest)
    apply ih
    cases c with
    | tick dt => exact Reachable.update dt h
    | input a => exact Reachable.handleInput a h

/-- The three outcomes of `Game::HandleInput` in a state of the invariant that is neither over
nor suppressed: no move; a move inside the window; the scrolling `Up` from grid row 6. -/
theorem HandleInput_outcome (g : Game) (a : InputAction) (inv : WindowInv g)
    (hover : g.gameOver_ = false) (hlock : g.inputLockOnce_ = false) :
    ((g.applyAction a).2 = false ∧ g.HandleInput a = (false, g)) ∨
    ((g.applyAction a).2 = true ∧ ¬ (a = InputAction.Up ∧ g.frog_.y_ = 6) ∧
      g.HandleInput a = (true, ({ g with frog_ := (g.applyAction a).1 } : Game).clampX)) ∨
    (a = InputAction.Up ∧ g.frog_.y_ = 6 ∧ g.frog_.y_ < g.gridH_ - 1 ∧
      (g.HandleInput a).1 = true ∧
      (g.HandleInput a).2.bottomRowWorld_ = g.bottomRowWorld_ + 7 ∧
      (g.HandleInput a).2.topRowWorld_ = g.topRowWorld_ + 7 ∧
      (g.HandleInput a).2.frog_.y_ = 1 ∧
      (g.HandleInput a).2.frog_.x_ = g.frog_.x_ ∧
      (g.HandleInput a).2.inputLockOnce_ = true ∧
      (g.HandleInput a).2.gameOver_ = false) := by
  by_cases hm : (g.applyAction a).2 = true
  swap
  · left
    have hm2 : (g.applyAction a).2 = false := by simpa using hm
    exact ⟨hm2, HandleInput_not_moved g a hm2⟩
  right
  have hent := entering_iff_of_inv g a inv hm
  rw [HandleInput_moved g a hover hlock hm]
  by_cases hs : a = InputAction.Up ∧ g.frog_.y_ = 6
  · right
    have he := hent.mpr hs
    obtain ⟨eb, et, _, ef, ek, _, eo, eW, _, _⟩ := ApplyScroll_of_entering _ _ _ he
    generalize ({ g with frog_ := (g.applyAction a).1 } : Game).ApplyScrollIfNeeded_
      g.frog_.y_ (g.applyAction a).1.y_ = g2 at eb et ef ek eo eW
    obtain ⟨_, _, co, _, _, ct, cb, _, _, _, _, ck, cy, _⟩ := clampX_frame g2
    simp only at eb et ef ek eo eW
    have hup : g.frog_.y_ < g.gridH_ - 1 ∧ (g.applyAction a).1 = g.frog_.MoveUp := by
      rcases applyAction_frog g a hm with ⟨_, h, hf⟩ | ⟨ha, _, _⟩ | ⟨ha, _, _⟩ | ⟨ha, _, _⟩
      · exact ⟨h, hf⟩
      all_goals (rw [hs.1] at ha; cases ha)
    have ex : g2.frog_.x_ = g.frog_.x_ := by rw [ef, hup.2]; rfl
    have ey : g2.frog_.y_ = 1 := by rw [ef]; rfl
    refine ⟨hs.1, hs.2, hup.1, rfl, ?_, ?_, ?_, ?_, ?_, ?_⟩
    · show g2.clampX.bottomRowWorld_ = _; rw [cb, eb]
    · show g2.clampX.topRowWorld_ = _; rw [ct, et]
    · show g2.clampX.frog_.y_ = _; rw [cy, ey]
    · show g2.clampX.frog_.x_ = _
      have hfix := clampX_fixed_x g (inv.x_fixed (by omega))
      rw [clampX_x, ex, eW]
      exact hfix
    · show g2.clampX.inputLockOnce_ = _; rw [ck, ek]
    · show g2.clampX.gameOver_ = _; rw [co, eo]; exact hover
  · left
    have he : ({ g with frog_ := (g.applyAction a).1 } : Game).enteringNextBlockFirstSafe
        g.frog_.y_ (g.applyAction a).1.y_ = false := by
      cases h : ({ g with frog_ := (g.applyAction a).1 } : Game).enteringNextBlockFirstSafe
        g.frog_.y_ (g.applyAction a).1.y_
      · rfl
      · exact absurd (hent.mp h) hs
    rw [ApplyScroll_of_not_entering _ _ _ he]
    exact ⟨hm, hs, rfl⟩

theorem dvd_block_iff (g : Game) (inv : WindowInv g) :
    7 ∣ g.bottomRowWorld_ + (g.frog_.y_ + 1) ↔ g.frog_.y_ = 6 := by
  have hb := inv.bottom_mod
  have h0 := inv.y_nonneg
  have h6 := inv.y_le
  omega

theorem tdiv_num_den_eq_zero (q : ℚ) (h0 : 0 ≤ q) (h1 : q < 1) :
    q.num.tdiv (q.den : Int) = 0 := by
  have hn : 0 ≤ q.num := Rat.num_nonneg.mpr h0
  have hlt : q.num < (q.den : Int) := Rat.lt_one_iff_num_lt_denom.mp h1
  rw [Int.tdiv_eq_ediv hn (by omega)]
  exact Int.ediv_eq_zero_of_lt hn hlt

theorem fmod_of_lt (x y : ℚ) (h0 : 0 ≤ x) (h1 : x < y) : fmod x y = x := by
  have hy : 0 < y := lt_of_le_of_lt h0 h1
  unfold fmod
  rw [tdiv_num_den_eq_zero (x / y) (div_nonneg h0 hy.le) ((div_lt_one hy).mpr h1)]
  simp

theorem run_inputs_blocked (g : Game) (h : g.gameOver_ = true ∨ g.inputLockOnce_ = true)
    (inputs : List InputAction) : g.run (inputs.map Call.input) = g := by
  induction inputs with
  | nil => rfl
  | cons a rest ih =>
    show ((g.HandleInput a).2).run (rest.map Call.input) = g
    rw [HandleInput_blocked g a h]
    exact ih

theorem Update_of_gameOver (g : Game) (dt : ℚ) (h : g.gameOver_ = true) : g.Update dt = g := by
  unfold Game.Update
  rw [if_pos h]

theorem Update_lock (g : Game) (dt : ℚ) (h : g.gameOver_ = false) :
    (g.Update dt).inputLockOnce_ = false := by
  unfold Game.Update
  simp only [h, Bool.false_eq_true, if_false]
  cases g.inputLockOnce_ <;> rfl

/-- A call of `Game::HandleInput` that moves `bottomRowWorld_` leaves the game running with
the suppression flag set. -/
theorem lock_of_bottom_changed (g : Game) (a : InputAction)
    (h : (g.HandleInput a).2.bottomRowWorld_ ≠ g.bottomRowWorld_) :
    (g.HandleInput a).2.inputLockOnce_ = true ∧ (g.HandleInput a).2.gameOver_ = false := by
  by_cases hblock : g.gameOver_ = true ∨ g.inputLockOnce_ = true
  · rw [HandleInput_blocked g a hblock] at h; exact absurd rfl h
  have hover : g.gameOver_ = false := by
    cases h : g.gameOver_ <;> simp_all
  have hlock : g.inputLockOnce_ = false := by
    cases h : g.inputLockOnce_ <;> simp_all
  by_cases hm : (g.applyAction a).2 = true
  swap
  · rw [HandleInput_not_moved g a (by simpa using hm)] at h; exact absurd rfl h
  rw [HandleInput_moved g a hover hlock hm] at h ⊢
  cases he : ({ g with frog_ := (g.applyAction a).1 } : Game).enteringNextBlockFirstSafe
      g.frog_.y_ (g.applyAction a).1.y_
  · rw [ApplyScroll_of_not_entering _ _ _ he] at h
    exact absurd (clampX_frame _).2.2.2.2.2.2.1 h
  · obtain ⟨_, _, _, _, ek, _, eo, _, _, _⟩ := ApplyScroll_of_entering _ _ _ he
    obtain ⟨_, _, co, _, _, _, _, _, _, _, _, ck, _, _⟩ := clampX_frame
      (({ g with frog_ := (g.applyAction a).1 } : Game).ApplyScrollIfNeeded_
        g.frog_.y_ (g.applyAction a).1.y_)
    exact ⟨by show Game.inputLockOnce_ (Game.clampX _) = true; rw [ck, ek],
      by show Game.gameOver_ (Game.clampX _) = false; rw [co, eo]; exact hover⟩

theorem HandleInput_result_of_playing (g : Game) (a : InputAction) (hover : g.gameOver_ = false)
    (hlock : g.inputLockOnce_ = false) : (g.HandleInput a).1 = (g.applyAction a).2 := by
  by_cases hm : (g.applyAction a).2 = true
  · rw [HandleInput_moved g a hover hlock hm, hm]
  · have hm2 : (g.applyAction a).2 = false := by simpa using hm
    rw [HandleInput_not_moved g a hm2, hm2]

/-- One step of the FNV-1a fold is injective on 64-bit accumulators. -/
theorem fnvStep_injective (c a b : Nat) (ha : a < 2 ^ 64) (hb : b < 2 ^ 64)
    (h : ((a ^^^ (c % 256)) * 1099511628211) % 2 ^ 64 =
      ((b ^^^ (c % 256)) * 1099511628211) % 2 ^ 64) : a = b := by
  have hc : c % 256 < 2 ^ 64 := by omega
  have hxa : a ^^^ (c % 256) < 2 ^ 64 := Nat.xor_lt_two_pow ha hc
  have hxb : b ^^^ (c % 256) < 2 ^ 64 := Nat.xor_lt_two_pow hb hc
  have hinv : (1099511628211 * 14886173955864302971) % 2 ^ 64 = 1 := by decide
  have key : ∀ x : Nat, x < 2 ^ 64 →
      ((x * 1099511628211) % 2 ^ 64 * 14886173955864302971) % 2 ^ 64 = x := by
    intro x hx
    rw [Nat.mod_mul_mod, Nat.mul_assoc, Nat.mul_mod, hinv, Nat.mul_one, Nat.mod_mod,
      Nat.mod_eq_of_lt hx]
  have hx : a ^^^ (c % 256) = b ^^^ (c % 256) := by
    rw [← key _ hxa, ← key _ hxb, h]
  exact Nat.xor_left_injective hx

theorem fnvFold_lt (b : List Nat) (h0 : Nat) (hh : h0 < 2 ^ 64) :
    b.foldl (fun h c => ((h ^^^ (c % 256)) * 1099511628211) % 2 ^ 64) h0 < 2 ^ 64 := by
  induction b generalizing h0 with
  | nil => exact hh
  | cons c rest ih =>
    rw [List.foldl_cons]
    exact ih _ (Nat.mod_lt _ (by decide))

theorem fnvFold_ne (b : List Nat) (h0 h1 : Nat) (hh0 : h0 < 2 ^ 64) (hh1 : h1 < 2 ^ 64)
    (hne : h0 ≠ h1) :
    b.foldl (fun h c => ((h ^^^ (c % 256)) * 1099511628211) % 2 ^ 64) h0 ≠
      b.foldl (fun h c => ((h ^^^ (c % 256)) * 1099511628211) % 2 ^ 64) h1 := by
  induction b generalizing h0 h1 with
  | nil => exact hne
  | cons c rest ih =>
    rw [List.foldl_cons, List.foldl_cons]
    apply ih _ _ (Nat.mod_lt _ (by decide)) (Nat.mod_lt _ (by decide))
    intro h
    exact hne (fnvStep_injective c h0 h1 hh0 hh1 h)

/-! ## Lemmas on seeds and generated lanes -/

theorem RepeatsOf_nil (s : List Nat) : RepeatsOf s [] :=
  ⟨Nat.dvd_zero _, fun i h => absurd h (Nat.not_lt_zero i)⟩

theorem RepeatsOf_append (s out : List Nat) (hs : s ≠ []) (h : RepeatsOf s out) :
    RepeatsOf s (out ++ s) := by
  have hpos : 0 < s.length := List.length_pos.mpr hs
  obtain ⟨k, hk⟩ := h.1
  refine ⟨⟨k + 1, by rw [List.length_append, hk]; ring⟩, ?_⟩
  intro i hi
  by_cases hlt : i < out.length
  · rw [List.getElem?_append_left hlt]; exact h.2 i hlt
  · have hge : out.length ≤ i := Nat.le_of_not_lt hlt
    rw [List.getElem?_append_right hge]
    rw [List.length_append] at hi
    have hsmall : i - out.length < s.length := by omega
    have hmod : i % s.length = i - out.length := by
      have e : i = (i - out.length) + s.length * k := by omega
      rw [e, Nat.add_mul_mod_self_left, Nat.mod_eq_of_lt]
      · omega
      · omega
    rw [hmod]

theorem normalizeLoop_spec (fuel : Nat) (s out : List Nat) (hs : s ≠ [])
    (h : RepeatsOf s out) (hfuel : 10 ≤ out.length + fuel) :
    RepeatsOf s (normalizeLoop fuel s out) ∧ 10 ≤ (normalizeLoop fuel s out).length := by
  have hpos : 0 < s.length := List.length_pos.mpr hs
  induction fuel generalizing out with
  | zero => exact ⟨h, by simpa using hfuel⟩
  | succ n ih =>
    unfold normalizeLoop
    split_ifs with hlt
    · apply ih _ (RepeatsOf_append s out hs h)
      rw [List.length_append]; omega
    · exact ⟨h, by omega⟩

theorem fmod_zero_left (y : ℚ) : fmod 0 y = 0 := by
  unfold fmod
  simp

theorem buildPatternOffsets_phase_zero (ln : Lane) (h : ln.phase_ = 0) :
    ln.buildPatternOffsets_.phase_ = 0 := by
  unfold Lane.buildPatternOffsets_
  simp only [h]
  exact fmod_zero_left _

theorem GenerateLane_phase (seed : Nat) (wr : Int) : (GenerateLane seed wr).phase_ = 0 := by
  unfold GenerateLane
  by_cases h : wr.tmod 7 = 0 ∨ wr.tmod 7 = 1
  · simp only [h, if_true]; exact buildPatternOffsets_phase_zero _ rfl
  · simp only [h, if_false]; exact buildPatternOffsets_phase_zero _ rfl

theorem resetLanesLoop_eq (seed : Nat) (n : Nat) (wr : Int) (lanes : List Lane) :
    resetLanesLoop seed n wr lanes =
      ((List.range n).map (fun r : Nat => GenerateLane seed (wr + (r : Int)))).reverse ++ lanes := by
  induction n generalizing wr lanes with
  | zero => rfl
  | succ k ih =>
    rw [resetLanesLoop, ih, List.range_succ_eq_map, List.map_cons, List.map_map,
      List.reverse_cons, List.append_assoc]
    congr 2
    · apply List.map_congr_left
      intro r _
      show GenerateLane seed (wr + 1 + (r : Int)) = GenerateLane seed (wr + ((r + 1 : Nat) : Int))
      congr 1
      push_cast
      ring
    · show GenerateLane seed wr = GenerateLane seed (wr + ((0 : Nat) : Int))
      rw [Nat.cast_zero, add_zero]

theorem NormalizeSeed10_of_nonempty (rnd rnd2 : Nat → Nat) (s : List Nat) (hs : s ≠ []) :
    NormalizeSeed10 rnd s = NormalizeSeed10 rnd2 s := by
  have hne : s.isEmpty = false := by cases s with
    | nil => exact absurd rfl hs
    | cons _ _ => rfl
  unfold NormalizeSeed10
  simp only [hne, Bool.false_eq_true, if_false]

theorem splitmix64_lt (x : Nat) : (splitmix64 x).1 < 2 ^ 64 := by
  unfold splitmix64
  simp only
  apply Nat.xor_lt_two_pow
  · exact Nat.mod_lt _ (by decide)
  · rw [Nat.shiftRight_eq_div_pow]
    exact lt_of_le_of_lt (Nat.div_le_self _ _) (Nat.mod_lt _ (by decide))

theorem toInt32_of_small (n : Nat) (h : n < 2 ^ 31) : toInt32 n = (n : Int) := by
  unfold toInt32
  have h1 : n % 2 ^ 32 = n := Nat.mod_eq_of_lt (by omega)
  rw [h1, if_pos h]

theorem nextI_0_99 (sm : Nat) : 0 ≤ (nextI sm 0 99).1 ∧ (nextI sm 0 99).1 ≤ 99 := by
  unfold nextI
  have hu : toU64 (99 - 0 + 1) = 100 := by decide
  simp only [hu]
  have hlt : (splitmix64 sm).1 % 100 < 100 := Nat.mod_lt _ (by decide)
  rw [toInt32_of_small _ (by omega)]
  omega

theorem nextI_2_5 (sm : Nat) : 2 ≤ (nextI sm 2 5).1 ∧ (nextI sm 2 5).1 ≤ 5 := by
  unfold nextI
  have hu : toU64 (5 - 2 + 1) = 4 := by decide
  simp only [hu]
  have hlt : (splitmix64 sm).1 % 4 < 4 := Nat.mod_lt _ (by decide)
  rw [toInt32_of_small _ (by omega)]
  omega

theorem vehicleLoop_spec (n sm : Nat) :
    (vehicleLoop n sm).1.length = n ∧ (vehicleLoop n sm).2.1.length = n ∧
    (∀ l ∈ (vehicleLoop n sm).1, l = 1 ∨ l = 2 ∨ l = 3) ∧
    (∀ g ∈ (vehicleLoop n sm).2.1, 2 ≤ g ∧ g ≤ 5) := by
  induction n generalizing sm with
  | zero => simp [vehicleLoop]
  | succ k ih =>
    obtain ⟨h1, h2, h3, h4⟩ := ih (nextI (nextI sm 0 99).2 2 5).2
    unfold vehicleLoop
    simp only [List.length_cons, List.mem_cons]
    refine ⟨by rw [h1], by rw [h2], ?_, ?_⟩
    · intro l hl
      rcases hl with rfl | hl
      · split_ifs <;> simp
      · exact h3 l hl
    · intro g hg
      rcases hg with rfl | hg
      · exact nextI_2_5 _
      · exact h4 g hg

/-- The slots `Lane::buildPatternOffsets_` leaves carry the lengths and gaps it was given. -/
theorem offsetsLoop_lengths_gaps (slots : List VehicleSlot) (acc : ℚ) :
    (offsetsLoop slots acc).1.map (fun s => (s.lengthTiles, s.gapTiles)) =
      slots.map (fun s => (s.lengthTiles, s.gapTiles)) := by
  induction slots generalizing acc with
  | nil => rfl
  | cons s rest ih =>
    simp only [offsetsLoop, List.map_cons]
    rw [ih]

theorem nextF_bounds (sm : Nat) (lo hi : ℚ) (h : lo ≤ hi) :
    lo ≤ (nextF sm lo hi).1 ∧ (nextF sm lo hi).1 ≤ hi := by
  unfold nextF
  simp only
  have hu := splitmix64_lt sm
  have hs : (splitmix64 sm).1 >>> 11 < 9007199254740992 := by
    rw [Nat.shiftRight_eq_div_pow]
    apply Nat.div_lt_of_lt_mul
    exact lt_of_lt_of_le hu (by decide)
  have hr0 : (0 : ℚ) ≤ (((splitmix64 sm).1 >>> 11 : Nat) : ℚ) * (1 / 9007199254740992) := by
    positivity
  have hr1 : (((splitmix64 sm).1 >>> 11 : Nat) : ℚ) * (1 / 9007199254740992) ≤ 1 := by
    have : (((splitmix64 sm).1 >>> 11 : Nat) : ℚ) ≤ 9007199254740992 := by
      exact_mod_cast hs.le
    linarith
  have hd : 0 ≤ hi - lo := sub_nonneg.mpr h
  constructor
  · nlinarith [mul_nonneg hd hr0]
  · nlinarith [mul_le_mul_of_nonneg_left hr1 hd]

theorem offsetsLoop_span (slots : List VehicleSlot) (acc : ℚ) :
    (offsetsLoop slots acc).1.map slotSpan = slots.map slotSpan := by
  induction slots generalizing acc with
  | nil => rfl
  | cons s rest ih =>
    simp only [offsetsLoop, List.map_cons]
    rw [ih]
    rfl

theorem offsetsLoop_total (slots : List VehicleSlot) (acc : ℚ) :
    (offsetsLoop slots acc).2 = acc + (slots.map slotSpan).sum := by
  induction slots generalizing acc with
  | nil => simp [offsetsLoop]
  | cons s rest ih =>
    simp only [offsetsLoop, List.map_cons, List.sum_cons]
    rw [ih]
    unfold slotSpan
    ring

theorem offsetsLoop_offset (slots : List VehicleSlot) (acc : ℚ) (i : Nat) (s : VehicleSlot)
    (h : (offsetsLoop slots acc).1[i]? = some s) :
    s.offset = acc + ((slots.take i).map slotSpan).sum := by
  induction slots generalizing acc i with
  | nil => simp [offsetsLoop] at h
  | cons s0 rest ih =>
    cases i with
    | zero =>
      simp only [offsetsLoop, List.getElem?_cons_zero, Option.some.injEq] at h
      rw [← h]
      simp
    | succ j =>
      simp only [offsetsLoop, List.getElem?_cons_succ] at h
      rw [ih _ j h]
      simp only [List.take_succ_cons, List.map_cons, List.sum_cons]
      unfold slotSpan
      ring

theorem GenerateLane_built (seed : Nat) (wr : Int) :
    ∃ ln0 : Lane, GenerateLane seed wr = ln0.buildPatternOffsets_ := by
  unfold GenerateLane
  by_cases h : wr.tmod 7 = 0 ∨ wr.tmod 7 = 1
  · simp only [h, if_true]; exact ⟨_, rfl⟩
  · simp only [h, if_false]; exact ⟨_, rfl⟩

theorem span_sum_lower (l : List VehicleSlot)
    (h : ∀ s ∈ l, 1 ≤ s.lengthTiles ∧ 2 ≤ s.gapTiles) :
    3 * (l.length : ℚ) ≤ (l.map slotSpan).sum := by
  induction l with
  | nil => simp
  | cons s rest ih =>
    have hs := h s (List.mem_cons_self _ _)
    have hr := ih (fun t ht => h t (List.mem_cons_of_mem _ ht))
    simp only [List.length_cons, List.map_cons, List.sum_cons, Nat.cast_succ]
    have : (3 : ℚ) ≤ slotSpan s := by
      unfold slotSpan
      have : (3 : Int) ≤ s.lengthTiles + s.gapTiles := by omega
      exact_mod_cast this
    linarith

theorem neg_lt_tmod (a : Int) (d : Nat) (hd : 0 < d) : -(d : Int) < a.tmod (d : Int) := by
  cases a with
  | ofNat m =>
    have := Int.tmod_nonneg (d : Int) (Int.ofNat_nonneg m)
    have hd2 : (0 : Int) < (d : Int) := by exact_mod_cast hd
    exact lt_of_lt_of_le (by omega) this
  | negSucc m =>
    show -(d : Int) < -(((m + 1) % d : Nat) : Int)
    have := Nat.mod_lt (m + 1) hd
    omega

/-- The truncated remainder is smaller in size than a positive divisor. -/
theorem fmod_abs_lt (x y : ℚ) (hy : 0 < y) : -y < fmod x y ∧ fmod x y < y := by
  unfold fmod
  set q := x / y with hq
  have hd : (0 : Int) < (q.den : Int) := by exact_mod_cast q.den_pos
  have hdq : (0 : ℚ) < (q.den : ℚ) := by exact_mod_cast q.den_pos
  have hsplit : q.num = (q.den : Int) * q.num.tdiv (q.den : Int) + q.num.tmod (q.den : Int) :=
    (Int.tdiv_add_tmod q.num q.den).symm
  have hm1 : q.num.tmod (q.den : Int) < (q.den : Int) := Int.tmod_lt_of_pos _ hd
  have hm2 : -(q.den : Int) < q.num.tmod (q.den : Int) := neg_lt_tmod q.num q.den q.den_pos
  have hqv : q = (q.num : ℚ) / (q.den : ℚ) := (Rat.num_div_den q).symm
  have hx : x = q * y := by rw [hq]; field_simp
  have key : x - ((q.num.tdiv (q.den : Int) : Int) : ℚ) * y =
      ((q.num.tmod (q.den : Int) : Int) : ℚ) / (q.den : ℚ) * y := by
    have h1 : (q.num : ℚ) = (q.den : ℚ) * ((q.num.tdiv (q.den : Int) : Int) : ℚ) +
        ((q.num.tmod (q.den : Int) : Int) : ℚ) := by exact_mod_cast hsplit
    rw [hx]
    nth_rewrite 1 [hqv]
    rw [h1]
    field_simp
    ring
  rw [key]
  have b1 : ((q.num.tmod (q.den : Int) : Int) : ℚ) / (q.den : ℚ) < 1 := by
    rw [div_lt_one hdq]; exact_mod_cast hm1
  have b2 : -1 < ((q.num.tmod (q.den : Int) : Int) : ℚ) / (q.den : ℚ) := by
    rw [lt_div_iff₀ hdq]
    have : (-(q.den : Int) : ℚ) < ((q.num.tmod (q.den : Int) : Int) : ℚ) := by exact_mod_cast hm2
    simpa using this
  constructor <;> nlinarith

theorem ApplyScroll_frame (g : Game) (p n : Int) :
    (g.ApplyScrollIfNeeded_ p n).gridW_ = g.gridW_ ∧
    (g.ApplyScrollIfNeeded_ p n).gridH_ = g.gridH_ ∧
    (g.ApplyScrollIfNeeded_ p n).frog_.score_ = g.frog_.score_ ∧
    (g.ApplyScrollIfNeeded_ p n).matchSeed_ = g.matchSeed_ := by
  cases he : g.enteringNextBlockFirstSafe p n
  · rw [ApplyScroll_of_not_entering g p n he]
    exact ⟨rfl, rfl, rfl, rfl⟩
  · obtain ⟨_, _, _, ef, _, _, _, eW, eH, eM⟩ := ApplyScroll_of_entering g p n he
    exact ⟨eW, eH, by rw [ef]; rfl, eM⟩

/-- A call of `Game::HandleInput` that returns true came from a running, unsuppressed state and
passed the guard of its action. -/
theorem HandleInput_true_cases (g : Game) (a : InputAction) (h : (g.HandleInput a).1 = true) :
    g.gameOver_ = false ∧ g.inputLockOnce_ = false ∧ (g.applyAction a).2 = true := by
  by_cases hblock : g.gameOver_ = true ∨ g.inputLockOnce_ = true
  · rw [HandleInput_blocked g a hblock] at h; cases h
  have hover : g.gameOver_ = false := by
    cases h : g.gameOver_ <;> simp_all
  have hlock : g.inputLockOnce_ = false := by
    cases h : g.inputLockOnce_ <;> simp_all
  refine ⟨hover, hlock, ?_⟩
  cases hm : (g.applyAction a).2
  · rw [HandleInput_not_moved g a hm] at h; cases h
  · rfl

/-- A call of `Game::HandleInput` that returns false leaves the state as it was. -/
theorem HandleInput_false_state (g : Game) (a : InputAction) (h : (g.HandleInput a).1 = false) :
    (g.HandleInput a).2 = g := by
  by_cases hblock : g.gameOver_ = true ∨ g.inputLockOnce_ = true
  · rw [HandleInput_blocked g a hblock]
  have hover : g.gameOver_ = false := by
    cases h : g.gameOver_ <;> simp_all
  have hlock : g.inputLockOnce_ = false := by
    cases h : g.inputLockOnce_ <;> simp_all
  cases hm : (g.applyAction a).2
  · rw [HandleInput_not_moved g a hm]
  · rw [HandleInput_moved g a hover hlock hm] at h; cases h

theorem HandleInput_true_score (g : Game) (a : InputAction) (h : (g.HandleInput a).1 = true) :
    (g.HandleInput a).2.frog_.score_ = (g.applyAction a).1.score_ ∧
    (g.HandleInput a).2.gridW_ = g.gridW_ ∧ (g.HandleInput a).2.gridH_ = g.gridH_ ∧
    (g.HandleInput a).2.matchSeed_ = g.matchSeed_ := by
  obtain ⟨hover, hlock, hm⟩ := HandleInput_true_cases g a h
  rw [HandleInput_moved g a hover hlock hm]
  obtain ⟨cW, cH, _, _, _, _, _, _, _, cM, _, _, _, cs⟩ := clampX_frame
    (({ g with frog_ := (g.applyAction a).1 } : Game).ApplyScrollIfNeeded_
      g.frog_.y_ (g.applyAction a).1.y_)
  obtain ⟨sW, sH, ss, sM⟩ := ApplyScroll_frame ({ g with frog_ := (g.applyAction a).1 } : Game)
    g.frog_.y_ (g.applyAction a).1.y_
  exact ⟨by show Frog.score_ (Game.frog_ (Game.clampX _)) = _; rw [cs, ss],
    by show Game.gridW_ (Game.clampX _) = _; rw [cW, sW],
    by show Game.gridH_ (Game.clampX _) = _; rw [cH, sH],
    by show Game.matchSeed_ (Game.clampX _) = _; rw [cM, sM]⟩

theorem HandleInput_frame (g : Game) (a : InputAction) :
    (g.HandleInput a).2.gridW_ = g.gridW_ ∧ (g.HandleInput a).2.gridH_ = g.gridH_ ∧
    (g.HandleInput a).2.matchSeed_ = g.matchSeed_ := by
  cases h : (g.HandleInput a).1
  · rw [HandleInput_false_state g a h]; exact ⟨rfl, rfl, rfl⟩
  · exact (HandleInput_true_score g a h).2

theorem WindowInv_run (g : Game) (calls : List Call) (inv : WindowInv g) :
    WindowInv (g.run calls) := by
  induction calls generalizing g with
  | nil => exact inv
  | cons c rest ih =>
    show WindowInv ((g.step c).run rest)
    apply ih
    cases c with
    | tick dt => exact WindowInv_update g dt inv
    | input a => exact WindowInv_handleInput g a inv

theorem run_frame (g : Game) (calls : List Call) :
    (g.run calls).gridW_ = g.gridW_ ∧ (g.run calls).gridH_ = g.gridH_ ∧
    (g.run calls).matchSeed_ = g.matchSeed_ := by
  induction calls generalizing g with
  | nil => exact ⟨rfl, rfl, rfl⟩
  | cons c rest ih =>
    show ((g.step c).run rest).gridW_ = _ ∧ ((g.step c).run rest).gridH_ = _ ∧
      ((g.step c).run rest).matchSeed_ = _
    obtain ⟨h1, h2, h3⟩ := ih (g.step c)
    rw [h1, h2, h3]
    cases c with
    | tick dt =>
      exact ⟨(Update_frame g dt).1, (Update_frame g dt).2.1, (Update_frame g dt).2.2.2.2.2.2.1⟩
    | input a => exact HandleInput_frame g a

/-- A column inside the grid stays inside the grid over one call. -/
theorem x_in_grid_step (g : Game) (c : Call) (inv : WindowInv g)
    (hx : 0 ≤ g.frog_.x_ ∧ g.frog_.x_ < g.gridW_) :
    0 ≤ (g.step c).frog_.x_ ∧ (g.step c).frog_.x_ < g.gridW_ := by
  cases c with
  | tick dt =>
    show 0 ≤ (g.Update dt).frog_.x_ ∧ (g.Update dt).frog_.x_ < g.gridW_
    rw [(Update_frame g dt).2.2.1]; exact hx
  | input a =>
    show 0 ≤ (g.HandleInput a).2.frog_.x_ ∧ (g.HandleInput a).2.frog_.x_ < g.gridW_
    by_cases hblock : g.gameOver_ = true ∨ g.inputLockOnce_ = true
    · rw [HandleInput_blocked g a hblock]; exact hx
    have hover : g.gameOver_ = false := by
      cases h : g.gameOver_ <;> simp_all
    have hlock : g.inputLockOnce_ = false := by
      cases h : g.inputLockOnce_ <;> simp_all
    rcases HandleInput_outcome g a inv hover hlock with
      ⟨_, h⟩ | ⟨hm, _, h⟩ | ⟨_, _, _, _, _, _, _, hxs, _, _⟩
    · rw [h]; exact hx
    · rw [h]
      have cx := clampX_x ({ g with frog_ := (g.applyAction a).1 } : Game)
      simp only at cx
      rw [cx]
      rcases applyAction_frog g a hm with ⟨_, _, hf⟩ | ⟨_, _, hf⟩ | ⟨_, _, hf⟩ | ⟨_, _, hf⟩
      · rw [hf]; simp only [Frog.MoveUp]; split_ifs <;> omega
      · rw [hf]; simp only; split_ifs <;> omega
      · rw [hf]; simp only [Frog.MoveLeft]; split_ifs <;> omega
      · rw [hf]; simp only [Frog.MoveRight]; split_ifs <;> omega
    · rw [hxs]; exact hx

theorem x_in_grid_run (g : Game) (calls : List Call) (inv : WindowInv g)
    (hx : 0 ≤ g.frog_.x_ ∧ g.frog_.x_ < g.gridW_) :
    0 ≤ (g.run calls).frog_.x_ ∧ (g.run calls).frog_.x_ < g.gridW_ := by
  induction calls generalizing g with
  | nil => exact hx
  | cons c rest ih =>
    show 0 ≤ ((g.step c).run rest).frog_.x_ ∧ ((g.step c).run rest).frog_.x_ < g.gridW_
    have hW : (g.step c).gridW_ = g.gridW_ := (run_frame g [c]).1
    have hinv : WindowInv (g.step c) := WindowInv_run g [c] inv
    have := ih (g.step c) hinv (by rw [hW]; exact x_in_grid_step g c inv hx)
    rw [hW] at this
    exact this

theorem Lane_Update_type (ln : Lane) (dt sc : ℚ) : (ln.Update dt sc).type_ = ln.type_ := by
  unfold Lane.Update
  split_ifs <;> rfl

theorem pushFrontLoop_mem (seed : Nat) (n : Nat) (lanes : List Lane) (top : Int) (ln : Lane)
    (h : ln ∈ (pushFrontLoop seed n lanes top).1) :
    ln ∈ lanes ∨ ∃ wr : Int, ln = GenerateLane seed wr := by
  induction n generalizing lanes top with
  | zero => exact Or.inl h
  | succ k ih =>
    rw [pushFrontLoop] at h
    rcases ih _ _ h with h1 | h1
    · rcases List.mem_cons.mp h1 with h2 | h2
      · exact Or.inr ⟨_, h2⟩
      · exact Or.inl h2
    · exact Or.inr h1

theorem Update_lanes (g : Game) (dt : ℚ) :
    ∃ sc : ℚ, (g.Update dt).lanes_ = g.lanes_ ∨
      (g.Update dt).lanes_ = g.lanes_.map (fun ln => ln.Update dt sc) := by
  unfold Game.Update
  by_cases hg : g.gameOver_ = true
  · exact ⟨0, Or.inl (by simp [hg])⟩
  · simp only [hg, if_false]
    exact ⟨_, Or.inr rfl⟩

theorem HandleInput_lanes (g : Game) (a : InputAction) :
    (g.HandleInput a).2.lanes_ = g.lanes_ ∨
    (g.HandleInput a).2.lanes_ =
      (pushFrontLoop g.matchSeed_ 7 (popBackLoop 7 g.lanes_) g.topRowWorld_).1 := by
  cases h : (g.HandleInput a).1
  · rw [HandleInput_false_state g a h]; exact Or.inl rfl
  · obtain ⟨hover, hlock, hm⟩ := HandleInput_true_cases g a h
    rw [HandleInput_moved g a hover hlock hm]
    cases he : ({ g with frog_ := (g.applyAction a).1 } : Game).enteringNextBlockFirstSafe
        g.frog_.y_ (g.applyAction a).1.y_
    · rw [ApplyScroll_of_not_entering _ _ _ he]
      exact Or.inl (clampX_frame _).2.2.2.1
    · right
      obtain ⟨_, _, el, _⟩ := ApplyScroll_of_entering _ _ _ he
      show Game.lanes_ (Game.clampX _) = _
      rw [(clampX_frame _).2.2.2.1, el]

/-- The type a row has by its position in its block of 7. -/
theorem lane_types_of_reachable {g : Game} (h : Reachable g) :
    ∀ ln ∈ g.lanes_, ln.type_ =
      if ln.worldRowIndex_.tmod 7 = 0 ∨ ln.worldRowIndex_.tmod 7 = 1 then LaneType.Safe
      else LaneType.Traffic := by
  have hgen : ∀ (seed : Nat) (wr : Int), (GenerateLane seed wr).type_ =
      if (GenerateLane seed wr).worldRowIndex_.tmod 7 = 0 ∨
        (GenerateLane seed wr).worldRowIndex_.tmod 7 = 1 then LaneType.Safe
      else LaneType.Traffic := by
    intro seed wr
    rw [GenerateLane_row, GenerateLane_type]
  induction h with
  | reset g0 rnd userSeed10 frogColor startX =>
    intro ln hln
    change ln ∈ resetLanesLoop _ _ 0 [] at hln
    rw [resetLanesLoop_eq, List.append_nil, List.mem_reverse, List.mem_map] at hln
    obtain ⟨r, _, rfl⟩ := hln
    exact hgen _ _
  | @update g dt _ ih =>
    intro ln hln
    obtain ⟨sc, hl | hl⟩ := Update_lanes g dt
    · rw [hl] at hln; exact ih ln hln
    · rw [hl, List.mem_map] at hln
      obtain ⟨l0, hl0, rfl⟩ := hln
      rw [Lane_Update_type, Lane_Update_row]
      exact ih l0 hl0
  | @handleInput g a _ ih =>
    intro ln hln
    rcases HandleInput_lanes g a with hl | hl
    · rw [hl] at hln; exact ih ln hln
    · rw [hl] at hln
      rcases pushFrontLoop_mem _ _ _ _ _ hln with h1 | ⟨wr, rfl⟩
      · rw [popBackLoop_eq_take] at h1
        exact ih ln (List.mem_of_mem_take h1)
      · exact hgen _ _

theorem tmod_seven_eq_one_iff (a : Int) : a.tmod 7 = 1 ↔ 0 ≤ a ∧ a % 7 = 1 := by
  constructor
  · intro h
    by_cases ha : 0 ≤ a
    · rw [Int.tmod_eq_emod ha (by omega)] at h
      exact ⟨ha, h⟩
    · exfalso
      have h1 : (-a).tmod 7 = -1 := by
        have := Int.tmod_def (-a) 7
        have h2 := Int.tmod_def a 7
        have h3 : (-a).tdiv 7 = -(a.tdiv 7) := Int.neg_tdiv _ _
        rw [h3] at this
        omega
      have h4 : 0 ≤ (-a).tmod 7 := Int.tmod_nonneg 7 (by omega)
      omega
  · rintro ⟨ha, h⟩
    rw [Int.tmod_eq_emod ha (by omega)]
    exact h

/-! ## Lemmas on binary32 rounding and the lane in float arithmetic -/

theorem twoPow_pos (e : Int) : 0 < twoPow e := by
  unfold twoPow
  split_ifs
  · exact_mod_cast Nat.pos_pow_of_pos _ (by norm_num)
  · apply div_pos one_pos
    exact_mod_cast Nat.pos_pow_of_pos _ (by norm_num)

theorem roundHalfEven_nonneg (x : ℚ) (h : 0 ≤ x) : 0 ≤ roundHalfEven x := by
  have hf : 0 ≤ x.num / (x.den : Int) :=
    Int.ediv_nonneg (Rat.num_nonneg.mpr h) (by exact_mod_cast x.den_pos.le)
  unfold roundHalfEven
  simp only
  split_ifs <;> omega

/-- Rounding keeps the sign: a non-negative exact result rounds to a non-negative number or
overflows to the positive infinity. -/
theorem round32_of_nonneg (q : ℚ) (h : 0 ≤ q) :
    round32 q = F32.posInf ∨ ∃ r, round32 q = F32.fin r ∧ 0 ≤ r := by
  unfold round32
  by_cases h0 : q = 0
  · rw [if_pos h0]; exact Or.inr ⟨0, rfl, le_refl 0⟩
  · rw [if_neg h0]
    have hneg : ¬ q < 0 := not_lt.mpr h
    simp only [hneg, if_false]
    split_ifs
    · exact Or.inl rfl
    · refine Or.inr ⟨_, rfl, ?_⟩
      apply mul_nonneg
      · exact_mod_cast roundHalfEven_nonneg _ (div_nonneg h (twoPow_pos _).le)
      · exact (twoPow_pos _).le

theorem fmod_nonneg_of_nonneg (x y : ℚ) (hx : 0 ≤ x) (hy : 0 < y) : 0 ≤ fmod x y := by
  unfold fmod
  set q := x / y with hq
  have hq0 : 0 ≤ q := div_nonneg hx hy.le
  have hd : (0 : Int) < (q.den : Int) := by exact_mod_cast q.den_pos
  have hdq : (0 : ℚ) < (q.den : ℚ) := by exact_mod_cast q.den_pos
  have hn : 0 ≤ q.num := Rat.num_nonneg.mpr hq0
  have hsplit : q.num = (q.den : Int) * q.num.tdiv (q.den : Int) + q.num.tmod (q.den : Int) :=
    (Int.tdiv_add_tmod q.num q.den).symm
  have hm : 0 ≤ q.num.tmod (q.den : Int) := Int.tmod_nonneg _ hn
  have hle : ((q.num.tdiv (q.den : Int) : Int) : ℚ) ≤ q := by
    have hle2 : q.num.tdiv (q.den : Int) * (q.den : Int) ≤ q.num := by nlinarith
    have h2 : ((q.num.tdiv (q.den : Int) : Int) : ℚ) ≤ (q.num : ℚ) / (q.den : ℚ) := by
      rw [le_div_iff₀ hdq]
      exact_mod_cast hle2
    rwa [Rat.num_div_den] at h2
  have hx2 : x = q * y := by rw [hq]; field_simp
  nlinarith
theorem twoPow_eq_zpow (e : Int) : twoPow e = (2 : ℚ) ^ e := by
  unfold twoPow
  split_ifs with h
  · obtain ⟨n, rfl⟩ := Int.eq_ofNat_of_zero_le h
    simp
  · have h2 : 0 ≤ -e := by omega
    obtain ⟨n, hn⟩ := Int.eq_ofNat_of_zero_le h2
    have he : e = -(n : Int) := by omega
    rw [hn, he]
    simp

theorem twoPow_mono {a b : Int} (h : a ≤ b) : twoPow a ≤ twoPow b := by
  rw [twoPow_eq_zpow, twoPow_eq_zpow]
  exact zpow_le_zpow_right₀ (by norm_num) h

theorem twoPow_add (a b : Int) : twoPow (a + b) = twoPow a * twoPow b := by
  rw [twoPow_eq_zpow, twoPow_eq_zpow, twoPow_eq_zpow]
  exact zpow_add₀ (by norm_num) a b

theorem log2Loop_spec (steps n : Nat) (h0 : 0 < n) (hs : n ≤ steps) :
    2 ^ log2Loop steps n ≤ n ∧ n < 2 ^ (log2Loop steps n + 1) := by
  induction steps generalizing n with
  | zero => omega
  | succ k ih =>
    unfold log2Loop
    split_ifs with h2
    · have := ih (n / 2) (by omega) (by omega)
      rw [pow_succ, pow_succ (2) (log2Loop k (n / 2) + 1)]
      omega
    · simp; omega

theorem ilog2_spec (n : Nat) (h0 : 0 < n) : 2 ^ ilog2 n ≤ n ∧ n < 2 ^ (ilog2 n + 1) :=
  log2Loop_spec n n h0 (le_refl n)

theorem floorLog2_spec (a : ℚ) (ha : 0 < a) :
    twoPow (floorLog2 a) ≤ a ∧ a < twoPow (floorLog2 a + 1) := by
  have hn : 0 < a.num := Rat.num_pos.mpr ha
  obtain ⟨n, hnn⟩ := Int.eq_ofNat_of_zero_le hn.le
  have hn0 : 0 < n := by omega
  have hd0 : 0 < a.den := a.den_pos
  obtain ⟨n1, n2⟩ := ilog2_spec n hn0
  obtain ⟨d1, d2⟩ := ilog2_spec a.den hd0
  have hval : (n : ℚ) / (a.den : ℚ) = a := by
    have h := Rat.num_div_den a
    rw [hnn, Int.cast_natCast] at h
    exact h
  have hdq : (0 : ℚ) < (a.den : ℚ) := by exact_mod_cast hd0
  have n1q : (2 : ℚ) ^ (ilog2 n) ≤ (n : ℚ) := by exact_mod_cast n1
  have n2q : (n : ℚ) < (2 : ℚ) ^ (ilog2 n) * 2 := by
    rw [← pow_succ]; exact_mod_cast n2
  have d1q : (2 : ℚ) ^ (ilog2 a.den) ≤ (a.den : ℚ) := by exact_mod_cast d1
  have d2q : (a.den : ℚ) < (2 : ℚ) ^ (ilog2 a.den) * 2 := by
    rw [← pow_succ]; exact_mod_cast d2
  have hpn : (0 : ℚ) < (2 : ℚ) ^ (ilog2 n) := by positivity
  have hpd : (0 : ℚ) < (2 : ℚ) ^ (ilog2 a.den) := by positivity
  have hnq : (0 : ℚ) < (n : ℚ) := by exact_mod_cast hn0
  have hE : twoPow ((ilog2 n : Int) - (ilog2 a.den : Int)) =
      (2 : ℚ) ^ (ilog2 n) / (2 : ℚ) ^ (ilog2 a.den) := by
    rw [twoPow_eq_zpow, zpow_sub₀ (by norm_num), zpow_natCast, zpow_natCast]
  have key1 : (2 : ℚ) ^ ilog2 n / (2 * (2 : ℚ) ^ ilog2 a.den) ≤ (n : ℚ) / (a.den : ℚ) := by
    rw [div_le_div_iff₀ (by positivity) hdq]
    nlinarith
  have key2 : (n : ℚ) / (a.den : ℚ) < (2 : ℚ) ^ ilog2 n * 2 / (2 : ℚ) ^ ilog2 a.den := by
    rw [div_lt_div_iff₀ hdq hpd]
    nlinarith
  rw [hval] at key1 key2
  have hlow : twoPow ((ilog2 n : Int) - (ilog2 a.den : Int) - 1) ≤ a := by
    have hsplit : ((ilog2 n : Int) - (ilog2 a.den : Int) - 1) =
        -1 + ((ilog2 n : Int) - (ilog2 a.den : Int)) := by ring
    rw [hsplit, twoPow_add, hE, twoPow_eq_zpow]
    rw [show ((2 : ℚ) ^ (-1 : Int)) = 1 / 2 by norm_num]
    rw [show (1 : ℚ) / 2 * ((2 : ℚ) ^ ilog2 n / (2 : ℚ) ^ ilog2 a.den) =
      (2 : ℚ) ^ ilog2 n / (2 * (2 : ℚ) ^ ilog2 a.den) by field_simp]
    exact key1
  have hup : a < twoPow ((ilog2 n : Int) - (ilog2 a.den : Int) + 1) := by
    rw [twoPow_add, hE, twoPow_eq_zpow]
    rw [show ((2 : ℚ) ^ (1 : Int)) = 2 by norm_num]
    rw [div_mul_eq_mul_div]
    exact key2
  unfold floorLog2
  simp only
  rw [hnn, Int.toNat_ofNat]
  split_ifs with hc
  · exact ⟨hc, hup⟩
  · refine ⟨hlow, ?_⟩
    rw [sub_add_cancel]
    exact not_le.mp hc

theorem roundHalfEven_le (x : ℚ) (n : Int) (h : x ≤ (n : ℚ)) : roundHalfEven x ≤ n := by
  have hfl : x.num / (x.den : Int) = ⌊x⌋ := Rat.floor_def.symm
  have h1 : ((⌊x⌋ : Int) : ℚ) ≤ x := Int.floor_le x
  have hfn : ⌊x⌋ ≤ n := by
    have : ((⌊x⌋ : Int) : ℚ) ≤ (n : ℚ) := le_trans h1 h
    exact_mod_cast this
  unfold roundHalfEven
  simp only
  rw [hfl]
  have hstep : (1 : ℚ) / 2 ≤ x - ((⌊x⌋ : Int) : ℚ) → ⌊x⌋ + 1 ≤ n := by
    intro hr
    have : ((⌊x⌋ : Int) : ℚ) < (n : ℚ) := by linarith
    have : ⌊x⌋ < n := by exact_mod_cast this
    omega
  split_ifs with c1 c2 c3
  · exact hfn
  · exact hstep c2.le
  · exact hfn
  · exact hstep (not_lt.mp c1)

theorem le_roundHalfEven (x : ℚ) (n : Int) (h : (n : ℚ) ≤ x) : n ≤ roundHalfEven x := by
  have hfl : x.num / (x.den : Int) = ⌊x⌋ := Rat.floor_def.symm
  have hfn : n ≤ ⌊x⌋ := Int.le_floor.mpr h
  unfold roundHalfEven
  simp only
  rw [hfl]
  split_ifs <;> omega

/-- The magnitude that `round32` gives a positive exact result, before the overflow test. -/
theorem round32_of_pos (q : ℚ) (h : 0 < q) :
    round32 q =
      if twoPow 128 ≤ (roundHalfEven (q / twoPow (max (floorLog2 q) (-126) - 23)) : ℚ) *
          twoPow (max (floorLog2 q) (-126) - 23) then F32.posInf
      else F32.fin ((roundHalfEven (q / twoPow (max (floorLog2 q) (-126) - 23)) : ℚ) *
          twoPow (max (floorLog2 q) (-126) - 23)) := by
  unfold round32
  rw [if_neg h.ne']
  simp only [not_lt.mpr h.le, if_false]

/-- Rounding never passes a binary32 value: an exact result in `(0, l]` rounds into `[0, l]`
when `l` itself is a binary32 value. -/
theorem round32_le_of_le (x l : ℚ) (hx : 0 < x) (hxl : x ≤ l) (hl : round32 l = F32.fin l) :
    ∃ r, round32 x = F32.fin r ∧ 0 ≤ r ∧ r ≤ l := by
  have hl0 : 0 < l := lt_of_lt_of_le hx hxl
  rw [round32_of_pos l hl0] at hl
  split_ifs at hl with hov
  have hRl : (roundHalfEven (l / twoPow (max (floorLog2 l) (-126) - 23)) : ℚ) *
      twoPow (max (floorLog2 l) (-126) - 23) = l := by
    injection hl
  have hl128 : l < twoPow 128 := by
    rw [hRl] at hov
    exact not_le.mp hov
  obtain ⟨sx1, sx2⟩ := floorLog2_spec x hx
  obtain ⟨sl1, sl2⟩ := floorLog2_spec l hl0
  set ex := max (floorLog2 x) (-126) with hex
  set el := max (floorLog2 l) (-126) with hel
  have hQx : 0 < twoPow (ex - 23) := twoPow_pos _
  have hQl : 0 < twoPow (el - 23) := twoPow_pos _
  have hR : (roundHalfEven (x / twoPow (ex - 23)) : ℚ) * twoPow (ex - 23) ≤ l := by
    rcases lt_trichotomy ex el with hlt | heq | hgt
    · have hel2 : el = floorLog2 l := by omega
      have hxup : x < twoPow (ex + 1) :=
        lt_of_lt_of_le sx2 (twoPow_mono (by omega))
      have h24 : twoPow (ex + 1) = ((16777216 : Int) : ℚ) * twoPow (ex - 23) := by
        have : ex + 1 = 24 + (ex - 23) := by ring
        rw [this, twoPow_add]
        congr 1
      have hdiv : x / twoPow (ex - 23) ≤ ((16777216 : Int) : ℚ) := by
        rw [div_le_iff₀ hQx]
        rw [← h24]
        exact hxup.le
      have hr := roundHalfEven_le _ _ hdiv
      have hrq : (roundHalfEven (x / twoPow (ex - 23)) : ℚ) ≤ ((16777216 : Int) : ℚ) := by
        exact_mod_cast hr
      calc (roundHalfEven (x / twoPow (ex - 23)) : ℚ) * twoPow (ex - 23)
          ≤ ((16777216 : Int) : ℚ) * twoPow (ex - 23) :=
            mul_le_mul_of_nonneg_right hrq hQx.le
        _ = twoPow (ex + 1) := h24.symm
        _ ≤ twoPow el := twoPow_mono (by omega)
        _ = twoPow (floorLog2 l) := by rw [hel2]
        _ ≤ l := sl1
    · rw [heq]
      have hdl : l / twoPow (el - 23) = (roundHalfEven (l / twoPow (el - 23)) : ℚ) := by
        rw [div_eq_iff hQl.ne']
        exact hRl.symm
      have hdiv : x / twoPow (el - 23) ≤ (roundHalfEven (l / twoPow (el - 23)) : ℚ) := by
        rw [← hdl]
        exact div_le_div_of_nonneg_right hxl hQl.le
      have hr := roundHalfEven_le _ _ hdiv
      have hrq : (roundHalfEven (x / twoPow (el - 23)) : ℚ) ≤
          (roundHalfEven (l / twoPow (el - 23)) : ℚ) := by exact_mod_cast hr
      calc (roundHalfEven (x / twoPow (el - 23)) : ℚ) * twoPow (el - 23)
          ≤ (roundHalfEven (l / twoPow (el - 23)) : ℚ) * twoPow (el - 23) :=
            mul_le_mul_of_nonneg_right hrq hQl.le
        _ = l := hRl
    · exfalso
      have hex2 : ex = floorLog2 x := by omega
      have hfl : floorLog2 l + 1 ≤ floorLog2 x := by omega
      have := twoPow_mono hfl
      linarith
  rw [round32_of_pos x hx]
  rw [if_neg (not_le.mpr (lt_of_le_of_lt hR hl128))]
  refine ⟨_, rfl, ?_, hR⟩
  apply mul_nonneg
  · exact_mod_cast roundHalfEven_nonneg _ (div_nonneg hx.le hQx.le)
  · exact hQx.le

theorem f32_nonneg_cases (x : F32) (h : F32.le (F32.fin 0) x = true) :
    x = F32.posInf ∨ ∃ q, x = F32.fin q ∧ 0 ≤ q := by
  cases x with
  | fin q => exact Or.inr ⟨q, rfl, by simpa [F32.le] using h⟩
  | posInf => exact Or.inl rfl
  | negInf => simp [F32.le] at h
  | nan => simp [F32.le] at h

theorem round32_nonneg_le (q : ℚ) (h : 0 ≤ q) : F32.le (F32.fin 0) (round32 q) = true := by
  rcases round32_of_nonneg q h with h1 | ⟨r, h1, hr⟩
  · rw [h1]; rfl
  · rw [h1]; simpa [F32.le] using hr

theorem f32_mul_of_nonneg (a b : F32) (ha : F32.le (F32.fin 0) a = true)
    (hb : F32.le (F32.fin 0) b = true) :
    F32.mul a b = F32.nan ∨ F32.le (F32.fin 0) (F32.mul a b) = true := by
  rcases f32_nonneg_cases a ha with rfl | ⟨x, rfl, hx⟩ <;>
    rcases f32_nonneg_cases b hb with rfl | ⟨y, rfl, hy⟩
  · exact Or.inr rfl
  · by_cases h0 : y = 0
    · left; simp [F32.mul, F32.infTimes, h0]
    · right; simp [F32.mul, F32.infTimes, h0, not_lt.mpr hy, F32.le]
  · by_cases h0 : x = 0
    · left; simp [F32.mul, F32.infTimes, h0]
    · right; simp [F32.mul, F32.infTimes, h0, not_lt.mpr hx, F32.le]
  · right
    exact round32_nonneg_le _ (mul_nonneg hx hy)

theorem f32_add_of_nonneg (a b : F32) (ha : F32.le (F32.fin 0) a = true)
    (hb : F32.le (F32.fin 0) b = true) : F32.le (F32.fin 0) (F32.add a b) = true := by
  rcases f32_nonneg_cases a ha with rfl | ⟨x, rfl, hx⟩ <;>
    rcases f32_nonneg_cases b hb with rfl | ⟨y, rfl, hy⟩
  · rfl
  · rfl
  · rfl
  · exact round32_nonneg_le _ (add_nonneg hx hy)

theorem f32_add_nan_right (a : F32) : F32.add a F32.nan = F32.nan := by
  cases a <;> rfl

theorem f32_fmod_of_not_finite (x y : F32) (h : x.isFinite = false) :
    F32.fmod x y = F32.nan := by
  cases x with
  | fin q => simp [F32.isFinite] at h
  | posInf => cases y <;> rfl
  | negInf => cases y <;> rfl
  | nan => cases y <;> rfl

theorem LaneF32_Update_loopLen (ln : LaneF32) (dt scale : F32) :
    (ln.Update dt scale).loopLenTiles_ = ln.loopLenTiles_ := by
  unfold LaneF32.Update
  split_ifs <;> rfl

/-- In range: a phase in `[0, L)` advanced by a non-negative finite amount stays in `[0, L)`. -/
theorem LaneF32_Update_phase_range (ln : LaneF32) (dt scale : F32)
    (ht : ln.type_ = LaneType.Traffic)
    (h0 : F32.le (F32.fin 0) ln.phase_ = true)
    (h1 : F32.lt ln.phase_ ln.loopLenTiles_ = true)
    (he : F32.le (F32.fin 0) (ln.CurrentSpeed scale) = true)
    (hd : F32.le (F32.fin 0) dt = true)
    (hf : (F32.add ln.phase_ (F32.mul (ln.CurrentSpeed scale) dt)).isFinite = true) :
    F32.le (F32.fin 0) (ln.Update dt scale).phase_ = true ∧
    F32.lt (ln.Update dt scale).phase_ ln.loopLenTiles_ = true := by
  have hs : F32.le (F32.fin 0) (F32.add ln.phase_ (F32.mul (ln.CurrentSpeed scale) dt)) = true := by
    rcases f32_mul_of_nonneg _ _ he hd with hm | hm
    · rw [hm, f32_add_nan_right] at hf
      simp [F32.isFinite] at hf
    · exact f32_add_of_nonneg _ _ h0 hm
  unfold LaneF32.Update
  rw [if_neg (by rw [ht]; exact fun h => by cases h)]
  simp only
  rcases f32_nonneg_cases _ hs with hinf | ⟨s, hsum, hs0⟩
  · rw [hinf] at hf
    simp [F32.isFinite] at hf
  · rw [hsum]
    rcases f32_nonneg_cases _ h0 with hp | ⟨p, hp, hp0⟩
    · rw [hp] at h1
      cases hL : ln.loopLenTiles_ <;> simp [hL, F32.lt] at h1
    · rw [hp] at h1
      cases hL : ln.loopLenTiles_ with
      | fin l =>
        rw [hL] at h1
        have hpl : p < l := by simpa [F32.lt] using h1
        have hl : 0 < l := lt_of_le_of_lt hp0 hpl
        have hr1 := fmod_nonneg_of_nonneg s l hs0 hl
        have hr2 := (fmod_abs_lt s l hl).2
        simp [F32.fmod, hl.ne', F32.lt, F32.le, not_lt.mpr hr1, hr1, hr2]
      | posInf => simp [F32.fmod, F32.lt, F32.le, not_lt.mpr hs0, hs0]
      | negInf => rw [hL] at h1; simp [F32.lt] at h1
      | nan => rw [hL] at h1; simp [F32.lt] at h1

theorem LaneF32_Update_phase_nan (ln : LaneF32) (dt scale : F32)
    (ht : ln.type_ = LaneType.Traffic)
    (hf : (F32.add ln.phase_ (F32.mul (ln.CurrentSpeed scale) dt)).isFinite = false) :
    (ln.Update dt scale).phase_ = F32.nan := by
  unfold LaneF32.Update
  rw [if_neg (by rw [ht]; exact fun h => by cases h)]
  simp only
  rw [f32_fmod_of_not_finite _ _ hf]
  rfl

/-- Any finite advance: a phase in `[0, L)` ends in `[0, L]` when `L` is a binary32 value. -/
theorem LaneF32_Update_phase_closed (ln : LaneF32) (dt scale : F32)
    (ht : ln.type_ = LaneType.Traffic)
    (h0 : F32.le (F32.fin 0) ln.phase_ = true)
    (h1 : F32.lt ln.phase_ ln.loopLenTiles_ = true)
    (hrep : ln.loopLenTiles_.isBinary32 = true)
    (hf : (F32.add ln.phase_ (F32.mul (ln.CurrentSpeed scale) dt)).isFinite = true) :
    F32.le (F32.fin 0) (ln.Update dt scale).phase_ = true ∧
    F32.le (ln.Update dt scale).phase_ ln.loopLenTiles_ = true := by
  unfold LaneF32.Update
  rw [if_neg (by rw [ht]; exact fun h => by cases h)]
  simp only
  cases hsum : F32.add ln.phase_ (F32.mul (ln.CurrentSpeed scale) dt) with
  | posInf => rw [hsum] at hf; simp [F32.isFinite] at hf
  | negInf => rw [hsum] at hf; simp [F32.isFinite] at hf
  | nan => rw [hsum] at hf; simp [F32.isFinite] at hf
  | fin s =>
    rcases f32_nonneg_cases _ h0 with hp | ⟨p, hp, hp0⟩
    · rw [hp] at h1
      cases hL : ln.loopLenTiles_ <;> simp [hL, F32.lt] at h1
    · rw [hp] at h1
      cases hL : ln.loopLenTiles_ with
      | fin l =>
        rw [hL] at h1 hrep
        have hpl : p < l := by simpa [F32.lt] using h1
        have hl : 0 < l := lt_of_le_of_lt hp0 hpl
        have hrl : round32 l = F32.fin l := by simpa [F32.isBinary32] using hrep
        obtain ⟨hr1, hr2⟩ := fmod_abs_lt s l hl
        by_cases hneg : fmod s l < 0
        · obtain ⟨r, hr, hr0, hrl2⟩ :=
            round32_le_of_le (fmod s l + l) l (by linarith) (by linarith) hrl
          simp [F32.fmod, hl.ne', F32.lt, hneg, F32.add, hr, F32.le, hr0, hrl2]
        · have hge : 0 ≤ fmod s l := not_lt.mp hneg
          simp [F32.fmod, hl.ne', F32.lt, hneg, F32.le, hge, hr2.le]
      | posInf =>
        by_cases hneg : s < 0
        · simp [F32.fmod, F32.lt, hneg, F32.add, F32.le]
        · simp [F32.fmod, F32.lt, hneg, F32.le, not_lt.mp hneg]
      | negInf => rw [hL] at h1; simp [F32.lt] at h1
      | nan => rw [hL] at h1; simp [F32.lt] at h1

theorem visitSlotF32_collect (ln : LaneF32) (gridW rowY : Int) (slots : List VehicleSlotF32)
    (acc : List TileRectF32) :
    slots.foldl (ln.visitSlot gridW rowY (fun l r => l ++ [r])) acc =
      acc ++ (slots.filter (ln.keeps gridW)).map
        (fun s => (⟨ln.vehicleX gridW s, F32.ofInt rowY, F32.ofInt s.lengthTiles, F32.fin 1⟩ :
          TileRectF32)) := by
  induction slots generalizing acc with
  | nil => simp
  | cons s rest ih =>
    rw [List.foldl_cons, ih]
    unfold LaneF32.visitSlot LaneF32.keeps
    simp only
    by_cases hc : (F32.le (F32.add (ln.vehicleX gridW s) (F32.ofInt s.lengthTiles)) (F32.fin 0) ||
        F32.le (F32.ofInt gridW) (ln.vehicleX gridW s)) = true
    · rw [if_pos hc, List.filter_cons_of_neg (by simp [hc])]
    · rw [if_neg hc, List.filter_cons_of_pos (by simpa using hc)]
      simp

theorem round32_ne_nan (q : ℚ) : round32 q ≠ F32.nan := by
  unfold round32
  simp only
  split_ifs <;> exact fun h => by cases h

theorem f32_le_eq_not_lt (a b : F32) (ha : a ≠ F32.nan) (hb : b ≠ F32.nan) :
    F32.le a b = !(F32.lt b a) := by
  cases a with
  | fin x =>
    cases b with
    | fin y =>
      by_cases h : x ≤ y
      · simp [F32.le, F32.lt, h, not_lt.mpr h]
      · simp [F32.le, F32.lt, h, not_le.mp h]
    | posInf => rfl
    | negInf => rfl
    | nan => exact absurd rfl hb
  | posInf => cases b <;> first | rfl | exact absurd rfl hb
  | negInf => cases b <;> first | rfl | exact absurd rfl hb
  | nan => exact absurd rfl ha

theorem f32_add_ne_nan_left (a b : F32) (h : F32.add a b ≠ F32.nan) : a ≠ F32.nan := by
  intro ha
  apply h
  rw [ha]
  cases b <;> rfl

theorem round32_neg (q : ℚ) : round32 (-q) = F32.neg (round32 q) := by
  rcases lt_trichotomy q 0 with h | h | h
  · unfold round32
    have h1 : ¬ -q < 0 := by linarith
    have h2 : -q ≠ 0 := by linarith
    simp only [h1, h2, h, h.ne, if_true, if_false, neg_neg]
    split_ifs <;> simp [F32.neg]
  · rw [h]; simp [round32, F32.neg]
  · unfold round32
    have h1 : -q < 0 := by linarith
    have h2 : -q ≠ 0 := by linarith
    have h3 : ¬ q < 0 := by linarith
    simp only [h1, h2, h3, h.ne', if_true, if_false, neg_neg]
    split_ifs <;> simp [F32.neg]

/-- An `int` of 32 bits converts to a finite `float`. -/
theorem ofInt_isFinite (i : Int) (h1 : -2 ^ 31 ≤ i) (h2 : i < 2 ^ 31) :
    (F32.ofInt i).isFinite = true := by
  have hrep : round32 (2 ^ 31) = F32.fin (2 ^ 31) := by decide!
  unfold F32.ofInt
  rcases lt_trichotomy i 0 with h | h | h
  · have hq : (0 : ℚ) < -(i : ℚ) := by
      have : (i : ℚ) < 0 := by exact_mod_cast h
      linarith
    have hle : -(i : ℚ) ≤ 2 ^ 31 := by
      have : (-2 ^ 31 : ℚ) ≤ (i : ℚ) := by exact_mod_cast h1
      linarith
    obtain ⟨r, hr, _, _⟩ := round32_le_of_le _ _ hq hle hrep
    have := round32_neg (-(i : ℚ))
    rw [neg_neg, hr] at this
    rw [this]
    rfl
  · rw [h]
    simp [round32, F32.isFinite]
  · have hq : (0 : ℚ) < (i : ℚ) := by exact_mod_cast h
    have hle : (i : ℚ) ≤ 2 ^ 31 := by
      have : (i : ℚ) < 2 ^ 31 := by exact_mod_cast h2
      exact this.le
    obtain ⟨r, hr, _, _⟩ := round32_le_of_le _ _ hq hle hrep
    rw [hr]
    rfl

theorem f32_add_ne_nan (a b : F32) (ha : a ≠ F32.nan) (hb : b.isFinite = true) :
    F32.add a b ≠ F32.nan := by
  cases b with
  | fin y =>
    cases a with
    | fin x => exact round32_ne_nan _
    | posInf => exact fun h => by cases h
    | negInf => exact fun h => by cases h
    | nan => exact absurd rfl ha
  | posInf => simp [F32.isFinite] at hb
  | negInf => simp [F32.isFinite] at hb
  | nan => simp [F32.isFinite] at hb

/-- The cull test spelled out: when `x` is a number, the slot is kept exactly when `x + w > 0`
and `x < gridW`; when `x` is NaN the slot is kept. -/
theorem LaneF32_keeps_iff (ln : LaneF32) (gridW : Int) (s : VehicleSlotF32) :
    (ln.vehicleX gridW s ≠ F32.nan → -2 ^ 31 ≤ s.lengthTiles → s.lengthTiles < 2 ^ 31 →
      (ln.keeps gridW s = true ↔
        F32.lt (F32.fin 0) (F32.add (ln.vehicleX gridW s) (F32.ofInt s.lengthTiles)) = true ∧
        F32.lt (ln.vehicleX gridW s) (F32.ofInt gridW) = true)) ∧
    (ln.vehicleX gridW s = F32.nan → ln.keeps gridW s = true) := by
  constructor
  · intro hx hl1 hl2
    have hnn := f32_add_ne_nan _ _ hx (ofInt_isFinite _ hl1 hl2)
    have hg : F32.ofInt gridW ≠ F32.nan := round32_ne_nan _
    unfold LaneF32.keeps
    rw [f32_le_eq_not_lt _ _ hnn (fun h => by cases h), f32_le_eq_not_lt _ _ hg hx]
    simp
  · intro hn
    unfold LaneF32.keeps
    rw [hn]
    cases hgw : F32.ofInt gridW <;> cases hw : F32.ofInt s.lengthTiles <;>
      simp [F32.le, F32.add]

theorem LaneF32_phaseInLoop_of_lt (ln : LaneF32) (h0 : F32.le (F32.fin 0) ln.phase_ = true)
    (h1 : F32.lt ln.phase_ ln.loopLenTiles_ = true) : ln.phaseInLoop = ln.phase_ := by
  unfold LaneF32.phaseInLoop
  rcases f32_nonneg_cases _ h0 with hp | ⟨p, hp, hp0⟩
  · rw [hp] at h1
    cases hL : ln.loopLenTiles_ <;> simp [hL, F32.lt] at h1
  · rw [hp] at h1 ⊢
    cases hL : ln.loopLenTiles_ with
    | fin l =>
      rw [hL] at h1
      have hpl : p < l := by simpa [F32.lt] using h1
      have hl : 0 < l := lt_of_le_of_lt hp0 hpl
      simp [F32.fmod, hl.ne', fmod_of_lt p l hp0 hpl, F32.lt, not_lt.mpr hp0]
    | posInf => simp [F32.fmod, F32.lt, not_lt.mpr hp0]
    | negInf => rw [hL] at h1; simp [F32.lt] at h1
    | nan => rw [hL] at h1; simp [F32.lt] at h1

theorem LaneF32_visibleObstacles_safe (ln : LaneF32) (gridW rowY : Int)
    (h : ln.type_ = LaneType.Safe) : ln.visibleObstacles gridW rowY = [] := by
  unfold LaneF32.visibleObstacles LaneF32.ForEachVisibleVehicle
  simp [h]

theorem LaneF32_CurrentSpeed_nonneg (ln : LaneF32) (scale : F32)
    (ht : ln.type_ = LaneType.Traffic) (hm : F32.le (F32.fin 0) ln.minSpeed_ = true) :
    F32.le (F32.fin 0) (ln.CurrentSpeed scale) = true := by
  unfold LaneF32.CurrentSpeed
  rw [if_neg (by rw [ht]; exact fun h => by cases h)]
  simp only [F32.clampf]
  generalize F32.min (F32.mul ln.baseSpeed_ (F32.max (F32.fin 1) scale)) ln.maxSpeed_ = m
  unfold F32.max
  split_ifs with hlt
  · rcases f32_nonneg_cases _ hm with h | ⟨q, h, hq⟩
    · rw [h] at hlt
      cases m <;> simp [F32.lt] at hlt
    · rw [h] at hlt
      cases m with
      | fin x =>
        have : q < x := by simpa [F32.lt] using hlt
        simp [F32.le]
        linarith
      | posInf => rfl
      | negInf => simp [F32.lt] at hlt
      | nan => simp [F32.lt] at hlt
  · exact hm

/-! ## The claims -/

theorem GenerateLane_type_nat (seed n : Nat) :
    (GenerateLane seed (n : Int)).type_ =
      if n % 7 = 0 ∨ n % 7 = 1 then LaneType.Safe else LaneType.Traffic := by
  have h : (n : Int).tmod 7 = (n : Int) % 7 := Int.tmod_eq_emod (by omega) (by omega)
  rw [GenerateLane_type, h]
  by_cases h7 : n % 7 = 0 ∨ n % 7 = 1
  · rw [if_pos h7, if_pos (by omega)]
  · rw [if_neg h7, if_neg (by omega)]

/-- C1: for every match seed and every non-negative world row, `GenerateLane` returns a Safe
lane exactly when the row modulo 7 is 0 or 1, and a Traffic lane otherwise; so every block of 7
rows is two Safe rows followed by five Traffic rows, and world row 0 is Safe. -/
theorem GenerateLane_block_pattern (matchSeed worldRow : Nat) :
    ((GenerateLane matchSeed (worldRow : Int)).type_ = LaneType.Safe ↔
        worldRow % 7 = 0 ∨ worldRow % 7 = 1) ∧
    ((GenerateLane matchSeed (worldRow : Int)).type_ = LaneType.Traffic ↔
        2 ≤ worldRow % 7) ∧
    (∀ k : Nat,
      (List.range 7).map (fun j => (GenerateLane matchSeed ((7 * k + j : Nat) : Int)).type_) =
        [LaneType.Safe, LaneType.Safe, LaneType.Traffic, LaneType.Traffic, LaneType.Traffic,
          LaneType.Traffic, LaneType.Traffic]) ∧
    (GenerateLane matchSeed 0).type_ = LaneType.Safe := by
  refine ⟨?_, ?_, ?_, ?_⟩
  · rw [GenerateLane_type_nat]
    split_ifs with h7
    · simp only [true_iff]; exact h7
    · simp only [false_iff, reduceCtorEq]; exact h7
  · rw [GenerateLane_type_nat]
    split_ifs with h7
    · simp only [false_iff, reduceCtorEq]; omega
    · simp only [true_iff]; omega
  · intro k
    have hr : List.range 7 = [0, 1, 2, 3, 4, 5, 6] := by decide
    rw [hr]
    simp only [List.map_cons, List.map_nil, GenerateLane_type_nat]
    have e0 : (7 * k + 0) % 7 = 0 := by omega
    have e1 : (7 * k + 1) % 7 = 1 := by omega
    have e2 : (7 * k + 2) % 7 = 2 := by omega
    have e3 : (7 * k + 3) % 7 = 3 := by omega
    have e4 : (7 * k + 4) % 7 = 4 := by omega
    have e5 : (7 * k + 5) % 7 = 5 := by omega
    have e6 : (7 * k + 6) % 7 = 6 := by omega
    rw [e0, e1, e2, e3, e4, e5, e6]
    simp
  · exact (GenerateLane_type_nat matchSeed 0).trans (by simp)

/-- C2: in every state reachable from a reset of a game with `gridH_ ≥ 1`, the window holds
exactly `gridH_` lanes, `topRowWorld_ - bottomRowWorld_ = gridH_ - 1`, and the lane at
position `i` from the top has world row `topRowWorld_ - i`. -/
theorem window_contiguous (g : Game) (hr : Reachable g) (hH : 1 ≤ g.gridH_) :
    (g.lanes_.length : Int) = g.gridH_ ∧
    g.topRowWorld_ - g.bottomRowWorld_ = g.gridH_ - 1 ∧
    ∀ (i : Nat) (hi : i < g.lanes_.length),
      g.lanes_[i].worldRowIndex_ = g.topRowWorld_ - (i : Int) := by
  have inv := WindowInv_of_reachable hr
  refine ⟨?_, inv.span, ?_⟩
  · rw [inv.len]; omega
  · intro i hi
    have h1 : (g.lanes_.map Lane.worldRowIndex_)[i]? = (rowsFrom g.topRowWorld_ g.lanes_.length)[i]? := by
      rw [inv.rows]
    have hi2 : i < (rowsFrom g.topRowWorld_ g.lanes_.length).length := by
      rw [rowsFrom_length]; exact hi
    rw [List.getElem?_map, List.getElem?_eq_getElem hi, List.getElem?_eq_getElem hi2,
      rowsFrom_getElem] at h1
    simpa using h1

/-- Witness for C2: the session of `sampleGame` after seven `Up` inputs, the last of which
scrolled the window. -/
theorem window_contiguous_witness :
    ((sampleGame.run (upCalls 7)).lanes_.length : Int) = (sampleGame.run (upCalls 7)).gridH_ ∧
    (sampleGame.run (upCalls 7)).topRowWorld_ - (sampleGame.run (upCalls 7)).bottomRowWorld_ =
      (sampleGame.run (upCalls 7)).gridH_ - 1 ∧
    ∀ (i : Nat) (hi : i < (sampleGame.run (upCalls 7)).lanes_.length),
      (sampleGame.run (upCalls 7)).lanes_[i].worldRowIndex_ =
        (sampleGame.run (upCalls 7)).topRowWorld_ - (i : Int) :=
  window_contiguous (sampleGame.run (upCalls 7))
    (reachable_run (Reachable.reset (Game.create 15 9) (fun _ => 0) [52, 50] ⟨0, 255, 0, 255⟩ 7)
      (upCalls 7))
    (by decide)

/-- C3: in a reachable state that is neither over nor suppressed, `HandleInput` shifts the
window (changes `bottomRowWorld_`, `topRowWorld_` or the lanes) exactly when the action is `Up`,
the call returns true, and the new world row `bottomRowWorld_ + (y + 1)` is a multiple of 7;
then both bounds grow by exactly 7 and the player is at grid row 1 in the same column; `Down`,
`Left` and `Right` leave the window as it is. -/
theorem scroll_iff_up_onto_block_start (g : Game) (hr : Reachable g)
    (hplay : g.gameOver_ = false) (hlock : g.inputLockOnce_ = false) (a : InputAction) :
    (((g.HandleInput a).2.bottomRowWorld_ ≠ g.bottomRowWorld_ ∨
        (g.HandleInput a).2.topRowWorld_ ≠ g.topRowWorld_ ∨
        (g.HandleInput a).2.lanes_ ≠ g.lanes_) ↔
      (a = InputAction.Up ∧ (g.HandleInput a).1 = true ∧
        7 ∣ g.bottomRowWorld_ + (g.frog_.y_ + 1))) ∧
    ((a = InputAction.Up ∧ (g.HandleInput a).1 = true ∧
        7 ∣ g.bottomRowWorld_ + (g.frog_.y_ + 1)) →
      (g.HandleInput a).2.bottomRowWorld_ = g.bottomRowWorld_ + 7 ∧
      (g.HandleInput a).2.topRowWorld_ = g.topRowWorld_ + 7 ∧
      (g.HandleInput a).2.frog_.y_ = 1 ∧
      (g.HandleInput a).2.frog_.x_ = g.frog_.x_) ∧
    (a ≠ InputAction.Up →
      (g.HandleInput a).2.bottomRowWorld_ = g.bottomRowWorld_ ∧
      (g.HandleInput a).2.topRowWorld_ = g.topRowWorld_ ∧
      (g.HandleInput a).2.lanes_ = g.lanes_) := by
  have inv := WindowInv_of_reachable hr
  have hd := dvd_block_iff g inv
  rcases HandleInput_outcome g a inv hplay hlock with
    ⟨_, h⟩ | ⟨_, hns, h⟩ | ⟨ha, hy, _, h1, hb, ht, hy1, hx, _, _⟩
  · rw [h]
    refine ⟨?_, ?_, ?_⟩
    · simp
    · rintro ⟨_, h1, _⟩; cases h1
    · intro _; exact ⟨rfl, rfl, rfl⟩
  · rw [h]
    obtain ⟨_, _, _, cl, _, ct, cb, _, _, _, _, _, _, _⟩ :=
      clampX_frame ({ g with frog_ := (g.applyAction a).1 } : Game)
    simp only at cl ct cb
    refine ⟨?_, ?_, ?_⟩
    · simp only [cb, ct, cl, ne_eq, not_true_eq_false, or_self, false_iff, not_and]
      intro ha _ h7
      exact hns ⟨ha, hd.mp h7⟩
    · rintro ⟨ha, _, h7⟩
      exact absurd ⟨ha, hd.mp h7⟩ hns
    · intro _; exact ⟨cb, ct, cl⟩
  · refine ⟨?_, ?_, ?_⟩
    · constructor
      · intro _; exact ⟨ha, h1, hd.mpr hy⟩
      · intro _; left; rw [hb]; omega
    · intro _; exact ⟨hb, ht, hy1, hx⟩
    · intro hne; exact absurd ha hne

/-- Witness for C3: the seventh `Up` of the session of `sampleGame` scrolls. -/
theorem scroll_iff_up_onto_block_start_witness :
    ((sampleGame.run (upCalls 6)).HandleInput InputAction.Up).2.bottomRowWorld_ =
        (sampleGame.run (upCalls 6)).bottomRowWorld_ + 7 ∧
      ((sampleGame.run (upCalls 6)).HandleInput InputAction.Up).2.topRowWorld_ =
        (sampleGame.run (upCalls 6)).topRowWorld_ + 7 ∧
      ((sampleGame.run (upCalls 6)).HandleInput InputAction.Up).2.frog_.y_ = 1 ∧
      ((sampleGame.run (upCalls 6)).HandleInput InputAction.Up).2.frog_.x_ =
        (sampleGame.run (upCalls 6)).frog_.x_ :=
  (scroll_iff_up_onto_block_start (sampleGame.run (upCalls 6))
    (reachable_run (Reachable.reset (Game.create 15 9) (fun _ => 0) [52, 50] ⟨0, 255, 0, 255⟩ 7)
      (upCalls 6))
    (by decide) (by decide) InputAction.Up).2.1 ⟨rfl, by decide, by decide⟩

/-- C5, as the code has it in binary32 arithmetic: for a Traffic lane the rectangles yielded are,
in slot order, those of the slots the cull test keeps, each as `(x, rowY, length, 1)`, where
`x = -length + (phase - offset)` on a `Right` lane and `x = gridW + (offset - phase)` on a `Left`
lane, every operation rounded to `float`; `phase` is `phaseInLoop`, the lane's phase reduced
into the loop, which is `phase_` itself whenever `0 ≤ phase_ < loopLenTiles_`.  When `x` is a
number the test keeps the slot exactly when `x + length > 0` and `x < gridW`; when `x` is NaN
both comparisons of the test are false and the slot is kept.  A Safe lane yields nothing. -/
theorem visibleObstacles_eq_kept_slots (ln : LaneF32) (gridW rowY : Int) :
    (ln.type_ = LaneType.Traffic →
      ln.visibleObstacles gridW rowY =
        (ln.slots_.filter (ln.keeps gridW)).map
          (fun s => (⟨ln.vehicleX gridW s, F32.ofInt rowY, F32.ofInt s.lengthTiles, F32.fin 1⟩ :
            TileRectF32))) ∧
    (∀ s : VehicleSlotF32, ln.dir_ = Direction.Right →
      ln.vehicleX gridW s =
        F32.add (F32.neg (F32.ofInt s.lengthTiles)) (F32.sub ln.phaseInLoop s.offset)) ∧
    (∀ s : VehicleSlotF32, ln.dir_ = Direction.Left →
      ln.vehicleX gridW s = F32.add (F32.ofInt gridW) (F32.sub s.offset ln.phaseInLoop)) ∧
    (∀ s : VehicleSlotF32, ln.vehicleX gridW s ≠ F32.nan →
      -2 ^ 31 ≤ s.lengthTiles → s.lengthTiles < 2 ^ 31 →
      (ln.keeps gridW s = true ↔
        F32.lt (F32.fin 0) (F32.add (ln.vehicleX gridW s) (F32.ofInt s.lengthTiles)) = true ∧
        F32.lt (ln.vehicleX gridW s) (F32.ofInt gridW) = true)) ∧
    (∀ s : VehicleSlotF32, ln.vehicleX gridW s = F32.nan → ln.keeps gridW s = true) ∧
    (F32.le (F32.fin 0) ln.phase_ = true → F32.lt ln.phase_ ln.loopLenTiles_ = true →
      ln.phaseInLoop = ln.phase_) ∧
    (ln.type_ = LaneType.Safe → ln.visibleObstacles gridW rowY = []) := by
  refine ⟨?_, ?_, ?_, fun s => (LaneF32_keeps_iff ln gridW s).1,
    fun s => (LaneF32_keeps_iff ln gridW s).2, LaneF32_phaseInLoop_of_lt ln,
    LaneF32_visibleObstacles_safe ln gridW rowY⟩
  · intro ht
    have h := visitSlotF32_collect ln gridW rowY ln.slots_ []
    unfold LaneF32.visibleObstacles LaneF32.ForEachVisibleVehicle
    rw [if_neg (by rw [ht]; exact fun h => by cases h), h]
    rfl
  · intro s hd
    simp only [LaneF32.vehicleX, hd, if_true]
  · intro s hd
    simp only [LaneF32.vehicleX, hd, reduceCtorEq, if_false]

/-- Witness for C5: the lane `forwardLane` four seconds after its construction has the phase 8
and shows the vehicles at `x = 6` and `x = 1`, the two slots the test keeps; for its first
slot, whose `x` is 6, the test is the pair of comparisons `x + 2 > 0` and `x < 15`. -/
theorem visibleObstacles_eq_kept_slots_witness :
    (forwardLane.Update (F32.fin 4) (F32.fin 1)).visibleObstacles 15 3 =
        [⟨F32.fin 6, F32.fin 3, F32.fin 2, F32.fin 1⟩,
          ⟨F32.fin 1, F32.fin 3, F32.fin 2, F32.fin 1⟩] ∧
      (forwardLane.Update (F32.fin 4) (F32.fin 1)).visibleObstacles 15 3 =
        ((forwardLane.Update (F32.fin 4) (F32.fin 1)).slots_.filter
          ((forwardLane.Update (F32.fin 4) (F32.fin 1)).keeps 15)).map
          (fun s => (⟨(forwardLane.Update (F32.fin 4) (F32.fin 1)).vehicleX 15 s, F32.ofInt 3,
            F32.ofInt s.lengthTiles, F32.fin 1⟩ : TileRectF32)) ∧
      ((forwardLane.Update (F32.fin 4) (F32.fin 1)).keeps 15 ⟨2, 3, F32.fin 0⟩ = true ↔
        F32.lt (F32.fin 0)
            (F32.add ((forwardLane.Update (F32.fin 4) (F32.fin 1)).vehicleX 15 ⟨2, 3, F32.fin 0⟩)
              (F32.ofInt 2)) = true ∧
          F32.lt ((forwardLane.Update (F32.fin 4) (F32.fin 1)).vehicleX 15 ⟨2, 3, F32.fin 0⟩)
            (F32.ofInt 15) = true) :=
  ⟨by decide!,
    (visibleObstacles_eq_kept_slots (forwardLane.Update (F32.fin 4) (F32.fin 1)) 15 3).1
      (by decide!),
    (visibleObstacles_eq_kept_slots (forwardLane.Update (F32.fin 4) (F32.fin 1)) 15 3).2.2.2.1
      ⟨2, 3, F32.fin 0⟩ (by decide!) (by decide) (by decide)⟩

/-- C5 as stated fails on the code: `overflowedLane` is a Traffic lane whose phase is NaN, so
the left edge `x` of each of its five slots is NaN; no slot has `x + length > 0` and
`x < gridW`, and yet all five rectangles are yielded. -/
theorem nan_phase_yields_every_slot :
    forwardLane.minSpeed_.isBinary32 = true ∧ forwardLane.maxSpeed_.isBinary32 = true ∧
    forwardLane.baseSpeed_.isBinary32 = true ∧ (F32.fin (2 ^ 127)).isBinary32 = true ∧
    overflowedLane.type_ = LaneType.Traffic ∧
    overflowedLane.phase_ = F32.nan ∧
    overflowedLane.slots_.filter (fun s =>
      F32.lt (F32.fin 0) (F32.add (overflowedLane.vehicleX 15 s) (F32.ofInt s.lengthTiles)) &&
        F32.lt (overflowedLane.vehicleX 15 s) (F32.ofInt 15)) = [] ∧
    (overflowedLane.visibleObstacles 15 3).length = 5 ∧
    (overflowedLane.visibleObstacles 15 3).map (fun r => r.x) =
      [F32.nan, F32.nan, F32.nan, F32.nan, F32.nan] := by
  decide!

/-- C6: in every reachable state and for every action, `HandleInput` returns true exactly when
the player's grid position after the call differs from the position before it; this covers the
scroll relocation and the calls rejected because the game is over or input is suppressed. -/
theorem HandleInput_true_iff_position_changed (g : Game) (hr : Reachable g) (a : InputAction) :
    (g.HandleInput a).1 = true ↔ (g.HandleInput a).2.position ≠ g.position := by
  have inv := WindowInv_of_reachable hr
  by_cases hblock : g.gameOver_ = true ∨ g.inputLockOnce_ = true
  · rw [HandleInput_blocked g a hblock]; simp
  have hover : g.gameOver_ = false := by
    cases h : g.gameOver_ <;> simp_all
  have hlock : g.inputLockOnce_ = false := by
    cases h : g.inputLockOnce_ <;> simp_all
  rcases HandleInput_outcome g a inv hover hlock with
    ⟨_, h⟩ | ⟨hm, hns, h⟩ | ⟨ha, hy, _, h1, hb, ht, hy1, hx, _, _⟩
  · rw [h]; simp
  · rw [h]
    simp only [true_iff, Game.position, ne_eq, Prod.mk.injEq, not_and]
    obtain ⟨cW, _, _, _, _, _, _, _, _, _, _, _, cy, _⟩ :=
      clampX_frame ({ g with frog_ := (g.applyAction a).1 } : Game)
    have cx := clampX_x ({ g with frog_ := (g.applyAction a).1 } : Game)
    simp only at cW cy cx
    rw [cy, cx]
    rcases applyAction_frog g a hm with ⟨_, h, hf⟩ | ⟨_, h, hf⟩ | ⟨_, h, hf⟩ | ⟨_, h, hf⟩
    · rw [hf]; simp only [Frog.MoveUp]; intro _; omega
    · rw [hf]; simp only; intro _; omega
    · rw [hf]; simp only [Frog.MoveLeft]; intro hx; exfalso; split_ifs at hx <;> omega
    · rw [hf]; simp only [Frog.MoveRight]; intro hx; exfalso; split_ifs at hx <;> omega
  · simp only [h1, true_iff, Game.position, ne_eq, Prod.mk.injEq, not_and]
    intro _
    rw [hy1, hy]
    omega

/-- Witness for C6: the scrolling seventh `Up` of the session of `sampleGame`. -/
theorem HandleInput_true_iff_position_changed_witness :
    ((sampleGame.run (upCalls 6)).HandleInput InputAction.Up).1 = true ↔
      ((sampleGame.run (upCalls 6)).HandleInput InputAction.Up).2.position ≠
        (sampleGame.run (upCalls 6)).position :=
  HandleInput_true_iff_position_changed (sampleGame.run (upCalls 6))
    (reachable_run (Reachable.reset (Game.create 15 9) (fun _ => 0) [52, 50] ⟨0, 255, 0, 255⟩ 7)
      (upCalls 6))
    InputAction.Up

/-- C7: at `x = 0` `Left` returns false, at `x = gridW_ - 1` `Right` returns false, at `y = 0`
`Down` returns false and at `y = gridH_ - 1` `Up` returns false, each leaving the whole state
unchanged.  This holds in every state, in particular in every reachable one that is neither over
nor suppressed. -/
theorem boundary_moves_rejected (g : Game) :
    (g.frog_.x_ = 0 → g.HandleInput InputAction.Left = (false, g)) ∧
    (g.frog_.x_ = g.gridW_ - 1 → g.HandleInput InputAction.Right = (false, g)) ∧
    (g.frog_.y_ = 0 → g.HandleInput InputAction.Down = (false, g)) ∧
    (g.frog_.y_ = g.gridH_ - 1 → g.HandleInput InputAction.Up = (false, g)) := by
  refine ⟨?_, ?_, ?_, ?_⟩ <;> intro h <;> apply HandleInput_not_moved <;>
    simp [Game.applyAction, h]

/-- Witness for C7: on the one-by-one grid of `cornerGame`, a running state without
suppression, all four moves are rejected. -/
theorem boundary_moves_rejected_witness :
    cornerGame.gameOver_ = false ∧ cornerGame.inputLockOnce_ = false ∧
    cornerGame.HandleInput InputAction.Left = (false, cornerGame) ∧
    cornerGame.HandleInput InputAction.Right = (false, cornerGame) ∧
    cornerGame.HandleInput InputAction.Down = (false, cornerGame) ∧
    cornerGame.HandleInput InputAction.Up = (false, cornerGame) :=
  ⟨by decide, by decide,
    (boundary_moves_rejected cornerGame).1 (by decide),
    (boundary_moves_rejected cornerGame).2.1 (by decide),
    (boundary_moves_rejected cornerGame).2.2.1 (by decide),
    (boundary_moves_rejected cornerGame).2.2.2 (by decide)⟩

/-- Counterexample for C8: in the session of `sampleGame` the seventh `Up` scrolls.  With no
tick in between, the first following call is rejected and so is the second one, an `Up` from grid
row 1 of 9 in a running game, which leaves the position as it was.  With one tick in between, the
first following call is not rejected: it moves the player. -/
theorem suppression_not_one_shot :
    ((sampleGame.run (upCalls 6)).HandleInput InputAction.Up).1 = true ∧
    ((sampleGame.run (upCalls 6)).HandleInput InputAction.Up).2.bottomRowWorld_ =
      (sampleGame.run (upCalls 6)).bottomRowWorld_ + 7 ∧
    (sampleGame.run (upCalls 7)).gameOver_ = false ∧
    (sampleGame.run (upCalls 7)).frog_.y_ + 1 < (sampleGame.run (upCalls 7)).gridH_ ∧
    ((sampleGame.run (upCalls 7)).HandleInput InputAction.Left).1 = false ∧
    (((sampleGame.run (upCalls 7)).HandleInput InputAction.Left).2.HandleInput
      InputAction.Up).1 = false ∧
    (((sampleGame.run (upCalls 7)).HandleInput InputAction.Left).2.HandleInput
      InputAction.Up).2.position = (sampleGame.run (upCalls 7)).position ∧
    ((sampleGame.run (upCalls 7)).Update (1 / 60)).gameOver_ = false ∧
    (((sampleGame.run (upCalls 7)).Update (1 / 60)).HandleInput InputAction.Up).1 = true ∧
    (((sampleGame.run (upCalls 7)).Update (1 / 60)).HandleInput InputAction.Up).2.position ≠
      (sampleGame.run (upCalls 7)).position := by
  decide!

/-- C8, amended: after a `HandleInput` call that shifts the window, every `HandleInput` call
made before the next tick returns false and changes nothing, however many there are; the next
`Update` clears the suppression flag, and if that tick does not end the game the following
`HandleInput` returns true exactly when its move stays inside the grid. -/
theorem suppression_until_next_tick (g : Game) (a : InputAction)
    (hscroll : (g.HandleInput a).2.bottomRowWorld_ ≠ g.bottomRowWorld_) :
    (∀ b : InputAction, (g.HandleInput a).2.HandleInput b = (false, (g.HandleInput a).2)) ∧
    (∀ inputs : List InputAction,
      (g.HandleInput a).2.run (inputs.map Call.input) = (g.HandleInput a).2) ∧
    (∀ dt : ℚ, ((g.HandleInput a).2.Update dt).inputLockOnce_ = false) ∧
    (∀ (dt : ℚ) (b : InputAction), ((g.HandleInput a).2.Update dt).gameOver_ = false →
      ((((g.HandleInput a).2.Update dt).HandleInput b).1 = true ↔
        (b = InputAction.Up ∧ ((g.HandleInput a).2.Update dt).frog_.y_ <
            ((g.HandleInput a).2.Update dt).gridH_ - 1) ∨
        (b = InputAction.Down ∧ ((g.HandleInput a).2.Update dt).frog_.y_ > 0) ∨
        (b = InputAction.Left ∧ ((g.HandleInput a).2.Update dt).frog_.x_ > 0) ∨
        (b = InputAction.Right ∧ ((g.HandleInput a).2.Update dt).frog_.x_ <
            ((g.HandleInput a).2.Update dt).gridW_ - 1))) := by
  obtain ⟨hk, ho⟩ := lock_of_bottom_changed g a hscroll
  refine ⟨?_, ?_, ?_, ?_⟩
  · intro b; exact HandleInput_blocked _ b (Or.inr hk)
  · intro inputs; exact run_inputs_blocked _ (Or.inr hk) inputs
  · intro dt; exact Update_lock _ dt ho
  · intro dt b hover
    rw [HandleInput_result_of_playing _ b hover (Update_lock _ dt ho)]
    exact applyAction_moved_iff _ b

/-- Witness for the amended C8: the scrolling seventh `Up` of the session of `sampleGame`. -/
theorem suppression_until_next_tick_witness :
    (∀ inputs : List InputAction,
      ((sampleGame.run (upCalls 6)).HandleInput InputAction.Up).2.run (inputs.map Call.input) =
        ((sampleGame.run (upCalls 6)).HandleInput InputAction.Up).2) ∧
    (∀ dt : ℚ,
      (((sampleGame.run (upCalls 6)).HandleInput InputAction.Up).2.Update dt).inputLockOnce_ =
        false) :=
  ⟨(suppression_until_next_tick (sampleGame.run (upCalls 6)) InputAction.Up (by decide)).2.1,
    (suppression_until_next_tick (sampleGame.run (upCalls 6)) InputAction.Up (by decide)).2.2.1⟩

/-- C9: once `gameOver_` is true every `HandleInput` call returns false, and every
`HandleInput` and `Update` call, hence every sequence of calls, leaves the whole state
unchanged: only a reset leaves the state. -/
theorem gameOver_terminal (g : Game) (h : g.gameOver_ = true) :
    (∀ a : InputAction, g.HandleInput a = (false, g)) ∧
    (∀ dt : ℚ, g.Update dt = g) ∧
    (∀ calls : List Call, g.run calls = g) := by
  have hstep : ∀ c : Call, g.step c = g := by
    intro c
    cases c with
    | tick dt => exact Update_of_gameOver g dt h
    | input a => show (g.HandleInput a).2 = g; rw [HandleInput_blocked g a (Or.inl h)]
  refine ⟨fun a => HandleInput_blocked g a (Or.inl h), fun dt => Update_of_gameOver g dt h, ?_⟩
  intro calls
  induction calls with
  | nil => rfl
  | cons c rest ih =>
    show (g.step c).run rest = g
    rw [hstep c]; exact ih

/-- Witness for C9: in the session of `sampleGame`, two `Up` inputs and a tick of four seconds
end the game on world row 2. -/
theorem gameOver_terminal_witness :
    (∀ a : InputAction, crashedGame.HandleInput a = (false, crashedGame)) ∧
    (∀ dt : ℚ, crashedGame.Update dt = crashedGame) ∧
    (∀ calls : List Call, crashedGame.run calls = crashedGame) :=
  gameOver_terminal crashedGame (by decide!)

/-- C10: `SeedToU64` starts from `1469598103934665603`, the FNV-1a offset basis
`14695981039346656037` without its last digit, so on the empty string, on the canonical seed
"4242424242" and on every other byte string its value differs from the FNV-1a 64-bit fold the
specification describes. -/
theorem SeedToU64_ne_fnv1a64Spec :
    SeedToU64 [] = 1469598103934665603 ∧
    fnv1a64Spec [] = 14695981039346656037 ∧
    SeedToU64 [52, 50, 52, 50, 52, 50, 52, 50, 52, 50] = 7454281547471370725 ∧
    fnv1a64Spec [52, 50, 52, 50, 52, 50, 52, 50, 52, 50] = 12463331892937108195 ∧
    ∀ b : List Nat, SeedToU64 b ≠ fnv1a64Spec b := by
  refine ⟨by decide, by decide, by decide, by decide, ?_⟩
  intro b
  exact fnvFold_ne b _ _ (by decide) (by decide) (by decide)

/-- C11: for every non-empty string `s`, `NormalizeSeed10` returns exactly 10 units, the
`i`-th being `s[i mod len(s)]`: the first 10 units of `s` when it has at least 10, otherwise `s`
repeated end-to-end and cut to 10.  The append loop ends within its ten iterations. -/
theorem NormalizeSeed10_repeats (rnd : Nat → Nat) (s : List Nat) (hs : s ≠ []) :
    (NormalizeSeed10 rnd s).length = 10 ∧
    (∀ i : Nat, i < 10 → (NormalizeSeed10 rnd s)[i]? = s[i % s.length]?) ∧
    (10 ≤ s.length → NormalizeSeed10 rnd s = s.take 10) := by
  have hne : s.isEmpty = false := by cases s with
    | nil => exact absurd rfl hs
    | cons _ _ => rfl
  unfold NormalizeSeed10
  simp only [hne, Bool.false_eq_true, if_false]
  split_ifs with hlen
  · refine ⟨?_, ?_, fun _ => rfl⟩
    · rw [List.length_take]; omega
    · intro i hi
      rw [List.getElem?_take_of_lt hi, Nat.mod_eq_of_lt (by omega)]
  · obtain ⟨hrep, hlen10⟩ := normalizeLoop_spec 10 s [] hs (RepeatsOf_nil s) (by simp)
    refine ⟨?_, ?_, fun h => absurd h hlen⟩
    · rw [List.length_take]; omega
    · intro i hi
      rw [List.getElem?_take_of_lt hi]
      exact hrep.2 i (by omega)

/-- Witness for C11: "abc" gives "abcabcabca" and "42" gives "4242424242". -/
theorem NormalizeSeed10_repeats_witness :
    NormalizeSeed10 (fun _ => 0) [97, 98, 99] = [97, 98, 99, 97, 98, 99, 97, 98, 99, 97] ∧
    NormalizeSeed10 (fun _ => 0) [52, 50] = [52, 50, 52, 50, 52, 50, 52, 50, 52, 50] ∧
    (NormalizeSeed10 (fun _ => 0) [97, 98, 99]).length = 10 :=
  ⟨by decide, by decide, (NormalizeSeed10_repeats (fun _ => 0) [97, 98, 99] (by decide)).1⟩

/-- C12: immediately after `ResetWithSeed` with a non-empty seed, whatever the state before:
the player is at `(startX, 0)` with score 0, `bottomRowWorld_ = 0`, `topRowWorld_ = gridH_ - 1`,
the scroll counter is 0, the game is not over, the stored seed is the normalised input (the
random device plays no part), `matchSeed_` is `SeedToU64` of it, and the window holds, from the
bottom up, the lanes `GenerateLane matchSeed_ r` for `r = 0 .. gridH_ - 1`, each with phase 0. -/
theorem ResetWithSeed_state (g0 : Game) (rnd : Nat → Nat) (userSeed10 : List Nat)
    (frogColor : SDL_Color) (startX : Int) (hs : userSeed10 ≠ []) :
    (g0.ResetWithSeed rnd userSeed10 frogColor startX).position = (startX, 0) ∧
    (g0.ResetWithSeed rnd userSeed10 frogColor startX).frog_.score_ = 0 ∧
    (g0.ResetWithSeed rnd userSeed10 frogColor startX).bottomRowWorld_ = 0 ∧
    (g0.ResetWithSeed rnd userSeed10 frogColor startX).topRowWorld_ = g0.gridH_ - 1 ∧
    (g0.ResetWithSeed rnd userSeed10 frogColor startX).lanesAdvanced_ = 0 ∧
    (g0.ResetWithSeed rnd userSeed10 frogColor startX).gameOver_ = false ∧
    (∀ rnd2 : Nat → Nat,
      (g0.ResetWithSeed rnd userSeed10 frogColor startX).normSeed10_ =
        NormalizeSeed10 rnd2 userSeed10) ∧
    (g0.ResetWithSeed rnd userSeed10 frogColor startX).matchSeed_ =
      SeedToU64 (g0.ResetWithSeed rnd userSeed10 frogColor startX).normSeed10_ ∧
    (g0.ResetWithSeed rnd userSeed10 frogColor startX).lanes_.reverse =
      (List.range g0.gridH_.toNat).map (fun r : Nat =>
        GenerateLane (g0.ResetWithSeed rnd userSeed10 frogColor startX).matchSeed_ (r : Int)) ∧
    (∀ ln ∈ (g0.ResetWithSeed rnd userSeed10 frogColor startX).lanes_, ln.phase_ = 0) := by
  have hl : (g0.ResetWithSeed rnd userSeed10 frogColor startX).lanes_ =
      ((List.range g0.gridH_.toNat).map (fun r : Nat =>
        GenerateLane (SeedToU64 (NormalizeSeed10 rnd userSeed10)) (r : Int))).reverse := by
    show resetLanesLoop _ _ 0 [] = _
    rw [resetLanesLoop_eq, List.append_nil]
    congr 1
    apply List.map_congr_left
    intro r _
    rw [zero_add]
  refine ⟨rfl, rfl, rfl, rfl, rfl, rfl, ?_, rfl, ?_, ?_⟩
  · intro rnd2
    exact NormalizeSeed10_of_nonempty rnd rnd2 userSeed10 hs
  · rw [hl, List.reverse_reverse]; rfl
  · intro ln hln
    rw [hl, List.mem_reverse, List.mem_map] at hln
    obtain ⟨r, _, rfl⟩ := hln
    exact GenerateLane_phase _ _

/-- Witness for C12: the reset that starts the session of `sampleGame`. -/
theorem ResetWithSeed_state_witness :
    sampleGame.position = (7, 0) ∧ sampleGame.frog_.score_ = 0 ∧
    sampleGame.bottomRowWorld_ = 0 ∧ sampleGame.topRowWorld_ = 8 ∧
    sampleGame.normSeed10_ = [52, 50, 52, 50, 52, 50, 52, 50, 52, 50] ∧
    sampleGame.matchSeed_ = 7454281547471370725 ∧
    sampleGame.lanes_.map Lane.worldRowIndex_ = [8, 7, 6, 5, 4, 3, 2, 1, 0] ∧
    (∀ ln ∈ sampleGame.lanes_, ln.phase_ = 0) :=
  ⟨by decide, by decide, by decide, by decide, by decide, by decide, by decide!,
    (ResetWithSeed_state (Game.create 15 9) (fun _ => 0) [52, 50] ⟨0, 255, 0, 255⟩ 7
      (by decide)).2.2.2.2.2.2.2.2.2⟩

/-- The slots of a generated lane: five, with lengths 1 to 3 and gaps 2 to 5. -/
theorem GenerateLane_slots_bounds (seed : Nat) (wr : Int) :
    (GenerateLane seed wr).slots_.length = 5 ∧
    ∀ s ∈ (GenerateLane seed wr).slots_,
      (s.lengthTiles = 1 ∨ s.lengthTiles = 2 ∨ s.lengthTiles = 3) ∧
      2 ≤ s.gapTiles ∧ s.gapTiles ≤ 5 := by
  have key : ∀ (slots : List VehicleSlot) (acc : ℚ), slots.length = 5 →
      (∀ s ∈ slots, (s.lengthTiles = 1 ∨ s.lengthTiles = 2 ∨ s.lengthTiles = 3) ∧
        2 ≤ s.gapTiles ∧ s.gapTiles ≤ 5) →
      (offsetsLoop slots acc).1.length = 5 ∧
      ∀ s ∈ (offsetsLoop slots acc).1,
        (s.lengthTiles = 1 ∨ s.lengthTiles = 2 ∨ s.lengthTiles = 3) ∧
        2 ≤ s.gapTiles ∧ s.gapTiles ≤ 5 := by
    intro slots acc hlen hb
    have hm := offsetsLoop_lengths_gaps slots acc
    constructor
    · have := congrArg List.length hm
      simpa [hlen] using this
    · intro s hs
      have hin : (s.lengthTiles, s.gapTiles) ∈
          (offsetsLoop slots acc).1.map (fun s => (s.lengthTiles, s.gapTiles)) :=
        List.mem_map.mpr ⟨s, hs, rfl⟩
      rw [hm, List.mem_map] at hin
      obtain ⟨t, ht, hteq⟩ := hin
      have e1 : t.lengthTiles = s.lengthTiles := congrArg Prod.fst hteq
      have e2 : t.gapTiles = s.gapTiles := congrArg Prod.snd hteq
      rw [← e1, ← e2]
      exact hb t ht
  unfold GenerateLane
  by_cases h : wr.tmod 7 = 0 ∨ wr.tmod 7 = 1
  · simp only [h, if_true]
    apply key _ _ (by rfl)
    intro s hs
    rw [List.mem_replicate] at hs
    rw [hs.2]
    exact ⟨Or.inl rfl, by decide, by decide⟩
  · simp only [h, if_false]
    apply key
    · show (List.zipWith _ _ _).length = 5
      rw [List.length_zipWith, (vehicleLoop_spec 5 _).1, (vehicleLoop_spec 5 _).2.1]; rfl
    · intro s hs
      change s ∈ List.zipWith _ _ _ at hs
      rw [List.mem_iff_getElem] at hs
      obtain ⟨i, hi, rfl⟩ := hs
      rw [List.getElem_zipWith]
      exact ⟨(vehicleLoop_spec 5 _).2.2.1 _ (List.getElem_mem _),
        (vehicleLoop_spec 5 _).2.2.2 _ (List.getElem_mem _)⟩


/-- C13: every lane `GenerateLane` returns, the Traffic ones in particular, has exactly 5 slots,
each with `lengthTiles` in {1, 2, 3} and `gapTiles` in [2, 5], whatever 64-bit values the
generator draws. -/
theorem GenerateLane_slots (seed : Nat) (wr : Int) :
    (GenerateLane seed wr).slots_.length = 5 ∧
    ∀ s ∈ (GenerateLane seed wr).slots_,
      (s.lengthTiles = 1 ∨ s.lengthTiles = 2 ∨ s.lengthTiles = 3) ∧
      2 ≤ s.gapTiles ∧ s.gapTiles ≤ 5 :=
  GenerateLane_slots_bounds seed wr

/-- C14: for every Traffic lane `GenerateLane` returns,
`1.5 ≤ minSpeed_ ≤ baseSpeed_ ≤ maxSpeed_ ≤ 4.5`. -/
theorem GenerateLane_speed_bounds (seed : Nat) (wr : Int)
    (h : (GenerateLane seed wr).type_ = LaneType.Traffic) :
    3 / 2 ≤ (GenerateLane seed wr).minSpeed_ ∧
    (GenerateLane seed wr).minSpeed_ ≤ (GenerateLane seed wr).baseSpeed_ ∧
    (GenerateLane seed wr).baseSpeed_ ≤ (GenerateLane seed wr).maxSpeed_ ∧
    (GenerateLane seed wr).maxSpeed_ ≤ 9 / 2 := by
  have hmod : ¬ (wr.tmod 7 = 0 ∨ wr.tmod 7 = 1) := by
    intro hm
    rw [GenerateLane_type, if_pos hm] at h
    cases h
  unfold GenerateLane
  simp only [hmod, if_false]
  show 3 / 2 ≤ (nextF _ (3 / 2) 3).1 ∧ (nextF _ (3 / 2) 3).1 ≤ (nextF _ _ _).1 ∧
    (nextF _ _ _).1 ≤ min (9 / 2) _ ∧ min (9 / 2) _ ≤ 9 / 2
  generalize (seed ^^^ 15485907386658061715 * toU64 wr % 2 ^ 64) = sm
  obtain ⟨m1, m2⟩ := nextF_bounds sm (3 / 2) 3 (by norm_num)
  obtain ⟨d1, d2⟩ := nextF_bounds (nextF sm (3 / 2) 3).2 (1 / 2) 2 (by norm_num)
  have hle : (nextF sm (3 / 2) 3).1 ≤
      min (9 / 2) ((nextF sm (3 / 2) 3).1 + (nextF (nextF sm (3 / 2) 3).2 (1 / 2) 2).1) := by
    apply le_min <;> linarith
  obtain ⟨b1, b2⟩ := nextF_bounds (nextF (nextF sm (3 / 2) 3).2 (1 / 2) 2).2 _ _ hle
  exact ⟨m1, b1, b2, min_le_left _ _⟩

/-- Witness for C14: world row 3 of the seed "4242424242" is a Traffic lane. -/
theorem GenerateLane_speed_bounds_witness :
    3 / 2 ≤ (GenerateLane 7454281547471370725 3).minSpeed_ ∧
    (GenerateLane 7454281547471370725 3).minSpeed_ ≤
      (GenerateLane 7454281547471370725 3).baseSpeed_ ∧
    (GenerateLane 7454281547471370725 3).baseSpeed_ ≤
      (GenerateLane 7454281547471370725 3).maxSpeed_ ∧
    (GenerateLane 7454281547471370725 3).maxSpeed_ ≤ 9 / 2 :=
  GenerateLane_speed_bounds 7454281547471370725 3 (by decide)

/-- C15: for every lane `GenerateLane` returns, `loopLenTiles_` is the sum of
`lengthTiles + gapTiles` over its slots (at least 15, so the zero-length guard never replaces
it), and the offset of slot `i` is that sum over the slots before it. -/
theorem GenerateLane_loop_and_offsets (seed : Nat) (wr : Int) :
    (GenerateLane seed wr).loopLenTiles_ = ((GenerateLane seed wr).slots_.map slotSpan).sum ∧
    15 ≤ ((GenerateLane seed wr).slots_.map slotSpan).sum ∧
    (∀ (i : Nat) (s : VehicleSlot), (GenerateLane seed wr).slots_[i]? = some s →
      s.offset = (((GenerateLane seed wr).slots_.take i).map slotSpan).sum) ∧
    (∀ s : VehicleSlot, slotSpan s = ((s.lengthTiles : ℚ) + (s.gapTiles : ℚ))) := by
  obtain ⟨hlen, hb⟩ := GenerateLane_slots_bounds seed wr
  have hlow := span_sum_lower (GenerateLane seed wr).slots_
    (fun s hs => ⟨by rcases (hb s hs).1 with h | h | h <;> omega, (hb s hs).2.1⟩)
  rw [hlen] at hlow
  obtain ⟨ln0, hln⟩ := GenerateLane_built seed wr
  rw [hln] at hlow ⊢
  have hspan : ln0.buildPatternOffsets_.slots_.map slotSpan = ln0.slots_.map slotSpan :=
    offsetsLoop_span ln0.slots_ 0
  have htot := offsetsLoop_total ln0.slots_ 0
  rw [zero_add] at htot
  refine ⟨?_, by norm_num at hlow; linarith, ?_, ?_⟩
  · show (if (offsetsLoop ln0.slots_ 0).2 ≤ 0 then (1 : ℚ) else (offsetsLoop ln0.slots_ 0).2) = _
    rw [hspan, htot, if_neg]
    rw [hspan] at hlow
    norm_num at hlow
    linarith
  · intro i s hs
    have h := offsetsLoop_offset ln0.slots_ 0 i s hs
    rw [zero_add] at h
    rw [h, List.map_take, List.map_take, hspan]
  · intro s
    unfold slotSpan
    push_cast
    rfl

/-- C16, as the code has it in binary32 arithmetic, for a Traffic lane whose phase lies in
`[0, loopLenTiles_)`.  When the effective speed and `dt` are non-negative and
`phase_ + eff * dt` is finite, the phase after `Lane::Update` lies in `[0, loopLenTiles_)`
again; the effective speed is non-negative whenever the lane's minimum speed is.  For any
speed and any `dt` with `phase_ + eff * dt` finite the new phase lies in the closed interval
`[0, loopLenTiles_]`.  When `phase_ + eff * dt` is an infinity or NaN the new phase is NaN.
The loop length never changes and a Safe lane is left as it is. -/
theorem Update_phase_in_loop_binary32 (ln : LaneF32) (dt scale : F32) :
    (ln.type_ = LaneType.Traffic → F32.le (F32.fin 0) ln.phase_ = true →
      F32.lt ln.phase_ ln.loopLenTiles_ = true →
      F32.le (F32.fin 0) (ln.CurrentSpeed scale) = true → F32.le (F32.fin 0) dt = true →
      (F32.add ln.phase_ (F32.mul (ln.CurrentSpeed scale) dt)).isFinite = true →
        F32.le (F32.fin 0) (ln.Update dt scale).phase_ = true ∧
        F32.lt (ln.Update dt scale).phase_ (ln.Update dt scale).loopLenTiles_ = true) ∧
    (ln.type_ = LaneType.Traffic → F32.le (F32.fin 0) ln.minSpeed_ = true →
      F32.le (F32.fin 0) (ln.CurrentSpeed scale) = true) ∧
    (ln.type_ = LaneType.Traffic → F32.le (F32.fin 0) ln.phase_ = true →
      F32.lt ln.phase_ ln.loopLenTiles_ = true → ln.loopLenTiles_.isBinary32 = true →
      (F32.add ln.phase_ (F32.mul (ln.CurrentSpeed scale) dt)).isFinite = true →
        F32.le (F32.fin 0) (ln.Update dt scale).phase_ = true ∧
        F32.le (ln.Update dt scale).phase_ (ln.Update dt scale).loopLenTiles_ = true) ∧
    (ln.type_ = LaneType.Traffic →
      (F32.add ln.phase_ (F32.mul (ln.CurrentSpeed scale) dt)).isFinite = false →
        (ln.Update dt scale).phase_ = F32.nan) ∧
    (ln.Update dt scale).loopLenTiles_ = ln.loopLenTiles_ ∧
    (ln.type_ = LaneType.Safe → ln.Update dt scale = ln) := by
  refine ⟨?_, LaneF32_CurrentSpeed_nonneg ln scale, ?_, LaneF32_Update_phase_nan ln dt scale,
    LaneF32_Update_loopLen ln dt scale, ?_⟩
  · intro ht h0 h1 he hd hf
    rw [LaneF32_Update_loopLen]
    exact LaneF32_Update_phase_range ln dt scale ht h0 h1 he hd hf
  · intro ht h0 h1 hrep hf
    rw [LaneF32_Update_loopLen]
    exact LaneF32_Update_phase_closed ln dt scale ht h0 h1 hrep hf
  · intro hs
    unfold LaneF32.Update
    rw [if_pos hs]

/-- Witness for C16: the lane `forwardLane` advanced by a frame of a sixtieth of a second, the
`float` nearest to 1/60 being 8947849 / 2 ^ 29, stays in `[0, 25)`; `backwardLane` advanced by
`2 ^ (-30)` seconds stays in `[0, 25]`; `forwardLane` advanced by `2 ^ 127` seconds, where the
sum is infinite, has the phase NaN. -/
theorem Update_phase_in_loop_binary32_witness :
    (F32.fin (8947849 / 2 ^ 29)).isBinary32 = true ∧
    (F32.le (F32.fin 0) (forwardLane.Update (F32.fin (8947849 / 2 ^ 29)) (F32.fin 1)).phase_ =
        true ∧
      F32.lt (forwardLane.Update (F32.fin (8947849 / 2 ^ 29)) (F32.fin 1)).phase_
        (forwardLane.Update (F32.fin (8947849 / 2 ^ 29)) (F32.fin 1)).loopLenTiles_ = true) ∧
    (F32.le (F32.fin 0) (backwardLane.Update (F32.fin (1 / 2 ^ 30)) (F32.fin 1)).phase_ = true ∧
      F32.le (backwardLane.Update (F32.fin (1 / 2 ^ 30)) (F32.fin 1)).phase_
        (backwardLane.Update (F32.fin (1 / 2 ^ 30)) (F32.fin 1)).loopLenTiles_ = true) ∧
    (forwardLane.Update (F32.fin (2 ^ 127)) (F32.fin 1)).phase_ = F32.nan :=
  ⟨by decide!,
    (Update_phase_in_loop_binary32 forwardLane (F32.fin (8947849 / 2 ^ 29)) (F32.fin 1)).1
      (by decide!) (by decide!) (by decide!) (by decide!) (by decide!) (by decide!),
    (Update_phase_in_loop_binary32 backwardLane (F32.fin (1 / 2 ^ 30)) (F32.fin 1)).2.2.1
      (by decide!) (by decide!) (by decide!) (by decide!) (by decide!),
    (Update_phase_in_loop_binary32 forwardLane (F32.fin (2 ^ 127)) (F32.fin 1)).2.2.2.1
      (by decide!) (by decide!)⟩

/-- C16 as stated fails on the code, in two ways.  On `forwardLane`, whose phase is 0, the call
`Update(0x1p127f, 1.0f)` multiplies the speed 2 by `2 ^ 127`: the product is the positive
infinity, `std::fmod` of it is NaN, and the new phase is NaN, which is not `≥ 0`.  On
`backwardLane`, whose effective speed is -1.5, the call `Update(0x1p-30f, 1.0f)` leaves the
remainder `-1.5 * 2 ^ (-30)`, and adding the loop length 25 rounds to 25: the new phase equals
the loop length. -/
theorem Update_phase_leaves_loop :
    (forwardLane.type_ = LaneType.Traffic ∧
      F32.le (F32.fin 0) forwardLane.phase_ = true ∧
      F32.lt forwardLane.phase_ forwardLane.loopLenTiles_ = true ∧
      (F32.fin (2 ^ 127)).isBinary32 = true ∧
      F32.le (F32.fin 0) (F32.fin (2 ^ 127)) = true ∧
      (forwardLane.Update (F32.fin (2 ^ 127)) (F32.fin 1)).phase_ = F32.nan ∧
      F32.le (F32.fin 0) (forwardLane.Update (F32.fin (2 ^ 127)) (F32.fin 1)).phase_ = false) ∧
    (backwardLane.type_ = LaneType.Traffic ∧
      F32.le (F32.fin 0) backwardLane.phase_ = true ∧
      F32.lt backwardLane.phase_ backwardLane.loopLenTiles_ = true ∧
      (F32.fin (1 / 2 ^ 30)).isBinary32 = true ∧
      F32.le (F32.fin 0) (F32.fin (1 / 2 ^ 30)) = true ∧
      backwardLane.CurrentSpeed (F32.fin 1) = F32.fin (-3 / 2) ∧
      (backwardLane.Update (F32.fin (1 / 2 ^ 30)) (F32.fin 1)).phase_ = F32.fin 25 ∧
      (backwardLane.Update (F32.fin (1 / 2 ^ 30)) (F32.fin 1)).loopLenTiles_ = F32.fin 25 ∧
      F32.lt (backwardLane.Update (F32.fin (1 / 2 ^ 30)) (F32.fin 1)).phase_
        (backwardLane.Update (F32.fin (1 / 2 ^ 30)) (F32.fin 1)).loopLenTiles_ = false) := by
  decide!

/-- C17: in a game with `gridW_ ≥ 1` and `gridH_ ≥ 1` reset with `0 ≤ startX < gridW_`, after
any sequence of `Update` and `HandleInput` calls the player satisfies `0 ≤ x < gridW_` and
`0 ≤ y < gridH_`. -/
theorem player_stays_in_grid (g0 : Game) (rnd : Nat → Nat) (userSeed10 : List Nat)
    (frogColor : SDL_Color) (startX : Int) (calls : List Call)
    (_hW : 1 ≤ g0.gridW_) (hH : 1 ≤ g0.gridH_) (hx0 : 0 ≤ startX) (hx1 : startX < g0.gridW_) :
    0 ≤ ((g0.ResetWithSeed rnd userSeed10 frogColor startX).run calls).frog_.x_ ∧
    ((g0.ResetWithSeed rnd userSeed10 frogColor startX).run calls).frog_.x_ <
      ((g0.ResetWithSeed rnd userSeed10 frogColor startX).run calls).gridW_ ∧
    0 ≤ ((g0.ResetWithSeed rnd userSeed10 frogColor startX).run calls).frog_.y_ ∧
    ((g0.ResetWithSeed rnd userSeed10 frogColor startX).run calls).frog_.y_ <
      ((g0.ResetWithSeed rnd userSeed10 frogColor startX).run calls).gridH_ := by
  have inv0 := WindowInv_reset g0 rnd userSeed10 frogColor startX
  have inv := WindowInv_run _ calls inv0
  obtain ⟨fW, fH, _⟩ := run_frame (g0.ResetWithSeed rnd userSeed10 frogColor startX) calls
  have hx := x_in_grid_run _ calls inv0 (show 0 ≤ startX ∧ startX < g0.gridW_ from ⟨hx0, hx1⟩)
  rw [fW, fH]
  refine ⟨hx.1, hx.2, inv.y_nonneg, ?_⟩
  have hy := inv.y_lt
  rw [fH] at hy
  have hH2 : (g0.ResetWithSeed rnd userSeed10 frogColor startX).gridH_ = g0.gridH_ := rfl
  rw [hH2] at hy ⊢
  omega

/-- Witness for C17: the session of `sampleGame` after seven `Up` inputs. -/
theorem player_stays_in_grid_witness :
    0 ≤ (sampleGame.run (upCalls 7)).frog_.x_ ∧
    (sampleGame.run (upCalls 7)).frog_.x_ < (sampleGame.run (upCalls 7)).gridW_ ∧
    0 ≤ (sampleGame.run (upCalls 7)).frog_.y_ ∧
    (sampleGame.run (upCalls 7)).frog_.y_ < (sampleGame.run (upCalls 7)).gridH_ :=
  player_stays_in_grid (Game.create 15 9) (fun _ => 0) [52, 50] ⟨0, 255, 0, 255⟩ 7 (upCalls 7)
    (by decide) (by decide) (by decide) (by decide)

/-- C18: an `Up` call that returns true raises the score by exactly 1, also when it scrolls; a
`Down` call that returns true lowers it by exactly 1; `Left` and `Right` calls, every call that
returns false and every `Update` leave the score as it is.  This holds in every state. -/
theorem score_follows_vertical_moves (g : Game) :
    ((g.HandleInput InputAction.Up).1 = true →
      (g.HandleInput InputAction.Up).2.frog_.score_ = g.frog_.score_ + 1) ∧
    ((g.HandleInput InputAction.Down).1 = true →
      (g.HandleInput InputAction.Down).2.frog_.score_ = g.frog_.score_ - 1) ∧
    (g.HandleInput InputAction.Left).2.frog_.score_ = g.frog_.score_ ∧
    (g.HandleInput InputAction.Right).2.frog_.score_ = g.frog_.score_ ∧
    (∀ a : InputAction, (g.HandleInput a).1 = false →
      (g.HandleInput a).2.frog_.score_ = g.frog_.score_) ∧
    (∀ dt : ℚ, (g.Update dt).frog_.score_ = g.frog_.score_) := by
  have hrej : ∀ a : InputAction, (g.HandleInput a).1 = false →
      (g.HandleInput a).2.frog_.score_ = g.frog_.score_ := by
    intro a h; rw [HandleInput_false_state g a h]
  have hside : ∀ a : InputAction, a = InputAction.Left ∨ a = InputAction.Right →
      (g.HandleInput a).2.frog_.score_ = g.frog_.score_ := by
    intro a ha
    cases h : (g.HandleInput a).1
    · exact hrej a h
    · rw [(HandleInput_true_score g a h).1]
      obtain ⟨_, _, hm⟩ := HandleInput_true_cases g a h
      rcases applyAction_frog g a hm with ⟨e, _, _⟩ | ⟨e, _, _⟩ | ⟨_, _, hf⟩ | ⟨_, _, hf⟩
      · rcases ha with ha | ha <;> rw [ha] at e <;> cases e
      · rcases ha with ha | ha <;> rw [ha] at e <;> cases e
      · rw [hf]; rfl
      · rw [hf]; rfl
  refine ⟨?_, ?_, hside _ (Or.inl rfl), hside _ (Or.inr rfl), hrej, ?_⟩
  · intro h
    rw [(HandleInput_true_score g _ h).1]
    obtain ⟨_, _, hm⟩ := HandleInput_true_cases g _ h
    rcases applyAction_frog g _ hm with ⟨_, _, hf⟩ | ⟨e, _, _⟩ | ⟨e, _, _⟩ | ⟨e, _, _⟩
    · rw [hf]; rfl
    all_goals cases e
  · intro h
    rw [(HandleInput_true_score g _ h).1]
    obtain ⟨_, _, hm⟩ := HandleInput_true_cases g _ h
    rcases applyAction_frog g _ hm with ⟨e, _, _⟩ | ⟨_, _, hf⟩ | ⟨e, _, _⟩ | ⟨e, _, _⟩
    · cases e
    · rw [hf]
    all_goals cases e
  · intro dt
    rw [(Update_frame g dt).2.2.1]

/-- Witness for C18: in the session of `sampleGame` after six `Up` inputs, the scrolling
seventh `Up` adds 1 and a `Down` would subtract 1. -/
theorem score_follows_vertical_moves_witness :
    ((sampleGame.run (upCalls 6)).HandleInput InputAction.Up).2.frog_.score_ =
        (sampleGame.run (upCalls 6)).frog_.score_ + 1 ∧
    ((sampleGame.run (upCalls 6)).HandleInput InputAction.Down).2.frog_.score_ =
        (sampleGame.run (upCalls 6)).frog_.score_ - 1 ∧
    ((sampleGame.run (upCalls 6)).HandleInput InputAction.Up).2.bottomRowWorld_ = 7 :=
  ⟨(score_follows_vertical_moves (sampleGame.run (upCalls 6))).1 (by decide),
    (score_follows_vertical_moves (sampleGame.run (upCalls 6))).2.1 (by decide), by decide⟩

/-- C19: in every reachable state of a game with `gridH_ = 9` the lanes, listed from the top
(grid row 8) to the bottom (grid row 0), have the world rows `bottomRowWorld_ + 8` down to
`bottomRowWorld_` and the types Safe, Safe, five times Traffic, Safe, Safe: grid rows 0, 1, 7
and 8 are Safe and grid rows 2 to 6 are Traffic.  So after a scroll the two lowest rows are the
Safe pair of the new block, grid row 1 of the relocated player is Safe, and two Safe rows show
past the block. -/
theorem nine_row_window_types (g : Game) (hr : Reachable g) (h9 : g.gridH_ = 9) :
    g.lanes_.map Lane.worldRowIndex_ =
      [g.bottomRowWorld_ + 8, g.bottomRowWorld_ + 7, g.bottomRowWorld_ + 6,
        g.bottomRowWorld_ + 5, g.bottomRowWorld_ + 4, g.bottomRowWorld_ + 3,
        g.bottomRowWorld_ + 2, g.bottomRowWorld_ + 1, g.bottomRowWorld_] ∧
    g.lanes_.map Lane.type_ =
      [LaneType.Safe, LaneType.Safe, LaneType.Traffic, LaneType.Traffic, LaneType.Traffic,
        LaneType.Traffic, LaneType.Traffic, LaneType.Safe, LaneType.Safe] := by
  have inv := WindowInv_of_reachable hr
  have hb := inv.bottom_mod
  have hb0 := inv.bottom_nonneg
  have hlen : g.lanes_.length = 9 := by rw [inv.len, h9]; rfl
  have htop : g.topRowWorld_ = g.bottomRowWorld_ + 8 := by
    have := inv.span; rw [h9] at this; omega
  have hrows : g.lanes_.map Lane.worldRowIndex_ =
      [g.bottomRowWorld_ + 8, g.bottomRowWorld_ + 7, g.bottomRowWorld_ + 6,
        g.bottomRowWorld_ + 5, g.bottomRowWorld_ + 4, g.bottomRowWorld_ + 3,
        g.bottomRowWorld_ + 2, g.bottomRowWorld_ + 1, g.bottomRowWorld_] := by
    rw [inv.rows, hlen, htop]
    simp only [rowsFrom, List.cons.injEq, and_true]
    refine ⟨trivial, ?_, ?_, ?_, ?_, ?_, ?_, ?_, ?_⟩ <;> omega
  refine ⟨hrows, ?_⟩
  have htypes : g.lanes_.map Lane.type_ = (g.lanes_.map Lane.worldRowIndex_).map (fun wr : Int =>
      if wr.tmod 7 = 0 ∨ wr.tmod 7 = 1 then LaneType.Safe else LaneType.Traffic) := by
    rw [List.map_map]
    apply List.map_congr_left
    intro ln hln
    exact lane_types_of_reachable hr ln hln
  rw [htypes, hrows]
  have e : ∀ j : Int, 0 ≤ j → (g.bottomRowWorld_ + j).tmod 7 = (g.bottomRowWorld_ + j) % 7 :=
    fun j hj => Int.tmod_eq_emod (by omega) (by omega)
  have e0 : g.bottomRowWorld_.tmod 7 = g.bottomRowWorld_ % 7 :=
    Int.tmod_eq_emod hb0 (by omega)
  simp only [List.map_cons, List.map_nil, e 8 (by omega), e 7 (by omega), e 6 (by omega),
    e 5 (by omega), e 4 (by omega), e 3 (by omega), e 2 (by omega), e 1 (by omega), e0]
  have m8 : (g.bottomRowWorld_ + 8) % 7 = 1 := by omega
  have m7 : (g.bottomRowWorld_ + 7) % 7 = 0 := by omega
  have m6 : (g.bottomRowWorld_ + 6) % 7 = 6 := by omega
  have m5 : (g.bottomRowWorld_ + 5) % 7 = 5 := by omega
  have m4 : (g.bottomRowWorld_ + 4) % 7 = 4 := by omega
  have m3 : (g.bottomRowWorld_ + 3) % 7 = 3 := by omega
  have m2 : (g.bottomRowWorld_ + 2) % 7 = 2 := by omega
  have m1 : (g.bottomRowWorld_ + 1) % 7 = 1 := by omega
  rw [m8, m7, m6, m5, m4, m3, m2, m1, hb]
  simp

/-- Witness for C19: the session of `sampleGame` right after its first scroll. -/
theorem nine_row_window_types_witness :
    (sampleGame.run (upCalls 7)).lanes_.map Lane.type_ =
      [LaneType.Safe, LaneType.Safe, LaneType.Traffic, LaneType.Traffic, LaneType.Traffic,
        LaneType.Traffic, LaneType.Traffic, LaneType.Safe, LaneType.Safe] :=
  (nine_row_window_types (sampleGame.run (upCalls 7))
    (reachable_run (Reachable.reset (Game.create 15 9) (fun _ => 0) [52, 50] ⟨0, 255, 0, 255⟩ 7)
      (upCalls 7))
    (by decide)).2

/-- Counterexample for C20: world row -6 has the mathematical remainder 1 modulo 7, and
`GenerateLane` returns a Traffic lane for it. -/
theorem negative_row_not_safe :
    (-6 : Int) % 7 = 1 ∧ (GenerateLane 7454281547471370725 (-6)).type_ = LaneType.Traffic := by
  decide

/-- C20, amended: for every match seed and every integer world row, `GenerateLane` returns a
Safe lane exactly when the row is a multiple of 7, negative multiples included, or is
non-negative with remainder 1 modulo 7; that is, exactly when the truncating remainder
`worldRow % 7` of C++ is 0 or 1. -/
theorem GenerateLane_safe_iff_truncated (matchSeed : Nat) (worldRow : Int) :
    ((GenerateLane matchSeed worldRow).type_ = LaneType.Safe ↔
      worldRow % 7 = 0 ∨ (0 ≤ worldRow ∧ worldRow % 7 = 1)) ∧
    ((GenerateLane matchSeed worldRow).type_ = LaneType.Safe ↔
      worldRow.tmod 7 = 0 ∨ worldRow.tmod 7 = 1) := by
  have h2 : (GenerateLane matchSeed worldRow).type_ = LaneType.Safe ↔
      worldRow.tmod 7 = 0 ∨ worldRow.tmod 7 = 1 := by
    rw [GenerateLane_type]
    split_ifs with h
    · simp only [true_iff]; exact h
    · simp only [false_iff, reduceCtorEq]; exact h
  refine ⟨?_, h2⟩
  rw [h2, tmod_seven_eq_zero_iff, tmod_seven_eq_one_iff]

/-! ### Lemmas for the later claims -/

theorem Lane_Update_spec (ln : Lane) (dt sc : ℚ) :
    ({ ln.Update dt sc with phase_ := 0 } : Lane) = { ln with phase_ := 0 } := by
  unfold Lane.Update
  split_ifs <;> rfl

/-- Every lane of a reachable window is, up to its phase, the lane `GenerateLane` returns for
the game's match seed and the lane's world row. -/
theorem lanes_generated_of_reachable {g : Game} (h : Reachable g) :
    ∀ ln ∈ g.lanes_,
      ({ ln with phase_ := 0 } : Lane) = GenerateLane g.matchSeed_ ln.worldRowIndex_ := by
  have hgen : ∀ (seed : Nat) (wr : Int),
      ({ GenerateLane seed wr with phase_ := 0 } : Lane) =
        GenerateLane seed (GenerateLane seed wr).worldRowIndex_ := by
    intro seed wr
    rw [GenerateLane_row]
    have hp := GenerateLane_phase seed wr
    generalize GenerateLane seed wr = l at hp
    cases l
    simp only at hp
    subst hp
    rfl
  induction h with
  | reset g0 rnd userSeed10 frogColor startX =>
    intro ln hln
    change ln ∈ resetLanesLoop _ _ 0 [] at hln
    rw [resetLanesLoop_eq, List.append_nil, List.mem_reverse, List.mem_map] at hln
    obtain ⟨r, _, rfl⟩ := hln
    exact hgen _ _
  | @update g dt _ ih =>
    intro ln hln
    rw [(Update_frame g dt).2.2.2.2.2.2.1]
    obtain ⟨sc, hl | hl⟩ := Update_lanes g dt
    · rw [hl] at hln; exact ih ln hln
    · rw [hl, List.mem_map] at hln
      obtain ⟨l0, hl0, rfl⟩ := hln
      rw [Lane_Update_spec, Lane_Update_row]
      exact ih l0 hl0
  | @handleInput g a _ ih =>
    intro ln hln
    rw [(HandleInput_frame g a).2.2]
    rcases HandleInput_lanes g a with hl | hl
    · rw [hl] at hln; exact ih ln hln
    · rw [hl] at hln
      rcases pushFrontLoop_mem _ _ _ _ _ hln with h1 | ⟨wr, rfl⟩
      · rw [popBackLoop_eq_take] at h1
        exact ih ln (List.mem_of_mem_take h1)
      · exact hgen _ _

theorem reset_run_matchSeed (g0 : Game) (rnd : Nat → Nat) (seed : List Nat) (c : SDL_Color)
    (x : Int) (calls : List Call) :
    ((g0.ResetWithSeed rnd seed c x).run calls).matchSeed_ =
      SeedToU64 (NormalizeSeed10 rnd seed) := by
  rw [(run_frame _ calls).2.2]
  rfl

theorem clampX_lanesAdvanced (g : Game) : g.clampX.lanesAdvanced_ = g.lanesAdvanced_ :=
  (clampX_frame g).2.2.2.2.2.2.2.1

theorem HandleInput_counters (g : Game) (a : InputAction) :
    ((g.HandleInput a).2.bottomRowWorld_ = g.bottomRowWorld_ ∧
      (g.HandleInput a).2.lanesAdvanced_ = g.lanesAdvanced_) ∨
    ((g.HandleInput a).2.bottomRowWorld_ = g.bottomRowWorld_ + 7 ∧
      (g.HandleInput a).2.lanesAdvanced_ = g.lanesAdvanced_ + 7) := by
  cases h : (g.HandleInput a).1
  · rw [HandleInput_false_state g a h]; exact Or.inl ⟨rfl, rfl⟩
  · obtain ⟨hover, hlock, hm⟩ := HandleInput_true_cases g a h
    rw [HandleInput_moved g a hover hlock hm]
    cases he : ({ g with frog_ := (g.applyAction a).1 } : Game).enteringNextBlockFirstSafe
        g.frog_.y_ (g.applyAction a).1.y_
    · rw [ApplyScroll_of_not_entering _ _ _ he]
      exact Or.inl ⟨(clampX_frame _).2.2.2.2.2.2.1, clampX_lanesAdvanced _⟩
    · right
      obtain ⟨eb, _, _, _, _, ea, _⟩ := ApplyScroll_of_entering _ _ _ he
      constructor
      · show Game.bottomRowWorld_ (Game.clampX _) = _
        rw [(clampX_frame _).2.2.2.2.2.2.1, eb]
      · show Game.lanesAdvanced_ (Game.clampX _) = _
        rw [clampX_lanesAdvanced, ea]

/-- The score, the grid row and the window bottom are tied in every reachable state. -/
theorem score_of_reachable {g : Game} (hr : Reachable g) :
    g.frog_.score_ = g.frog_.y_ + 6 * (g.bottomRowWorld_ / 7) := by
  induction hr with
  | reset g0 rnd userSeed10 frogColor startX => rfl
  | @update g dt hg ih =>
    rw [(Update_frame g dt).2.2.1, (Update_frame g dt).2.2.2.2.1]
    exact ih
  | @handleInput g a hg ih =>
    have inv := WindowInv_of_reachable hg
    have hb := inv.bottom_mod
    cases h : (g.HandleInput a).1
    · rw [HandleInput_false_state g a h]; exact ih
    · obtain ⟨hover, hlock, hm⟩ := HandleInput_true_cases g a h
      have hs := (HandleInput_true_score g a h).1
      rcases HandleInput_outcome g a inv hover hlock with
        ⟨hm0, _⟩ | ⟨_, _, he⟩ | ⟨ha, hy, _, _, hbot, _, hy1, _, _, _⟩
      · rw [hm] at hm0; cases hm0
      · rw [hs]
        rw [he]
        obtain ⟨_, _, _, _, _, _, cb, _, _, _, _, _, cy, _⟩ :=
          clampX_frame ({ g with frog_ := (g.applyAction a).1 } : Game)
        simp only at cb cy
        rw [cb, cy]
        rcases applyAction_frog g a hm with ⟨_, _, hf⟩ | ⟨_, _, hf⟩ | ⟨_, _, hf⟩ | ⟨_, _, hf⟩
        · rw [hf]; simp only [Frog.MoveUp]; omega
        · rw [hf]; simp only; omega
        · rw [hf]; simp only [Frog.MoveLeft]; omega
        · rw [hf]; simp only [Frog.MoveRight]; omega
      · rw [hs, hbot, hy1]
        rcases applyAction_frog g a hm with ⟨_, _, hf⟩ | ⟨e, _, _⟩ | ⟨e, _, _⟩ | ⟨e, _, _⟩
        · rw [hf]; simp only [Frog.MoveUp]; omega
        all_goals (rw [ha] at e; cases e)

theorem slotSpan_nonneg_of_bounds (s : VehicleSlot)
    (h : (s.lengthTiles = 1 ∨ s.lengthTiles = 2 ∨ s.lengthTiles = 3) ∧
      2 ≤ s.gapTiles ∧ s.gapTiles ≤ 5) : 0 ≤ slotSpan s := by
  unfold slotSpan
  have : (0 : Int) ≤ s.lengthTiles + s.gapTiles := by
    rcases h.1 with h1 | h1 | h1 <;> omega
  exact_mod_cast this

theorem sum_map_nonneg (l : List VehicleSlot) (h : ∀ s ∈ l, 0 ≤ slotSpan s) :
    0 ≤ (l.map slotSpan).sum := by
  induction l with
  | nil => simp
  | cons s rest ih =>
    simp only [List.map_cons, List.sum_cons]
    have h1 := h s (List.mem_cons_self _ _)
    have h2 := ih (fun t ht => h t (List.mem_cons_of_mem _ ht))
    linarith

/-- The offsets of a generated lane are not negative. -/
theorem GenerateLane_offset_nonneg (seed : Nat) (wr : Int) :
    ∀ s ∈ (GenerateLane seed wr).slots_, 0 ≤ s.offset := by
  intro s hs
  obtain ⟨_, hb⟩ := GenerateLane_slots_bounds seed wr
  obtain ⟨ln0, hln⟩ := GenerateLane_built seed wr
  rw [hln] at hs hb
  obtain ⟨i, hi, hget⟩ := List.mem_iff_getElem.mp hs
  have hsome : ln0.buildPatternOffsets_.slots_[i]? = some s := by
    rw [List.getElem?_eq_getElem hi, hget]
  have hoff := offsetsLoop_offset ln0.slots_ 0 i s hsome
  rw [zero_add] at hoff
  rw [hoff, List.map_take, ← offsetsLoop_span ln0.slots_ 0, ← List.map_take]
  apply sum_map_nonneg
  intro t ht
  exact slotSpan_nonneg_of_bounds t (hb t (List.mem_of_mem_take ht))

theorem phaseInLoop_of_phase_zero (ln : Lane) (h : ln.phase_ = 0) : ln.phaseInLoop = 0 := by
  unfold Lane.phaseInLoop
  rw [h, fmod_zero_left]
  simp

/-- A lane with phase 0 and no negative offset shows no vehicle: on a `Right` lane every slot
ends at or left of tile 0, on a `Left` lane every slot starts at or right of `gridW`. -/
theorem visibleObstacles_of_phase_zero (ln : Lane) (gridW rowY : Int) (hp : ln.phase_ = 0)
    (hoff : ∀ s ∈ ln.slots_, 0 ≤ s.offset) : ln.visibleObstacles gridW rowY = [] := by
  by_cases hs : ln.type_ = LaneType.Safe
  · exact visibleObstacles_safe ln gridW rowY hs
  · have h := visitSlot_collect ln gridW rowY ln.slots_ []
    unfold Lane.visibleObstacles Lane.ForEachVisibleVehicle
    rw [if_neg hs, h, List.nil_append, List.map_eq_nil_iff, List.filter_eq_nil_iff]
    intro s hsl
    have ho := hoff s hsl
    have hph := phaseInLoop_of_phase_zero ln hp
    simp only [decide_eq_true_eq, not_and, not_lt]
    unfold Lane.vehicleX
    rw [hph]
    split_ifs with hd
    · intro hpos
      exfalso
      linarith
    · intro _
      linarith

theorem GenerateLane_shows_nothing (seed : Nat) (wr : Int) (gridW rowY : Int) :
    (GenerateLane seed wr).visibleObstacles gridW rowY = [] :=
  visibleObstacles_of_phase_zero _ gridW rowY (GenerateLane_phase seed wr)
    (GenerateLane_offset_nonneg seed wr)

theorem CollidesAtScreenRow_iff (ln : Lane) (player : TileRect) (gridW rowY : Int) :
    ln.CollidesAtScreenRow player gridW rowY = true ↔
      ∃ v ∈ ln.visibleObstacles gridW rowY,
        (player.x < v.x + v.w ∧ player.x + player.w > v.x) ∧
        (player.y < v.y + v.h ∧ player.y + player.h > v.y) := by
  unfold Lane.CollidesAtScreenRow
  split_ifs with h
  · simp [visibleObstacles_safe ln gridW rowY h]
  · rw [ForEachVisibleVehicle_eq_foldl, collideStep_foldl]
    simp

theorem CollidesAtScreenRow_of_nothing (ln : Lane) (player : TileRect) (gridW rowY : Int)
    (h : ln.visibleObstacles gridW rowY = []) :
    ln.CollidesAtScreenRow player gridW rowY = false := by
  cases hc : ln.CollidesAtScreenRow player gridW rowY
  · rfl
  · obtain ⟨v, hv, _⟩ := (CollidesAtScreenRow_iff ln player gridW rowY).mp hc
    rw [h] at hv
    cases hv

theorem forEachVehicleLoop_of_nothing {σ : Type} (gridW gridH : Int) (fn : σ → TileRect → σ)
    (lanes : List Lane) (i : Int) (init : σ)
    (h : ∀ ln ∈ lanes, ∀ rowY : Int, ln.visibleObstacles gridW rowY = []) :
    forEachVehicleLoop gridW gridH fn lanes i init = init := by
  induction lanes generalizing i with
  | nil => rfl
  | cons ln rest ih =>
    rw [forEachVehicleLoop, ForEachVisibleVehicle_eq_foldl,
      h ln (List.mem_cons_self _ _)]
    exact ih _ (fun l hl => h l (List.mem_cons_of_mem _ hl))

theorem collisionScan_of_nothing (gridW gridH : Int) (rect : TileRect) (lanes : List Lane)
    (i : Int) (h : ∀ ln ∈ lanes, ∀ rowY : Int, ln.visibleObstacles gridW rowY = []) :
    collisionScan gridW gridH rect lanes i = false := by
  induction lanes generalizing i with
  | nil => rfl
  | cons ln rest ih =>
    rw [collisionScan, CollidesAtScreenRow_of_nothing ln rect gridW _
      (h ln (List.mem_cons_self _ _) _)]
    simp only [Bool.false_eq_true, if_false]
    exact ih _ (fun l hl => h l (List.mem_cons_of_mem _ hl))

theorem reset_lanes_generated (g0 : Game) (rnd : Nat → Nat) (userSeed10 : List Nat)
    (frogColor : SDL_Color) (startX : Int) :
    ∀ ln ∈ (g0.ResetWithSeed rnd userSeed10 frogColor startX).lanes_,
      ∃ (seed : Nat) (wr : Int), ln = GenerateLane seed wr := by
  intro ln hln
  change ln ∈ resetLanesLoop _ _ 0 [] at hln
  rw [resetLanesLoop_eq, List.append_nil, List.mem_reverse, List.mem_map] at hln
  obtain ⟨r, _, rfl⟩ := hln
  exact ⟨_, _, rfl⟩

theorem GenerateLane_dir (seed : Nat) (wr : Int) (h : ¬ (wr.tmod 7 = 0 ∨ wr.tmod 7 = 1)) :
    (GenerateLane seed wr).dir_ =
      if (wr.tdiv 7 + wr.tmod 7).tmod 2 = 0 then Direction.Left else Direction.Right := by
  unfold GenerateLane
  simp only [h, if_false]
  rfl

theorem GenerateLane_dir_nat (seed n : Nat)
    (h : (GenerateLane seed (n : Int)).type_ = LaneType.Traffic) :
    (GenerateLane seed (n : Int)).dir_ =
      if (n / 7 + n % 7) % 2 = 0 then Direction.Left else Direction.Right := by
  have hm : (n : Int).tmod 7 = ((n % 7 : Nat) : Int) := by
    rw [Int.tmod_eq_emod (by omega) (by omega)]; rfl
  have hd : (n : Int).tdiv 7 = ((n / 7 : Nat) : Int) := by
    rw [Int.tdiv_eq_ediv (by omega) (by omega)]; rfl
  have hmod : ¬ ((n : Int).tmod 7 = 0 ∨ (n : Int).tmod 7 = 1) := by
    intro hc
    rw [GenerateLane_type, if_pos hc] at h
    cases h
  rw [GenerateLane_dir seed _ hmod, hm, hd]
  have h2 : (((n / 7 : Nat) : Int) + ((n % 7 : Nat) : Int)).tmod 2 =
      (((n / 7 + n % 7) % 2 : Nat) : Int) := by
    rw [Int.tmod_eq_emod (by omega) (by omega)]
    omega
  rw [h2]
  by_cases hp : (n / 7 + n % 7) % 2 = 0
  · rw [if_pos hp, if_pos (by omega)]
  · rw [if_neg hp, if_neg (by omega)]

theorem RepeatsOf_double (s out : List Nat) (hs : s ≠ []) (h : RepeatsOf s out) :
    RepeatsOf s (out ++ out) := by
  have hpos : 0 < s.length := List.length_pos.mpr hs
  obtain ⟨k, hk⟩ := h.1
  refine ⟨⟨k + k, by rw [List.length_append, hk]; ring⟩, ?_⟩
  intro i hi
  by_cases hlt : i < out.length
  · rw [List.getElem?_append_left hlt]; exact h.2 i hlt
  · have hge : out.length ≤ i := Nat.le_of_not_lt hlt
    rw [List.getElem?_append_right hge]
    rw [List.length_append] at hi
    have hsmall : i - out.length < out.length := by omega
    rw [h.2 _ hsmall]
    congr 1
    have e : i = (i - out.length) + s.length * k := by omega
    nth_rewrite 2 [e]
    rw [Nat.add_mul_mod_self_left]

theorem RepeatsOf_self (s : List Nat) : RepeatsOf s s := by
  refine ⟨dvd_refl _, ?_⟩
  intro i hi
  rw [Nat.mod_eq_of_lt hi]

theorem doublingLoop_spec (fuel : Nat) (s out : List Nat) (hs : s ≠ [])
    (h : RepeatsOf s out) (hout : out ≠ []) (hfuel : 10 ≤ out.length * 2 ^ fuel) :
    RepeatsOf s (doublingLoop fuel out) ∧ 10 ≤ (doublingLoop fuel out).length := by
  induction fuel generalizing out with
  | zero => exact ⟨h, by simpa using hfuel⟩
  | succ n ih =>
    unfold doublingLoop
    split_ifs with hlt
    · apply ih _ (RepeatsOf_double s out hs h)
      · intro he
        exact hout (List.append_eq_nil.mp he).1
      · rw [List.length_append]
        rw [pow_succ] at hfuel
        nlinarith
    · exact ⟨h, by omega⟩

theorem normalizeSeed_repeats (rnd : Nat → Nat) (s : List Nat) (hs : s ≠ []) :
    (normalizeSeed rnd s).length = 10 ∧
    ∀ i : Nat, i < 10 → (normalizeSeed rnd s)[i]? = s[i % s.length]? := by
  have hne : s.isEmpty = false := by cases s with
    | nil => exact absurd rfl hs
    | cons _ _ => rfl
  have hpos : 0 < s.length := List.length_pos.mpr hs
  unfold normalizeSeed
  simp only [hne, Bool.false_eq_true, if_false]
  split_ifs with hlen
  · refine ⟨?_, ?_⟩
    · rw [List.length_take]; omega
    · intro i hi
      rw [List.getElem?_take_of_lt hi, Nat.mod_eq_of_lt (by omega)]
  · obtain ⟨hrep, hlen10⟩ := doublingLoop_spec 4 s s hs (RepeatsOf_self s) hs (by omega)
    refine ⟨?_, ?_⟩
    · rw [List.length_take]; omega
    · intro i hi
      rw [List.getElem?_take_of_lt hi]
      exact hrep.2 i (by omega)

theorem NormalizeSeed10_units (rnd : Nat → Nat) (s : List Nat) (hs : s ≠ []) :
    (NormalizeSeed10 rnd s).length = 10 ∧
    ∀ i : Nat, i < 10 → (NormalizeSeed10 rnd s)[i]? = s[i % s.length]? := by
  have hne : s.isEmpty = false := by cases s with
    | nil => exact absurd rfl hs
    | cons _ _ => rfl
  unfold NormalizeSeed10
  simp only [hne, Bool.false_eq_true, if_false]
  split_ifs with hlen
  · refine ⟨?_, ?_⟩
    · rw [List.length_take]; omega
    · intro i hi
      rw [List.getElem?_take_of_lt hi, Nat.mod_eq_of_lt (by omega)]
  · obtain ⟨hrep, hlen10⟩ := normalizeLoop_spec 10 s [] hs (RepeatsOf_nil s) (by simp)
    refine ⟨?_, ?_⟩
    · rw [List.length_take]; omega
    · intro i hi
      rw [List.getElem?_take_of_lt hi]
      exact hrep.2 i (by omega)

theorem NormalizeSeed10_of_length_ten (rnd : Nat → Nat) (s : List Nat) (h : s.length = 10) :
    NormalizeSeed10 rnd s = s := by
  have hne : s.isEmpty = false := by cases s with
    | nil => simp at h
    | cons _ _ => rfl
  unfold NormalizeSeed10
  simp only [hne, Bool.false_eq_true, if_false]
  rw [if_pos (by omega), List.take_of_length_le (by omega)]

/-- C21: two games reset with the same non-empty seed string, whatever their earlier states,
colours, start columns and later sequences of `Update` and `HandleInput` calls, hold the same
`matchSeed_`, so `GenerateLane` returns the same lane for every world row in both; and lanes of
their windows that stand for the same world row agree in everything but the phase (type,
direction, the three speeds, the slots and the loop length). -/
theorem generated_lanes_depend_on_seed_and_row (g1 g2 : Game) (rnd1 rnd2 : Nat → Nat)
    (seed : List Nat) (c1 c2 : SDL_Color) (x1 x2 : Int) (calls1 calls2 : List Call)
    (hs : seed ≠ []) :
    ((g1.ResetWithSeed rnd1 seed c1 x1).run calls1).matchSeed_ =
      ((g2.ResetWithSeed rnd2 seed c2 x2).run calls2).matchSeed_ ∧
    (∀ wr : Int,
      GenerateLane ((g1.ResetWithSeed rnd1 seed c1 x1).run calls1).matchSeed_ wr =
        GenerateLane ((g2.ResetWithSeed rnd2 seed c2 x2).run calls2).matchSeed_ wr) ∧
    (∀ ln1 ∈ ((g1.ResetWithSeed rnd1 seed c1 x1).run calls1).lanes_,
      ∀ ln2 ∈ ((g2.ResetWithSeed rnd2 seed c2 x2).run calls2).lanes_,
        ln1.worldRowIndex_ = ln2.worldRowIndex_ →
          ({ ln1 with phase_ := 0 } : Lane) = { ln2 with phase_ := 0 }) := by
  have hseed : ((g1.ResetWithSeed rnd1 seed c1 x1).run calls1).matchSeed_ =
      ((g2.ResetWithSeed rnd2 seed c2 x2).run calls2).matchSeed_ := by
    rw [reset_run_matchSeed, reset_run_matchSeed, NormalizeSeed10_of_nonempty rnd1 rnd2 seed hs]
  refine ⟨hseed, fun wr => by rw [hseed], ?_⟩
  intro ln1 h1 ln2 h2 hrow
  rw [lanes_generated_of_reachable (reachable_run (Reachable.reset g1 rnd1 seed c1 x1) calls1)
      ln1 h1,
    lanes_generated_of_reachable (reachable_run (Reachable.reset g2 rnd2 seed c2 x2) calls2)
      ln2 h2, hseed, hrow]

/-- Witness for C21: the session of `sampleGame` after seven `Up` inputs against the same
session after two `Up` inputs and a tick of four seconds. -/
theorem generated_lanes_depend_on_seed_and_row_witness :
    (sampleGame.run (upCalls 7)).matchSeed_ = crashedGame.matchSeed_ ∧
    (∀ ln1 ∈ (sampleGame.run (upCalls 7)).lanes_, ∀ ln2 ∈ crashedGame.lanes_,
      ln1.worldRowIndex_ = ln2.worldRowIndex_ →
        ({ ln1 with phase_ := 0 } : Lane) = { ln2 with phase_ := 0 }) :=
  ⟨(generated_lanes_depend_on_seed_and_row (Game.create 15 9) (Game.create 15 9) (fun _ => 0)
      (fun _ => 0) [52, 50] ⟨0, 255, 0, 255⟩ ⟨0, 255, 0, 255⟩ 7 7 (upCalls 7)
      [Call.input InputAction.Up, Call.input InputAction.Up, Call.tick 4] (by decide)).1,
    (generated_lanes_depend_on_seed_and_row (Game.create 15 9) (Game.create 15 9) (fun _ => 0)
      (fun _ => 0) [52, 50] ⟨0, 255, 0, 255⟩ ⟨0, 255, 0, 255⟩ 7 7 (upCalls 7)
      [Call.input InputAction.Up, Call.input InputAction.Up, Call.tick 4] (by decide)).2.2⟩

/-- C23: for every match seed and every non-negative Traffic world row, the direction is
`Left` when `worldRow / 7 + worldRow mod 7` is even and `Right` otherwise; so two Traffic rows
one above the other, which always belong to the same block, move in opposite directions. -/
theorem traffic_direction_alternates (matchSeed worldRow : Nat) :
    ((GenerateLane matchSeed (worldRow : Int)).type_ = LaneType.Traffic →
      (GenerateLane matchSeed (worldRow : Int)).dir_ =
        if (worldRow / 7 + worldRow % 7) % 2 = 0 then Direction.Left else Direction.Right) ∧
    ((GenerateLane matchSeed (worldRow : Int)).type_ = LaneType.Traffic →
      (GenerateLane matchSeed ((worldRow + 1 : Nat) : Int)).type_ = LaneType.Traffic →
      (GenerateLane matchSeed (worldRow : Int)).dir_ ≠
        (GenerateLane matchSeed ((worldRow + 1 : Nat) : Int)).dir_) := by
  refine ⟨GenerateLane_dir_nat matchSeed worldRow, ?_⟩
  intro h1 h2
  rw [GenerateLane_dir_nat matchSeed worldRow h1, GenerateLane_dir_nat matchSeed (worldRow + 1) h2]
  rw [GenerateLane_type_nat] at h1 h2
  have m1 : ¬ (worldRow % 7 = 0 ∨ worldRow % 7 = 1) := by
    intro hc; rw [if_pos hc] at h1; cases h1
  have m2 : ¬ ((worldRow + 1) % 7 = 0 ∨ (worldRow + 1) % 7 = 1) := by
    intro hc; rw [if_pos hc] at h2; cases h2
  have hdiv : (worldRow + 1) / 7 = worldRow / 7 := by omega
  have hmod : (worldRow + 1) % 7 = worldRow % 7 + 1 := by omega
  rw [hdiv, hmod]
  by_cases hp : (worldRow / 7 + worldRow % 7) % 2 = 0
  · rw [if_pos hp, if_neg (by omega)]; exact fun h => by cases h
  · rw [if_neg hp, if_pos (by omega)]; exact fun h => by cases h

/-- Witness for C23: world rows 3 and 4 of the seed "4242424242". -/
theorem traffic_direction_alternates_witness :
    (GenerateLane 7454281547471370725 ((3 : Nat) : Int)).dir_ = Direction.Right ∧
    (GenerateLane 7454281547471370725 ((3 : Nat) : Int)).dir_ ≠
      (GenerateLane 7454281547471370725 ((3 + 1 : Nat) : Int)).dir_ :=
  ⟨(traffic_direction_alternates 7454281547471370725 3).1 (by decide),
    (traffic_direction_alternates 7454281547471370725 3).2 (by decide) (by decide)⟩

/-- C24: `ResetWithSeed` leaves `inputLockOnce_` as it finds it.  In the session of
`sampleGame` the seventh `Up` scrolls and sets the flag; a reset right after it yields a running
game whose first `Up` is rejected and leaves the player at `(7, 0)`, whereas the same `Up` after
the reset of a new game returns true and moves the player to `(7, 1)`.  The state after a reset
depends on the state before it through `gridW_`, `gridH_`, `difficultyAlpha_` and
`inputLockOnce_` only. -/
theorem reset_keeps_input_lock :
    (sampleGame.run (upCalls 7)).inputLockOnce_ = true ∧
    ((sampleGame.run (upCalls 7)).ResetWithSeed (fun _ => 0) [52, 50] ⟨0, 255, 0, 255⟩
      7).inputLockOnce_ = true ∧
    ((sampleGame.run (upCalls 7)).ResetWithSeed (fun _ => 0) [52, 50] ⟨0, 255, 0, 255⟩
      7).gameOver_ = false ∧
    (((sampleGame.run (upCalls 7)).ResetWithSeed (fun _ => 0) [52, 50] ⟨0, 255, 0, 255⟩
      7).HandleInput InputAction.Up).1 = false ∧
    (((sampleGame.run (upCalls 7)).ResetWithSeed (fun _ => 0) [52, 50] ⟨0, 255, 0, 255⟩
      7).HandleInput InputAction.Up).2.position = (7, 0) ∧
    (((Game.create 15 9).ResetWithSeed (fun _ => 0) [52, 50] ⟨0, 255, 0, 255⟩
      7).HandleInput InputAction.Up).1 = true ∧
    (((Game.create 15 9).ResetWithSeed (fun _ => 0) [52, 50] ⟨0, 255, 0, 255⟩
      7).HandleInput InputAction.Up).2.position = (7, 1) ∧
    (∀ (g1 g2 : Game) (rnd : Nat → Nat) (userSeed10 : List Nat) (frogColor : SDL_Color)
      (startX : Int),
      g1.gridW_ = g2.gridW_ → g1.gridH_ = g2.gridH_ →
      g1.difficultyAlpha_ = g2.difficultyAlpha_ → g1.inputLockOnce_ = g2.inputLockOnce_ →
      g1.ResetWithSeed rnd userSeed10 frogColor startX =
        g2.ResetWithSeed rnd userSeed10 frogColor startX) := by
  refine ⟨by decide, by decide, by decide, by decide, by decide, by decide, by decide, ?_⟩
  intro g1 g2 rnd userSeed10 frogColor startX hW hH hA hL
  unfold Game.ResetWithSeed
  simp only [hW, hH, hA, hL]

/-- C25: in every reachable state `bottomRowWorld_` is a non-negative multiple of 7 and
`lanesAdvanced_` equals it. -/
theorem bottom_counts_scrolled_rows (g : Game) (hr : Reachable g) :
    0 ≤ g.bottomRowWorld_ ∧ 7 ∣ g.bottomRowWorld_ ∧ g.lanesAdvanced_ = g.bottomRowWorld_ := by
  have inv := WindowInv_of_reachable hr
  refine ⟨inv.bottom_nonneg, by have := inv.bottom_mod; omega, ?_⟩
  induction hr with
  | reset g0 rnd userSeed10 frogColor startX => rfl
  | @update g dt hg ih =>
    rw [(Update_frame g dt).2.2.2.2.2.1, (Update_frame g dt).2.2.2.2.1]
    exact ih (WindowInv_of_reachable hg)
  | @handleInput g a hg ih =>
    have := ih (WindowInv_of_reachable hg)
    rcases HandleInput_counters g a with ⟨h1, h2⟩ | ⟨h1, h2⟩
    · rw [h1, h2]; exact this
    · rw [h1, h2, this]

/-- Witness for C25: the session of `sampleGame` right after its first scroll. -/
theorem bottom_counts_scrolled_rows_witness :
    0 ≤ (sampleGame.run (upCalls 7)).bottomRowWorld_ ∧
    7 ∣ (sampleGame.run (upCalls 7)).bottomRowWorld_ ∧
    (sampleGame.run (upCalls 7)).lanesAdvanced_ = (sampleGame.run (upCalls 7)).bottomRowWorld_ :=
  bottom_counts_scrolled_rows (sampleGame.run (upCalls 7))
    (reachable_run (Reachable.reset (Game.create 15 9) (fun _ => 0) [52, 50] ⟨0, 255, 0, 255⟩ 7)
      (upCalls 7))

/-- C26: in every reachable state the score is `y + 6 * (bottomRowWorld_ / 7)`, and so it is
never negative. -/
theorem score_is_rows_climbed (g : Game) (hr : Reachable g) :
    g.frog_.score_ = g.frog_.y_ + 6 * (g.bottomRowWorld_ / 7) ∧ 0 ≤ g.frog_.score_ := by
  have inv := WindowInv_of_reachable hr
  have hs := score_of_reachable hr
  have h0 := inv.y_nonneg
  have hb := inv.bottom_nonneg
  refine ⟨hs, ?_⟩
  rw [hs]
  omega

/-- Witness for C26: the session of `sampleGame` right after its first scroll. -/
theorem score_is_rows_climbed_witness :
    (sampleGame.run (upCalls 7)).frog_.score_ =
      (sampleGame.run (upCalls 7)).frog_.y_ +
        6 * ((sampleGame.run (upCalls 7)).bottomRowWorld_ / 7) ∧
    0 ≤ (sampleGame.run (upCalls 7)).frog_.score_ :=
  score_is_rows_climbed (sampleGame.run (upCalls 7))
    (reachable_run (Reachable.reset (Game.create 15 9) (fun _ => 0) [52, 50] ⟨0, 255, 0, 255⟩ 7)
      (upCalls 7))

/-- C27: a lane `GenerateLane` returns has phase 0 and yields no rectangle, for every `gridW`
and in either direction, so no player rectangle collides with it; hence right after
`ResetWithSeed` the callback of `Game::ForEachVehicle` is not invoked at all and the collision
scan of `Game::Update` finds nothing for any player rectangle. -/
theorem fresh_lanes_show_no_vehicle (seed : Nat) (wr : Int) (gridW rowY : Int) :
    (GenerateLane seed wr).phase_ = 0 ∧
    (GenerateLane seed wr).visibleObstacles gridW rowY = [] ∧
    (∀ player : TileRect, (GenerateLane seed wr).CollidesAtScreenRow player gridW rowY = false) ∧
    (∀ (g0 : Game) (rnd : Nat → Nat) (userSeed10 : List Nat) (frogColor : SDL_Color)
      (startX : Int),
      (∀ (σ : Type) (fn : σ → TileRect → σ) (init : σ),
        (g0.ResetWithSeed rnd userSeed10 frogColor startX).ForEachVehicle fn init = init) ∧
      (g0.ResetWithSeed rnd userSeed10 frogColor startX).ForEachVehicle
        (fun (n : Nat) _ => n + 1) 0 = 0 ∧
      (∀ player : TileRect,
        collisionScan g0.gridW_ g0.gridH_ player
          (g0.ResetWithSeed rnd userSeed10 frogColor startX).lanes_ 0 = false)) := by
  refine ⟨GenerateLane_phase seed wr, GenerateLane_shows_nothing seed wr gridW rowY,
    fun player => CollidesAtScreenRow_of_nothing _ player gridW rowY
      (GenerateLane_shows_nothing seed wr gridW rowY), ?_⟩
  intro g0 rnd userSeed10 frogColor startX
  have hn : ∀ gw : Int, ∀ ln ∈ (g0.ResetWithSeed rnd userSeed10 frogColor startX).lanes_,
      ∀ r : Int, ln.visibleObstacles gw r = [] := by
    intro gw ln hln r
    obtain ⟨sd, w, rfl⟩ := reset_lanes_generated g0 rnd userSeed10 frogColor startX ln hln
    exact GenerateLane_shows_nothing sd w gw r
  refine ⟨?_, ?_, ?_⟩
  · intro σ fn init
    exact forEachVehicleLoop_of_nothing _ _ fn _ 0 init (hn _)
  · exact forEachVehicleLoop_of_nothing _ _ _ _ 0 0 (hn _)
  · intro player
    exact collisionScan_of_nothing _ _ player _ 0 (hn _)

/-- C28: for every non-empty string `s`, `normalizeSeed` of `main.cpp` (doubling) returns the
same 10 units as `NormalizeSeed10` of the core (appending); `NormalizeSeed10` returns that
result unchanged, so the seed `main` prints is the `normSeed10_` a reset with it stores.  The
doubling loop ends within its four iterations. -/
theorem normalizeSeed_agrees_with_core (rnd rnd2 : Nat → Nat) (s : List Nat) (hs : s ≠ []) :
    normalizeSeed rnd s = NormalizeSeed10 rnd2 s ∧
    (normalizeSeed rnd s).length = 10 ∧
    NormalizeSeed10 rnd2 (normalizeSeed rnd s) = normalizeSeed rnd s ∧
    (∀ (g0 : Game) (frogColor : SDL_Color) (startX : Int),
      (g0.ResetWithSeed rnd2 (normalizeSeed rnd s) frogColor startX).normSeed10_ =
        normalizeSeed rnd s) := by
  obtain ⟨hl1, he1⟩ := normalizeSeed_repeats rnd s hs
  obtain ⟨hl2, he2⟩ := NormalizeSeed10_units rnd2 s hs
  have hfix := NormalizeSeed10_of_length_ten rnd2 (normalizeSeed rnd s) hl1
  refine ⟨?_, hl1, hfix, fun g0 frogColor startX => hfix⟩
  apply List.ext_getElem?
  intro i
  by_cases hi : i < 10
  · rw [he1 i hi, he2 i hi]
  · rw [List.getElem?_eq_none (by omega), List.getElem?_eq_none (by omega)]

/-- Witness for C28: the seed "abc". -/
theorem normalizeSeed_agrees_with_core_witness :
    normalizeSeed (fun _ => 0) [97, 98, 99] = [97, 98, 99, 97, 98, 99, 97, 98, 99, 97] ∧
    normalizeSeed (fun _ => 0) [97, 98, 99] = NormalizeSeed10 (fun _ => 0) [97, 98, 99] ∧
    NormalizeSeed10 (fun _ => 0) (normalizeSeed (fun _ => 0) [97, 98, 99]) =
      normalizeSeed (fun _ => 0) [97, 98, 99] :=
  ⟨by decide,
    (normalizeSeed_agrees_with_core (fun _ => 0) (fun _ => 0) [97, 98, 99] (by decide)).1,
    (normalizeSeed_agrees_with_core (fun _ => 0) (fun _ => 0) [97, 98, 99] (by decide)).2.2.1⟩

/-- Counterexample for C29: in the session of `sampleGame`, a game of 9 rows, the `Up` from
grid row 4 returns true and takes the player to grid row 5 with the window, the scroll counter
and the suppression flag as they were; the window moves on the `Up` from grid row 6. -/
theorem up_from_row_four_does_not_scroll :
    (sampleGame.run (upCalls 4)).gridH_ = 9 ∧
    (sampleGame.run (upCalls 4)).frog_.y_ = 4 ∧
    ((sampleGame.run (upCalls 4)).HandleInput InputAction.Up).1 = true ∧
    ((sampleGame.run (upCalls 4)).HandleInput InputAction.Up).2.frog_.y_ = 5 ∧
    ((sampleGame.run (upCalls 4)).HandleInput InputAction.Up).2.bottomRowWorld_ =
      (sampleGame.run (upCalls 4)).bottomRowWorld_ ∧
    ((sampleGame.run (upCalls 4)).HandleInput InputAction.Up).2.topRowWorld_ =
      (sampleGame.run (upCalls 4)).topRowWorld_ ∧
    ((sampleGame.run (upCalls 4)).HandleInput InputAction.Up).2.lanesAdvanced_ = 0 ∧
    ((sampleGame.run (upCalls 4)).HandleInput InputAction.Up).2.inputLockOnce_ = false ∧
    (sampleGame.run (upCalls 6)).frog_.y_ = 6 ∧
    ((sampleGame.run (upCalls 6)).HandleInput InputAction.Up).2.bottomRowWorld_ = 7 := by
  decide

/-- C29, amended: in a reachable state of a game with `gridH_ = 9` that is neither over nor
suppressed, a `HandleInput` call moves the window exactly when it is the `Up` from grid row 6
(to grid row 7, the first Safe row of the next block): that call returns true, raises both
bounds by 7 and puts the player on grid row 1.  The `Up` from grid row 4 returns true, takes
the player to grid row 5 and leaves the window as it is. -/
theorem nine_row_scroll_from_row_six (g : Game) (hr : Reachable g) (h9 : g.gridH_ = 9)
    (hplay : g.gameOver_ = false) (hlock : g.inputLockOnce_ = false) :
    (∀ a : InputAction,
      (g.HandleInput a).2.bottomRowWorld_ ≠ g.bottomRowWorld_ ↔
        a = InputAction.Up ∧ g.frog_.y_ = 6) ∧
    (g.frog_.y_ = 6 →
      (g.HandleInput InputAction.Up).1 = true ∧
      (g.HandleInput InputAction.Up).2.bottomRowWorld_ = g.bottomRowWorld_ + 7 ∧
      (g.HandleInput InputAction.Up).2.topRowWorld_ = g.topRowWorld_ + 7 ∧
      (g.HandleInput InputAction.Up).2.frog_.y_ = 1) ∧
    (g.frog_.y_ = 4 →
      (g.HandleInput InputAction.Up).1 = true ∧
      (g.HandleInput InputAction.Up).2.frog_.y_ = 5 ∧
      (g.HandleInput InputAction.Up).2.bottomRowWorld_ = g.bottomRowWorld_ ∧
      (g.HandleInput InputAction.Up).2.topRowWorld_ = g.topRowWorld_ ∧
      (g.HandleInput InputAction.Up).2.lanes_ = g.lanes_) := by
  have inv := WindowInv_of_reachable hr
  have key : ∀ a : InputAction,
      ((g.HandleInput a).2.bottomRowWorld_ ≠ g.bottomRowWorld_ ↔
        a = InputAction.Up ∧ g.frog_.y_ = 6) := by
    intro a
    rcases HandleInput_outcome g a inv hplay hlock with
      ⟨hm, h⟩ | ⟨hm, hns, h⟩ | ⟨ha, hy, _, _, hb, _, _, _, _, _⟩
    · rw [h]
      constructor
      · intro hne; exact absurd rfl hne
      · rintro ⟨ha, hy⟩
        exfalso
        rw [ha] at hm
        have := (applyAction_moved_iff g InputAction.Up).mpr (Or.inl ⟨rfl, by omega⟩)
        rw [hm] at this; cases this
    · rw [h]
      have cb : Game.bottomRowWorld_ (Game.clampX
          ({ g with frog_ := (g.applyAction a).1 } : Game)) = g.bottomRowWorld_ :=
        (clampX_frame _).2.2.2.2.2.2.1
      constructor
      · intro hne; exact absurd cb hne
      · intro hc; exact absurd hc hns
    · constructor
      · intro _; exact ⟨ha, hy⟩
      · intro _; rw [hb]; omega
  refine ⟨key, ?_, ?_⟩
  · intro hy
    rcases HandleInput_outcome g InputAction.Up inv hplay hlock with
      ⟨_, h⟩ | ⟨_, hns, _⟩ | ⟨_, _, _, h1, hb, ht, hy1, _, _, _⟩
    · have := (key InputAction.Up).mpr ⟨rfl, hy⟩
      rw [h] at this; exact absurd rfl this
    · exact absurd ⟨rfl, hy⟩ hns
    · exact ⟨h1, hb, ht, hy1⟩
  · intro hy
    rcases HandleInput_outcome g InputAction.Up inv hplay hlock with
      ⟨hm, _⟩ | ⟨hm, _, h⟩ | ⟨_, hy6, _⟩
    · have := (applyAction_moved_iff g InputAction.Up).mpr (Or.inl ⟨rfl, by omega⟩)
      rw [hm] at this; cases this
    · rw [h]
      obtain ⟨_, _, _, cl, _, ct, cb, _, _, _, _, _, cy, _⟩ :=
        clampX_frame ({ g with frog_ := (g.applyAction InputAction.Up).1 } : Game)
      simp only at cl ct cb cy
      refine ⟨rfl, ?_, cb, ct, cl⟩
      rw [cy]
      rcases applyAction_frog g InputAction.Up hm with
        ⟨_, _, hf⟩ | ⟨e, _, _⟩ | ⟨e, _, _⟩ | ⟨e, _, _⟩
      · rw [hf]; simp only [Frog.MoveUp]; omega
      all_goals cases e
    · omega

/-- Witness for the amended C29: the seventh `Up` of the session of `sampleGame`. -/
theorem nine_row_scroll_from_row_six_witness :
    ((sampleGame.run (upCalls 6)).HandleInput InputAction.Up).1 = true ∧
    ((sampleGame.run (upCalls 6)).HandleInput InputAction.Up).2.bottomRowWorld_ =
      (sampleGame.run (upCalls 6)).bottomRowWorld_ + 7 ∧
    ((sampleGame.run (upCalls 6)).HandleInput InputAction.Up).2.topRowWorld_ =
      (sampleGame.run (upCalls 6)).topRowWorld_ + 7 ∧
    ((sampleGame.run (upCalls 6)).HandleInput InputAction.Up).2.frog_.y_ = 1 :=
  (nine_row_scroll_from_row_six (sampleGame.run (upCalls 6))
    (reachable_run (Reachable.reset (Game.create 15 9) (fun _ => 0) [52, 50] ⟨0, 255, 0, 255⟩ 7)
      (upCalls 6))
    (by decide) (by decide) (by decide)).2.1 (by decide)

end Frogger
